import Mathlib

/-!
# MeoAssistance scheduler: `Assistance.cpp`

A shallow embedding of `src/MeoAssistance/src/Assistance.cpp` (the task-execution
scheduler) and theorems about it.

Conventions of the embedding

* `double` confidences and thresholds are rationals; only `>=` is ever applied to them.
* `int` fields are `Int`.  The only arithmetic on them is `++`/`--` on `exec_times`
  and the crop computation of `print_window`; both stay far inside the `int` range
  for the values the program handles, and signed overflow has no defined wrap-around
  in C++ that could be modelled.
* `m_configer.m_tasks` is a map keyed by task name.  `operator[]` on a missing key
  inserts a value-initialised `TaskInfo`; that value is the parameter `dflt` of the
  functions below (the declaration of `TaskInfo` lives in a header outside this file).
* One iteration of the `while` loop of `working_proc` is the function
  `working_proc_cycle`.  Everything the loop obtains from its collaborators during
  the iteration (captured frame, matcher outcomes, random delay, window bounds, the
  external calls that run while the loop sits in one of its timed waits) is collected
  in `CycleEnv`.  The function returns the state at the end of the iteration together
  with the ordered list of collaborator calls it made.
* A timed wait releases the lock, so other threads may call `stop()` and `start()` any
  number of times before it returns; `stop()` does not notify the condition variable.
  The calls that run during a wait are a list of `ExtCall`, applied in order; the wait
  returns the value of `!m_thread_running` in the state they leave.  `env.stop_pre`
  and its siblings say whether that list contains a `stop()`.  Calls of `set_emulator`,
  `set_param` or `print_window` from other threads during a wait are not modelled.
* A timed wait that is the last thing an iteration does (the `identify_delay` waits)
  has nothing after it inside the iteration, so a call landing there is the same
  as a call between two iterations and is not part of `CycleEnv`.
* `DebugTrace*` logging is omitted; the string built for the final log line is
  modelled separately.  Creating the screenshot directory and formatting the file name
  are omitted.
* An exception leaving `print_window` inside the loop ends the iteration (and the
  thread); this is the `Except.error` outcome of `working_proc_cycle`, which carries the
  calls made up to the exception.
* Construction and destruction of the object (`m_thread_exit`) are not modelled.
* `set_emulator` is a function of the state and of `BindEnv`, which collects what the
  window system answers for each configured profile.
* `Reachable` is the set of states reached from a successful `start` by iterations of the
  loop under any behaviour of the collaborators, stops and restarts during the waits
  included.
-/

namespace asst

/-- Rectangle `asst::Rect` / `cv::Rect`. -/
structure Rect where
  x : Int
  y : Int
  width : Int
  height : Int
deriving DecidableEq, Repr, Inhabited

/-- Modelled from the spec: the enumerators of `AlgorithmType` are declared in `Identify.h`;
the source names `JustReturn`, `MatchTemplate` and `CompareHist`, every other value of
the enumeration is `Other`. -/
inductive AlgorithmType where
  | JustReturn
  | MatchTemplate
  | CompareHist
  | Other (code : Nat)
deriving DecidableEq, Repr

/-- Modelled from the spec: the enumerators of `TaskType` are declared in a header outside
this file.  The six kinds the `switch` names are constructors; any other value (it
reaches `default:`) is `Other`, carrying whether its `BasicClick` bit is set. -/
inductive TaskType where
  | ClickSelf
  | ClickRect
  | ClickRand
  | DoNothing
  | Stop
  | PrintWindow
  | Other (basic_click : Bool)
deriving DecidableEq, Repr

/-- Modelled from the spec: `task.type & TaskType::BasicClick`; the click variants are the
kinds that carry the `BasicClick` bit. -/
def TaskType.hasBasicClick : TaskType → Bool
  | .ClickSelf => true
  | .ClickRect => true
  | .ClickRand => true
  | .DoNothing => false
  | .Stop => false
  | .PrintWindow => false
  | .Other b => b

/-- Record `TaskInfo`, with the fields `Assistance.cpp` reads or writes. -/
structure TaskInfo where
  filename : String
  threshold : ℚ
  cache_threshold : ℚ
  type : TaskType
  specific_area : Rect
  pre_delay : Int
  rear_delay : Int
  max_times : Int
  exec_times : Int
  next : List String
  exceeded_next : List String
  reduce_other_times : List String
deriving DecidableEq, Repr

/-- Tunables `m_configer.m_options`. -/
structure Options where
  identify_cache : Bool
  identify_delay : Int
  control_delay_lower : Int
  control_delay_upper : Int
  print_window : Bool
  print_window_delay : Int
deriving DecidableEq, Repr

/-- Offsets reported by `getEmulatorInfo()`. -/
structure EmulatorInfo where
  x_offset : Int
  y_offset : Int
deriving DecidableEq, Repr

/-- The map `m_configer.m_tasks`, as an association list in insertion order. -/
abbrev TaskMap := List (String × TaskInfo)

/-- Lookup without insertion. -/
def TaskMap.find (k : String) : TaskMap → Option TaskInfo
  | [] => none
  | (n, t) :: rest => if n = k then some t else TaskMap.find k rest

/-- The value `m_tasks[k]` denotes: the stored record, or the value-initialised one that
`operator[]` inserts when `k` is missing. -/
def getTask (dflt : TaskInfo) (m : TaskMap) (k : String) : TaskInfo :=
  (TaskMap.find k m).getD dflt

/-- Access `m_tasks[k]` followed by a write `f` through the returned reference; a missing
key is inserted with the value-initialised record first. -/
def modifyTask (dflt : TaskInfo) (f : TaskInfo → TaskInfo) (k : String) : TaskMap → TaskMap
  | [] => [(k, f dflt)]
  | (n, t) :: rest =>
    if n = k then (n, f t) :: rest else (n, t) :: modifyTask dflt f k rest

/-- The read-only access `m_tasks[k]`: only the insertion of a missing key is visible. -/
def touchTask (dflt : TaskInfo) (k : String) (m : TaskMap) : TaskMap :=
  modifyTask dflt id k m

/-- The configuration object `m_configer`; `m_handles` lists the configured emulator
profiles in the order the range-`for` of `set_emulator` visits them. -/
structure Configer where
  m_tasks : TaskMap
  m_options : Options
  DefaultWindowWidth : Int
  DefaultWindowHeight : Int
  m_handles : List (String × EmulatorInfo) := []
deriving DecidableEq, Repr

/-- Modelled from the spec: `Configer::clear_exec_times` is defined outside this file; the
spec says it "resets every task's `exec_count` to zero". -/
def Configer.clear_exec_times (c : Configer) : Configer :=
  { c with m_tasks := c.m_tasks.map (fun p => (p.1, { p.2 with exec_times := 0 })) }

/-- The fields of `Assistance` the scheduler works on.  `cache_clears` counts the calls of
`m_pIder->clear_cache()`; `m_pView` stands for the emulator info of the bound view. -/
structure Assistance where
  m_configer : Configer
  m_next_tasks : List String
  m_thread_running : Bool
  m_thread_exit : Bool
  m_inited : Bool
  m_pView : EmulatorInfo
  cache_clears : Nat
deriving DecidableEq, Repr

/-- A captured frame `cv::Mat`, as far as the scheduler inspects it. -/
structure Mat where
  empty : Bool
  cols : Int
  rows : Int
deriving DecidableEq, Repr

/-- The timed waits of the loop. -/
inductive WaitKind where
  | recover
  | pre
  | random
  | print
  | rear
  | identify
deriving DecidableEq, Repr

/-- Calls the scheduler makes on its collaborators, in program order; `print_window` marks
the call of `Assistance::print_window` from the loop. -/
inductive Effect where
  | getImage
  | showWindow
  | find_image (task_name : String) (threshold : ℚ)
  | wait_for (kind : WaitKind) (ms : Int)
  | wait_idle
  | click (r : Rect)
  | stop_nonblock
  | print_window
  | crop (r : Rect)
  | imwrite
deriving DecidableEq, Repr

/-- Ways an iteration can be cut short by an exception. -/
inductive Fault where
  | cv_exception
deriving DecidableEq, Repr

/-- A call another thread makes on the object while the loop sits in a timed wait: the
external `stop()` or `start(task)`. -/
inductive ExtCall where
  | stop
  | start (task : String)
deriving DecidableEq, Repr

/-- Whether a `stop()` is among the calls. -/
def has_stop (calls : List ExtCall) : Bool :=
  calls.any (fun c => decide (c = ExtCall.stop))

/-- What the collaborators deliver during one iteration of the loop.  `calls_pre`,
`calls_random`, `calls_print` and `calls_rear` are the external calls that run, in this
order, during the `pre_delay` wait, the randomised click delay, the export delay and the
`rear_delay` wait. -/
structure CycleEnv where
  cur_image : Mat
  find_image : String → ℚ → AlgorithmType × ℚ × Rect
  window_rect : Rect
  rand_delay : Int
  calls_pre : List ExtCall
  calls_random : List ExtCall
  calls_print : List ExtCall
  calls_rear : List ExtCall
  print_image : Mat
  imwrite_ok : Bool

/-- Whether a stop arrives during the `pre_delay` wait. -/
def CycleEnv.stop_pre (env : CycleEnv) : Bool := has_stop env.calls_pre

/-- Whether a stop arrives during the randomised click delay. -/
def CycleEnv.stop_random (env : CycleEnv) : Bool := has_stop env.calls_random

/-- Whether a stop arrives during the export delay. -/
def CycleEnv.stop_print (env : CycleEnv) : Bool := has_stop env.calls_print

/-- Whether a stop arrives during the `rear_delay` wait. -/
def CycleEnv.stop_rear (env : CycleEnv) : Bool := has_stop env.calls_rear

/-- Replace the task map of the state. -/
def Assistance.setTasks (s : Assistance) (m : TaskMap) : Assistance :=
  { s with m_configer := { s.m_configer with m_tasks := m } }

/-- Function `Assistance::start`. -/
def start (task : String) (s : Assistance) : Assistance :=
  if s.m_thread_running ∨ ¬ s.m_inited then s
  else
    { s with
      m_configer := s.m_configer.clear_exec_times
      cache_clears := s.cache_clears + 1
      m_next_tasks := [task]
      m_thread_running := true }

/-- Function `Assistance::stop`. -/
def stop (block : Bool) (s : Assistance) : Assistance :=
  let s1 := if block then { s with m_configer := s.m_configer.clear_exec_times } else s
  { s1 with
    m_thread_running := false
    m_next_tasks := []
    cache_clears := s1.cache_clears + 1 }

/-- The effect of one external call; the branch `block = true` of `stop` is the one line 115
marks as the external call. -/
def ExtCall.run : ExtCall → Assistance → Assistance
  | .stop, s => asst.stop true s
  | .start task, s => asst.start task s

/-- The external calls of a wait, applied in the order they take the lock. -/
def run_calls (calls : List ExtCall) (s : Assistance) : Assistance :=
  calls.foldl (fun x c => c.run x) s

/-- A call `m_condvar.wait_for(lock, d, pred)` with `pred = !m_thread_running`.  When the
predicate already holds the call returns `true` at once.  Otherwise the lock is released
for the wait and the external calls `calls` run meanwhile; `stop()` does not notify and
a notified wait goes back to sleep while the predicate is false, so the call returns the
value of the predicate in the state the calls leave. -/
def wait_for (calls : List ExtCall) (s : Assistance) : Assistance × Bool :=
  if s.m_thread_running then
    let s1 := run_calls calls s
    (s1, !s1.m_thread_running)
  else (s, true)

/-- The acceptance test of the matching loop (lines 207-209). -/
def accepts (algorithm : AlgorithmType) (value threshold cache_threshold : ℚ) : Bool :=
  decide (algorithm = AlgorithmType.JustReturn) ||
  (decide (algorithm = AlgorithmType.MatchTemplate) && decide (value ≥ threshold)) ||
  (decide (algorithm = AlgorithmType.CompareHist) && decide (value ≥ cache_threshold))

/-- Result of the matching loop: the task map (keys touched by `operator[]` inserted), the
locals `matched_task` and `matched_rect`, and the matcher calls made. -/
structure MatchResult where
  m_tasks : TaskMap
  matched_task : String
  matched_rect : Rect
  effects : List Effect
deriving DecidableEq, Repr

/-- The `for` loop over `m_next_tasks` (lines 197-214). -/
def match_loop (dflt : TaskInfo) (find_image : String → ℚ → AlgorithmType × ℚ × Rect) :
    TaskMap → List String → MatchResult
  | m, [] => ⟨m, "", ⟨0, 0, 0, 0⟩, []⟩
  | m, task_name :: rest =>
    let m1 := touchTask dflt task_name m
    let threshold := (getTask dflt m1 task_name).threshold
    let cache_threshold := (getTask dflt m1 task_name).cache_threshold
    let r := find_image task_name threshold
    if accepts r.1 r.2.1 threshold cache_threshold then
      ⟨m1, task_name, r.2.2, [Effect.find_image task_name threshold]⟩
    else
      let r2 := match_loop dflt find_image m1 rest
      { r2 with effects := Effect.find_image task_name threshold :: r2.effects }

/-- The bounds assertion of the `cv::Mat(const Mat&, const Rect&)` constructor. -/
def roi_inside (img : Mat) (r : Rect) : Bool :=
  decide (0 ≤ r.x) && decide (0 ≤ r.width) && decide (r.x + r.width ≤ img.cols) &&
  decide (0 ≤ r.y) && decide (0 ≤ r.height) && decide (r.y + r.height ≤ img.rows)

/-- The crop rectangle computed by `print_window` (lines 157-162). -/
def crop_rect (s : Assistance) : Rect :=
  { x := -s.m_pView.x_offset + 5
    y := -s.m_pView.y_offset
    width := s.m_configer.DefaultWindowWidth - 5
    height := s.m_configer.DefaultWindowHeight - 5 }

/-- Function `Assistance::print_window`.  `cur_image` is the frame `getImage` delivers and
`imwrite_ok` the result of `cv::imwrite`; `block` only selects who takes the lock.  The
ROI constructor raises `cv::Exception` when the rectangle leaves the frame. -/
def print_window (_block : Bool) (s : Assistance) (cur_image : Mat) (imwrite_ok : Bool) :
    Except Fault (Bool × List Effect) :=
  if cur_image.empty ∨ cur_image.cols < s.m_configer.DefaultWindowWidth
      ∨ cur_image.rows < s.m_configer.DefaultWindowHeight then
    .ok (false, [Effect.getImage])
  else if roi_inside cur_image (crop_rect s) then
    .ok (imwrite_ok, [Effect.getImage, Effect.crop (crop_rect s), Effect.imwrite])
  else
    .error Fault.cv_exception

/-- Prefix the calls already made to the outcome of the rest of the iteration; an
exception keeps the calls made before it was raised. -/
def with_effects (pre : List Effect) :
    Except (Fault × List Effect) (Assistance × List Effect) →
      Except (Fault × List Effect) (Assistance × List Effect)
  | .ok (s, evs) => .ok (s, pre ++ evs)
  | .error (f, evs) => .error (f, pre ++ evs)

/-- Lines 282-290: `++task.exec_times`, then `--m_tasks[reduce].exec_times` for every entry
of `task.reduce_other_times`. -/
def count_activation (dflt : TaskInfo) (m : TaskMap) (matched_task : String) : TaskMap :=
  let m1 := modifyTask dflt (fun t => { t with exec_times := t.exec_times + 1 }) matched_task m
  (getTask dflt m1 matched_task).reduce_other_times.foldl
    (fun m reduce => modifyTask dflt (fun t => { t with exec_times := t.exec_times - 1 }) reduce m)
    m1

/-- Lines 282-299 and 317: count the activation, apply the debits, wait `rear_delay`,
install `next`, then the closing `identify_delay` wait. -/
def after_action (dflt : TaskInfo) (env : CycleEnv) (s : Assistance) (matched_task : String) :
    Except (Fault × List Effect) (Assistance × List Effect) :=
  let m2 := count_activation dflt s.m_configer.m_tasks matched_task
  let s2 := s.setTasks m2
  let task := getTask dflt m2 matched_task
  let closing := Effect.wait_for WaitKind.identify s2.m_configer.m_options.identify_delay
  if task.rear_delay > 0 then
    let w := wait_for env.calls_rear s2
    if w.2 then
      .ok (w.1, [Effect.wait_for WaitKind.rear task.rear_delay])
    else
      .ok ({ w.1 with m_next_tasks := (getTask dflt w.1.m_configer.m_tasks matched_task).next },
        [Effect.wait_for WaitKind.rear task.rear_delay, closing])
  else
    .ok ({ s2 with m_next_tasks := task.next }, [closing])

/-- The `switch (task.type)` of lines 245-281, followed by the rest of the iteration. -/
def task_action (dflt : TaskInfo) (env : CycleEnv) (s : Assistance) (matched_task : String)
    (matched_rect : Rect) : Except (Fault × List Effect) (Assistance × List Effect) :=
  let task := getTask dflt s.m_configer.m_tasks matched_task
  match task.type with
  | .ClickRect =>
    with_effects [Effect.click task.specific_area] (after_action dflt env s matched_task)
  | .ClickSelf =>
    with_effects [Effect.click matched_rect] (after_action dflt env s matched_task)
  | .ClickRand =>
    with_effects [Effect.click env.window_rect] (after_action dflt env s matched_task)
  | .DoNothing => after_action dflt env s matched_task
  | .Stop => .ok (stop false s, [Effect.stop_nonblock])
  | .PrintWindow =>
    if s.m_configer.m_options.print_window then
      let w := wait_for env.calls_print s
      match print_window false w.1 env.print_image env.imwrite_ok with
      | .error f =>
        .error (f, [Effect.wait_for WaitKind.print s.m_configer.m_options.print_window_delay,
          Effect.print_window, Effect.getImage])
      | .ok (_, evs) =>
        with_effects
          (Effect.wait_for WaitKind.print s.m_configer.m_options.print_window_delay
            :: Effect.print_window :: evs)
          (after_action dflt env w.1 matched_task)
    else after_action dflt env s matched_task
  | .Other _ => after_action dflt env s matched_task

/-- Lines 232-304: the limit check, the randomised click delay and the action, or the
exceeded transition. -/
def limit_check (dflt : TaskInfo) (env : CycleEnv) (s : Assistance) (matched_task : String)
    (matched_rect : Rect) : Except (Fault × List Effect) (Assistance × List Effect) :=
  let task := getTask dflt s.m_configer.m_tasks matched_task
  if task.exec_times < task.max_times then
    if task.type.hasBasicClick = true ∧ s.m_configer.m_options.control_delay_upper ≠ 0 then
      let w := wait_for env.calls_random s
      if w.2 then
        .ok (w.1, [Effect.wait_for WaitKind.random env.rand_delay])
      else
        with_effects [Effect.wait_for WaitKind.random env.rand_delay]
          (task_action dflt env w.1 matched_task matched_rect)
    else task_action dflt env s matched_task matched_rect
  else
    .ok ({ s with m_next_tasks := task.exceeded_next },
      [Effect.wait_for WaitKind.identify s.m_configer.m_options.identify_delay])

/-- Lines 217-315: what the loop does once `matched_task` is non-empty. -/
def execute_task (dflt : TaskInfo) (env : CycleEnv) (s : Assistance) (matched_task : String)
    (matched_rect : Rect) : Except (Fault × List Effect) (Assistance × List Effect) :=
  let task := getTask dflt s.m_configer.m_tasks matched_task
  if task.pre_delay > 0 then
    let w := wait_for env.calls_pre s
    if w.2 then
      .ok (w.1, [Effect.wait_for WaitKind.pre task.pre_delay])
    else
      with_effects [Effect.wait_for WaitKind.pre task.pre_delay]
        (limit_check dflt env w.1 matched_task matched_rect)
  else limit_check dflt env s matched_task matched_rect

/-- One iteration of the `while` loop of `Assistance::working_proc` (lines 179-323). -/
def working_proc_cycle (dflt : TaskInfo) (env : CycleEnv) (s : Assistance) :
    Except (Fault × List Effect) (Assistance × List Effect) :=
  if s.m_thread_running then
    if env.cur_image.empty then
      .ok (stop false s, [Effect.getImage, Effect.stop_nonblock])
    else if env.cur_image.cols < s.m_configer.DefaultWindowWidth
        ∨ env.cur_image.rows < s.m_configer.DefaultWindowHeight then
      .ok (s, [Effect.getImage, Effect.showWindow,
        Effect.wait_for WaitKind.recover s.m_configer.m_options.identify_delay])
    else
      let r := match_loop dflt env.find_image s.m_configer.m_tasks s.m_next_tasks
      let s1 := s.setTasks r.m_tasks
      if r.matched_task ≠ "" then
        with_effects (Effect.getImage :: r.effects)
          (execute_task dflt env s1 r.matched_task r.matched_rect)
      else
        .ok (s1, Effect.getImage :: r.effects ++
          [Effect.wait_for WaitKind.identify s.m_configer.m_options.identify_delay])
  else
    .ok (s, [Effect.wait_idle])

/-- Whether candidate `task_name` passes the acceptance test on what the matcher reports
for it; the thresholds are those of `m_tasks[task_name]`. -/
def candidate_accepts (dflt : TaskInfo) (find_image : String → ℚ → AlgorithmType × ℚ × Rect)
    (m : TaskMap) (task_name : String) : Bool :=
  accepts (find_image task_name (getTask dflt m task_name).threshold).1
    (find_image task_name (getTask dflt m task_name).threshold).2.1
    (getTask dflt m task_name).threshold (getTask dflt m task_name).cache_threshold

/-- The task an iteration acts on: the local `matched_task` when the branch of line 217 is
entered, nothing otherwise. -/
def acted_task (dflt : TaskInfo) (env : CycleEnv) (s : Assistance) : Option String :=
  if s.m_thread_running = true ∧ env.cur_image.empty = false
      ∧ ¬ (env.cur_image.cols < s.m_configer.DefaultWindowWidth
        ∨ env.cur_image.rows < s.m_configer.DefaultWindowHeight) then
    let r := match_loop dflt env.find_image s.m_configer.m_tasks s.m_next_tasks
    if r.matched_task ≠ "" then some r.matched_task else none
  else none

/-- The counter `m_tasks[k].exec_times` as the program would read it. -/
def exec_count (dflt : TaskInfo) (s : Assistance) (k : String) : Int :=
  (getTask dflt s.m_configer.m_tasks k).exec_times

/-- Calls that carry out an action: a click, the internal stop, or the snapshot export
(the call of `print_window` from the loop, its crop and its file write). -/
def Effect.is_action : Effect → Bool
  | .click _ => true
  | .stop_nonblock => true
  | .print_window => true
  | .crop _ => true
  | .imwrite => true
  | _ => false

/-- The regions clicked during an iteration, in order. -/
def clicks (evs : List Effect) : List Rect :=
  evs.filterMap (fun e => match e with
    | .click r => some r
    | _ => none)

/-! ## Binding a target -/

/-- The three handles `set_emulator` creates for a profile. -/
inductive HandleType where
  | Window
  | View
  | Control
deriving DecidableEq, Repr

/-- What the window system answers during `set_emulator`, per profile name: whether the
`WinMacro` of each handle type reports `captured()`, and the results of `showWindow()`
and `resizeWindow()` on the window of that profile. -/
structure BindEnv where
  captured : String → HandleType → Bool
  showWindow : String → Bool
  resizeWindow : String → Bool

/-- The lambda `create_handles` (lines 53-58) for the profile `name`. -/
def create_handles (benv : BindEnv) (name : String) : Bool :=
  benv.captured name HandleType.Window && benv.captured name HandleType.View
    && benv.captured name HandleType.Control

/-- The probing loop of lines 67-74: `ret`, `cor_name`, the profile whose handles were
created last (they stay installed in `m_pWindow`, `m_pView`, `m_pCtrl`), and the names of
the profiles on which `create_handles` was called, in order. -/
def probe_handles (benv : BindEnv) (cor_name : String) (last : Option (String × EmulatorInfo)) :
    List (String × EmulatorInfo) →
      Bool × String × Option (String × EmulatorInfo) × List String
  | [] => (false, cor_name, last, [])
  | (name, info) :: rest =>
    if create_handles benv name then (true, name, some (name, info), [name])
    else
      let r := probe_handles benv cor_name (some (name, info)) rest
      (r.1, r.2.1, r.2.2.1, name :: r.2.2.2)

/-- Function `Assistance::set_emulator`.  Modelled from the spec: the default argument of
`stop` is declared in `Assistance.h`; the call `stop()` of line 51 is an external one,
which the spec and the comment of line 115 describe as `block = true`.  `dflt_info` is
the value-initialised `EmulatorInfo` that `m_handles[emulator_name]` inserts for an
unknown name. -/
def set_emulator (dflt_info : EmulatorInfo) (benv : BindEnv) (emulator_name : String)
    (s : Assistance) : Option String × Assistance :=
  let s1 := stop true s
  let handles := s1.m_configer.m_handles
  let named_info := (handles.lookup emulator_name).getD dflt_info
  let handles1 :=
    if emulator_name = "" ∨ (handles.lookup emulator_name).isSome then handles
    else handles ++ [(emulator_name, dflt_info)]
  let r :=
    if emulator_name = "" then probe_handles benv emulator_name none handles
    else (create_handles benv emulator_name, emulator_name, some (emulator_name, named_info),
      [emulator_name])
  let s2 : Assistance :=
    { s1 with
      m_configer := { s1.m_configer with m_handles := handles1 }
      m_pView := match r.2.2.1 with
        | some (_, info) => info
        | none => s1.m_pView }
  if r.1 && benv.showWindow r.2.1 && benv.resizeWindow r.2.1 then
    (some r.2.1, { s2 with m_inited := true })
  else
    (none, { s2 with m_inited := false })

/-- The profiles on which a call of `set_emulator` runs `create_handles`, in order. -/
def created_handles (benv : BindEnv) (emulator_name : String) (s : Assistance) : List String :=
  if emulator_name = "" then
    (probe_handles benv emulator_name none (stop true s).m_configer.m_handles).2.2.2
  else [emulator_name]

/-! ## The task graph apart from the counters -/

/-- A task record with its counter blanked: the part of the record loaded from the
configuration. -/
def TaskInfo.static (t : TaskInfo) : TaskInfo :=
  { t with exec_times := 0 }

/-- The task graph apart from `exec_times`: the names in map order, each with the static
part of its record. -/
def graph_of (m : TaskMap) : List (String × TaskInfo) :=
  m.map (fun p => (p.1, p.2.static))

/-- Every task of `m` is still in `m'` with the same static part. -/
def keeps_tasks (m m' : TaskMap) : Prop :=
  ∀ k t, TaskMap.find k m = some t → ∃ t', TaskMap.find k m' = some t' ∧ t'.static = t.static

/-- Transitions lead somewhere and stay inside the graph: every task has a non-empty
`exceeded_next`, a non-empty `next` unless its kind is `Stop`, and both lists name only
tasks of the graph. -/
def well_linked (m : TaskMap) : Prop :=
  ∀ p ∈ m, p.2.exceeded_next ≠ [] ∧ (p.2.type ≠ TaskType.Stop → p.2.next ≠ [])
    ∧ (∀ n ∈ p.2.next, (TaskMap.find n m).isSome = true)
    ∧ (∀ n ∈ p.2.exceeded_next, (TaskMap.find n m).isSome = true)

/-- States reachable from a successful `start(entry)` on `s0` by iterations of the loop,
under any behaviour of the collaborators. -/
inductive Reachable (dflt : TaskInfo) (s0 : Assistance) (entry : String) : Assistance → Prop
  | started (hrun : s0.m_thread_running = false) (hinit : s0.m_inited = true) :
    Reachable dflt s0 entry (start entry s0)
  | cycle (env : CycleEnv) (s s' : Assistance) (evs : List Effect)
    (hs : Reachable dflt s0 entry s) (hc : working_proc_cycle dflt env s = .ok (s', evs)) :
    Reachable dflt s0 entry s'

/-! ## The log line -/

/-- The string `nexts_str` built by lines 307-310 from the installed candidate names. -/
def nexts_str (names : List String) : String :=
  names.foldl (fun acc name => acc ++ (name ++ ",")) ""

/-- The read `nexts_str.back()` of line 311: `std::string::back` has a value only on a
non-empty string. -/
def std_back (str : String) : Option Char :=
  if str = "" then none else some str.back

/-- The calls an iteration made, whether it completed or was cut short. -/
def effects_of : Except (Fault × List Effect) (Assistance × List Effect) → List Effect
  | .ok (_, evs) => evs
  | .error (_, evs) => evs

/-! ## End states of an iteration -/

/-- End states of a counted activation of `T` whose closing part (lines 282-299) starts in
state `x`.  With `z` the state after counting, or what the external calls of the
`rear_delay` wait made of it: `next` is installed in `z`, or the iteration ends in `z`
with the session stopped. -/
def activation_end (dflt : TaskInfo) (env : CycleEnv) (T : String) (x s' : Assistance) : Prop :=
  ∃ z, (z = x.setTasks (count_activation dflt x.m_configer.m_tasks T)
        ∨ z = run_calls env.calls_rear (x.setTasks (count_activation dflt x.m_configer.m_tasks T)))
    ∧ (s' = { z with m_next_tasks := (getTask dflt z.m_configer.m_tasks T).next }
        ∨ (s' = z ∧ z.m_thread_running = false))

/-- End states of the `switch` on task `T` entered in state `q`: the `Stop` action, or a
counted activation entered in `q` or, for a snapshot task, in the state the external
calls of the export delay left. -/
def action_end (dflt : TaskInfo) (env : CycleEnv) (T : String) (q s' : Assistance) : Prop :=
  ((getTask dflt q.m_configer.m_tasks T).type = TaskType.Stop ∧ s' = stop false q)
    ∨ ((getTask dflt q.m_configer.m_tasks T).type ≠ TaskType.Stop
        ∧ ∃ x, (x = q ∨ (x = run_calls env.calls_print q
              ∧ (getTask dflt q.m_configer.m_tasks T).type = TaskType.PrintWindow))
            ∧ activation_end dflt env T x s')

/-- End states of the limit check on task `T` made in state `p`: the exceeded transition,
or, within the limit, the session found stopped after the random delay, or the `switch`
entered in `p` or in the state the external calls of the random delay left. -/
def checked_end (dflt : TaskInfo) (env : CycleEnv) (T : String) (p s' : Assistance) : Prop :=
  (¬ (getTask dflt p.m_configer.m_tasks T).exec_times
        < (getTask dflt p.m_configer.m_tasks T).max_times
      ∧ s' = { p with m_next_tasks := (getTask dflt p.m_configer.m_tasks T).exceeded_next })
    ∨ ((getTask dflt p.m_configer.m_tasks T).exec_times
          < (getTask dflt p.m_configer.m_tasks T).max_times
        ∧ ∃ q, (q = p ∨ q = run_calls env.calls_random p)
            ∧ ((s' = q ∧ q.m_thread_running = false)
              ∨ (q.m_thread_running = true ∧ action_end dflt env T q s')))

/-- End states of the action phase on task `T` entered in state `s`: with `p` the state
`s` or what the external calls of the `pre_delay` wait made of it, the session is found
stopped in `p`, or the limit check is made in `p`. -/
def acted_end (dflt : TaskInfo) (env : CycleEnv) (T : String) (s s' : Assistance) : Prop :=
  ∃ p, (p = s ∨ p = run_calls env.calls_pre s)
    ∧ ((s' = p ∧ p.m_thread_running = false)
      ∨ (p.m_thread_running = true ∧ checked_end dflt env T p s'))

/-- The state in which line 232 tests the limit of the accepted task `T`, when the
iteration gets there: the state after matching, or the one in which the `pre_delay` wait
returned. -/
def at_limit_check (dflt : TaskInfo) (env : CycleEnv) (s : Assistance) (T : String) :
    Assistance :=
  let s1 := s.setTasks (match_loop dflt env.find_image s.m_configer.m_tasks s.m_next_tasks).m_tasks
  if (getTask dflt s1.m_configer.m_tasks T).pre_delay > 0 then (wait_for env.calls_pre s1).1
  else s1

/-- The state in which the `switch` of line 245 is entered, when the iteration gets there:
the state of the limit check, or the one in which the randomised click delay returned. -/
def at_switch (dflt : TaskInfo) (env : CycleEnv) (s : Assistance) (T : String) : Assistance :=
  let p := at_limit_check dflt env s T
  if (getTask dflt p.m_configer.m_tasks T).type.hasBasicClick = true
      ∧ p.m_configer.m_options.control_delay_upper ≠ 0 then
    (wait_for env.calls_random p).1
  else p

/-- The state in which line 282 counts the activation, when the iteration gets there: the
state of the `switch`, or, for a snapshot task with the export switched on, the one in
which the export delay returned. -/
def at_count (dflt : TaskInfo) (env : CycleEnv) (s : Assistance) (T : String) : Assistance :=
  let q := at_switch dflt env s T
  if (getTask dflt q.m_configer.m_tasks T).type = TaskType.PrintWindow
      ∧ q.m_configer.m_options.print_window = true then
    (wait_for env.calls_print q).1
  else q

/-- Two states that differ at most in the counters, the task names, the candidates, the
run flag and the cache: every record reads the same apart from `exec_times`, and the
options, the window size and the bound view are the same. -/
def same_frame (dflt : TaskInfo) (a b : Assistance) : Prop :=
  (∀ k, (getTask dflt a.m_configer.m_tasks k).static = (getTask dflt b.m_configer.m_tasks k).static)
    ∧ a.m_configer.m_options = b.m_configer.m_options
    ∧ a.m_configer.DefaultWindowWidth = b.m_configer.DefaultWindowWidth
    ∧ a.m_configer.DefaultWindowHeight = b.m_configer.DefaultWindowHeight
    ∧ a.m_pView = b.m_pView

/-- Whether a call is the randomised inter-click wait. -/
def Effect.is_random_wait : Effect → Bool
  | .wait_for WaitKind.random _ => true
  | _ => false

/-- Every counter, as `m_tasks[k]` would read it, is at most the limit of its task, and the
limits are non-negative. -/
def within_limits (dflt : TaskInfo) (m : TaskMap) : Prop :=
  ∀ k, (getTask dflt m k).exec_times ≤ (getTask dflt m k).max_times
    ∧ 0 ≤ (getTask dflt m k).max_times

/-! ## A small task graph used to instantiate the theorems -/

/-- A value-initialised task record. -/
def ex_default : TaskInfo :=
  { filename := "", threshold := 0, cache_threshold := 0, type := TaskType.Other false,
    specific_area := ⟨0, 0, 0, 0⟩, pre_delay := 0, rear_delay := 0, max_times := 2147483647,
    exec_times := 0, next := [], exceeded_next := [], reduce_other_times := [] }

/-- Task `A`: click the matched region, at most once, threshold 0.8, debits `B`. -/
def ex_A : TaskInfo :=
  { ex_default with
    type := TaskType.ClickSelf, threshold := mkRat 4 5, max_times := 1,
    next := ["B"], exceeded_next := ["C"], reduce_other_times := ["B"] }

/-- Options with the randomised click delay switched off. -/
def ex_options : Options :=
  { identify_cache := true, identify_delay := 100, control_delay_lower := 0,
    control_delay_upper := 0, print_window := true, print_window_delay := 10 }

/-- A running session over the graph `A`, `B` with candidates `[A, B]`. -/
def ex_state : Assistance :=
  { m_configer :=
      { m_tasks := [("A", ex_A), ("B", ex_default)], m_options := ex_options,
        DefaultWindowWidth := 1280, DefaultWindowHeight := 720 }
    m_next_tasks := ["A", "B"], m_thread_running := true, m_thread_exit := false,
    m_inited := true, m_pView := ⟨0, 0⟩, cache_clears := 0 }

/-- A full-size frame on which the matcher reports template similarity 0.9 at the region
`(1, 2, 3, 4)` for every candidate; no external call runs during the waits. -/
def ex_env : CycleEnv :=
  { cur_image := ⟨false, 1280, 720⟩
    find_image := fun _ _ => (AlgorithmType.MatchTemplate, mkRat 9 10, ⟨1, 2, 3, 4⟩)
    window_rect := ⟨0, 0, 1280, 720⟩, rand_delay := 0
    calls_pre := [], calls_random := [], calls_print := [], calls_rear := []
    print_image := ⟨false, 1280, 720⟩, imwrite_ok := true }

/-- A running session whose first candidate is the empty name (as after `start("")`). -/
def ex_state_noname : Assistance :=
  { ex_state with m_next_tasks := ["", "B"] }

/-- The example session with `A` already at its limit (`exec_times = max_times = 1`). -/
def ex_state_exceeded : Assistance :=
  ex_state.setTasks [("A", { ex_A with exec_times := 1 }), ("B", ex_default)]

/-- An idle, bound session that still holds counters and candidates of an earlier run. -/
def ex_state_idle : Assistance :=
  { ex_state_exceeded with m_thread_running := false, m_next_tasks := ["B", "A"] }

/-- A running session whose only task `T` is the given record, with candidates `[T]`. -/
def ex_state_of (t : TaskInfo) : Assistance :=
  { ex_state with
    m_configer := { ex_state.m_configer with m_tasks := [("T", t)] }
    m_next_tasks := ["T"] }

/-- The example frame replaced by an empty capture. -/
def ex_env_lost : CycleEnv :=
  { ex_env with cur_image := ⟨true, 0, 0⟩ }

/-- The single-task session with the randomised click delay switched on (10..50 ms). -/
def ex_state_delay (t : TaskInfo) : Assistance :=
  { ex_state with
    m_configer :=
      { ex_state.m_configer with
        m_tasks := [("T", t)]
        m_options := { ex_options with control_delay_lower := 10, control_delay_upper := 50 } }
    m_next_tasks := ["T"] }

/-- A click task with both fixed delays, `next = [N]` and a debit on `N`. -/
def ex_slow : TaskInfo :=
  { ex_default with
    type := TaskType.ClickSelf, pre_delay := 20, rear_delay := 30, next := ["N"],
    reduce_other_times := ["N"] }

/-- A task that does nothing and leads nowhere: `next` is empty. -/
def ex_dead_end : TaskInfo :=
  { ex_default with type := TaskType.DoNothing, next := [], exceeded_next := ["T"] }

/-- The single-task session, bound but not running. -/
def ex_idle_of (t : TaskInfo) : Assistance :=
  { ex_state_of t with m_thread_running := false, m_next_tasks := [] }

/-- A task that leads back to itself. -/
def ex_loop : TaskInfo :=
  { ex_default with type := TaskType.ClickSelf, next := ["T"], exceeded_next := ["T"] }

/-- A window system in which every profile binds and can be shown and resized. -/
def ex_bind_all : BindEnv :=
  { captured := fun _ _ => true, showWindow := fun _ => true, resizeWindow := fun _ => true }

/-- The example session with a candidate `X` that is not a task of the graph. -/
def ex_state_unknown : Assistance :=
  { ex_state with m_next_tasks := ["X"] }

/-- A task that debits `Z`, which is not a task of the single-task graph. -/
def ex_debit_unknown : TaskInfo :=
  { ex_default with type := TaskType.DoNothing, next := ["T"], reduce_other_times := ["Z"] }

/-- An idle session with two configured emulator profiles, `A` before `B`. -/
def ex_state_profiles : Assistance :=
  { ex_state_idle with
    m_configer := { ex_state_idle.m_configer with m_handles := [("A", ⟨0, 0⟩), ("B", ⟨0, 0⟩)] } }

/-- A window system in which both profiles bind, but the window of `A` cannot be brought
to the foreground. -/
def ex_bind_first_hidden : BindEnv :=
  { captured := fun _ _ => true
    showWindow := fun name => decide (name ≠ "A")
    resizeWindow := fun _ => true }

/-- The example session whose view reports an `x_offset` of -10. -/
def ex_state_shifted : Assistance :=
  { ex_state_of { ex_default with type := TaskType.PrintWindow, next := ["T"] } with
    m_pView := ⟨-10, 0⟩ }

/-- A click task without delays that leads back to itself. -/
def ex_click : TaskInfo :=
  { ex_default with type := TaskType.ClickSelf, next := ["T"] }

/-- Task `A` with `B` listed twice among its debits. -/
def ex_A_twice : TaskInfo :=
  { ex_A with reduce_other_times := ["B", "B"] }

/-- The example session with `B` listed twice among the debits of `A`. -/
def ex_state_twice : Assistance :=
  ex_state.setTasks [("A", ex_A_twice), ("B", ex_default)]

/-- An idle session with three configured emulator profiles, visited in the order `A`,
`B`, `C`, with different view offsets. -/
def ex_state_three : Assistance :=
  { ex_state_idle with
    m_configer :=
      { ex_state_idle.m_configer with
        m_handles := [("A", ⟨1, 1⟩), ("B", ⟨2, 2⟩), ("C", ⟨3, 3⟩)] } }

/-- A window system in which `A` does not bind and every other profile binds and can be
shown and resized. -/
def ex_bind_not_A : BindEnv :=
  { captured := fun name _ => decide (name ≠ "A")
    showWindow := fun _ => true
    resizeWindow := fun _ => true }

/-! ## Lemmas on the task map -/

theorem find_modifyTask (dflt : TaskInfo) (f : TaskInfo → TaskInfo) (k k' : String)
    (m : TaskMap) :
    TaskMap.find k' (modifyTask dflt f k m)
      = if k' = k then some (f (getTask dflt m k)) else TaskMap.find k' m := by
  induction m with
  | nil =>
    by_cases h : k' = k
    · subst h; simp [modifyTask, TaskMap.find, getTask]
    · have h2 : ¬ k = k' := fun e => h e.symm
      simp [modifyTask, TaskMap.find, h, h2]
  | cons p rest ih =>
    obtain ⟨n, t⟩ := p
    by_cases hn : n = k
    · subst hn
      by_cases h : k' = n
      · subst h; simp [modifyTask, TaskMap.find, getTask]
      · have h2 : ¬ n = k' := fun e => h e.symm
        simp [modifyTask, TaskMap.find, h, h2]
    · by_cases h : n = k'
      · subst h
        have h2 : ¬ k = n := fun e => hn e.symm
        simp [modifyTask, TaskMap.find, hn]
      · simp [modifyTask, TaskMap.find, hn, h, ih, getTask]

theorem getTask_modifyTask (dflt : TaskInfo) (f : TaskInfo → TaskInfo) (k k' : String)
    (m : TaskMap) :
    getTask dflt (modifyTask dflt f k m) k'
      = if k' = k then f (getTask dflt m k) else getTask dflt m k' := by
  unfold getTask
  rw [find_modifyTask]
  by_cases h : k' = k
  · simp [h, getTask]
  · simp [h]

theorem getTask_touchTask (dflt : TaskInfo) (k k' : String) (m : TaskMap) :
    getTask dflt (touchTask dflt k m) k' = getTask dflt m k' := by
  unfold touchTask
  rw [getTask_modifyTask]
  by_cases h : k' = k
  · simp [h]
  · simp [h]

/-! ## Lemmas on the matching loop -/

theorem candidate_accepts_congr (dflt : TaskInfo)
    (find_image : String → ℚ → AlgorithmType × ℚ × Rect) (m m' : TaskMap)
    (h : ∀ k, getTask dflt m' k = getTask dflt m k) :
    candidate_accepts dflt find_image m' = candidate_accepts dflt find_image m := by
  funext n
  simp [candidate_accepts, h]

theorem getTask_match_loop (dflt : TaskInfo)
    (find_image : String → ℚ → AlgorithmType × ℚ × Rect) (cands : List String) :
    ∀ (m : TaskMap) (k : String),
      getTask dflt (match_loop dflt find_image m cands).m_tasks k = getTask dflt m k := by
  induction cands with
  | nil => intro m k; simp [match_loop]
  | cons c rest ih =>
    intro m k
    simp only [match_loop]
    split
    · simp [getTask_touchTask]
    · simp [ih, getTask_touchTask]

theorem match_loop_matched (dflt : TaskInfo)
    (find_image : String → ℚ → AlgorithmType × ℚ × Rect) (cands : List String) :
    ∀ (m : TaskMap),
      (match_loop dflt find_image m cands).matched_task
        = (cands.find? (candidate_accepts dflt find_image m)).getD "" := by
  induction cands with
  | nil => intro m; simp [match_loop]
  | cons c rest ih =>
    intro m
    have hc : candidate_accepts dflt find_image (touchTask dflt c m)
        = candidate_accepts dflt find_image m :=
      candidate_accepts_congr dflt find_image m _ (fun k => getTask_touchTask dflt c k m)
    simp only [match_loop]
    by_cases hacc : candidate_accepts dflt find_image m c = true
    · have hacc' := hacc
      simp only [candidate_accepts, ← getTask_touchTask dflt c c m] at hacc'
      simp [hacc', List.find?_cons, hacc]
    · have hacc' := hacc
      simp only [candidate_accepts, ← getTask_touchTask dflt c c m] at hacc'
      simp [hacc', List.find?_cons, hacc, ih, hc]

theorem match_loop_rect (dflt : TaskInfo)
    (find_image : String → ℚ → AlgorithmType × ℚ × Rect) (cands : List String) :
    ∀ (m : TaskMap) (n : String),
      cands.find? (candidate_accepts dflt find_image m) = some n →
      (match_loop dflt find_image m cands).matched_rect
        = (find_image n (getTask dflt m n).threshold).2.2 := by
  induction cands with
  | nil => intro m n h; simp at h
  | cons c rest ih =>
    intro m n h
    have hc : candidate_accepts dflt find_image (touchTask dflt c m)
        = candidate_accepts dflt find_image m :=
      candidate_accepts_congr dflt find_image m _ (fun k => getTask_touchTask dflt c k m)
    simp only [match_loop]
    by_cases hacc : candidate_accepts dflt find_image m c = true
    · have hacc' := hacc
      simp only [candidate_accepts] at hacc'
      simp only [List.find?_cons, hacc, Option.some.injEq] at h
      subst h
      simp [hacc', getTask_touchTask]
    · have hacc' := hacc
      simp only [candidate_accepts] at hacc'
      simp only [List.find?_cons, hacc] at h
      have := ih (touchTask dflt c m) n (by rw [hc]; exact h)
      simp [hacc', this, getTask_touchTask]

theorem match_loop_effects (dflt : TaskInfo)
    (find_image : String → ℚ → AlgorithmType × ℚ × Rect) (cands : List String) :
    ∀ (m : TaskMap),
      (∀ e ∈ (match_loop dflt find_image m cands).effects, ∃ n thr, e = Effect.find_image n thr) := by
  induction cands with
  | nil => intro m; simp [match_loop]
  | cons c rest ih =>
    intro m
    simp only [match_loop]
    split
    · intro e he
      simp at he
      exact ⟨_, _, he⟩
    · intro e he
      simp at he
      rcases he with he | he
      · exact ⟨_, _, he⟩
      · exact ih _ e he

/-! ## Lemmas on the counters -/

theorem getTask_foldl_debit (dflt : TaskInfo) (debits : List String) :
    ∀ (m : TaskMap) (k : String),
      getTask dflt (debits.foldl
        (fun m reduce =>
          modifyTask dflt (fun t => { t with exec_times := t.exec_times - 1 }) reduce m) m) k
        = { getTask dflt m k with
            exec_times := (getTask dflt m k).exec_times - (debits.count k : Int) } := by
  induction debits with
  | nil => intro m k; simp
  | cons d rest ih =>
    intro m k
    simp only [List.foldl_cons]
    rw [ih, getTask_modifyTask]
    by_cases h : k = d
    · subst h
      simp only [if_true, List.count_cons_self, Nat.cast_add, Nat.cast_one]
      congr 1
      ring
    · have h2 : ¬ d = k := fun e => h e.symm
      simp [h, h2, List.count_cons]

theorem getTask_count_activation (dflt : TaskInfo) (m : TaskMap) (T k : String) :
    getTask dflt (count_activation dflt m T) k
      = { getTask dflt m k with
          exec_times := (getTask dflt m k).exec_times + (if k = T then 1 else 0)
            - (((getTask dflt m T).reduce_other_times.count k : Nat) : Int) } := by
  unfold count_activation
  simp only
  rw [getTask_foldl_debit, getTask_modifyTask, getTask_modifyTask]
  by_cases h : k = T
  · subst h; simp
  · simp [h]

theorem getTask_clear_exec_times (dflt : TaskInfo) (c : Configer) (k : String) :
    getTask dflt c.clear_exec_times.m_tasks k
      = match TaskMap.find k c.m_tasks with
        | some t => { t with exec_times := 0 }
        | none => dflt := by
  unfold Configer.clear_exec_times getTask
  simp only
  induction c.m_tasks with
  | nil => simp [TaskMap.find]
  | cons p rest ih =>
    obtain ⟨n, t⟩ := p
    by_cases h : n = k
    · simp [TaskMap.find, h]
    · simp [TaskMap.find, h, ih]

theorem getTask_static_clear (dflt : TaskInfo) (c : Configer) (k : String) :
    (getTask dflt c.clear_exec_times.m_tasks k).static = (getTask dflt c.m_tasks k).static := by
  rw [getTask_clear_exec_times]
  cases h : TaskMap.find k c.m_tasks with
  | none => simp [getTask, h]
  | some t => simp [getTask, h, TaskInfo.static]

theorem static_fields (t t' : TaskInfo) (h : t'.static = t.static) :
    t'.next = t.next ∧ t'.exceeded_next = t.exceeded_next ∧ t'.type = t.type
      ∧ t'.max_times = t.max_times ∧ t'.reduce_other_times = t.reduce_other_times := by
  have h1 : t'.static.next = t.static.next := congrArg TaskInfo.next h
  have h2 : t'.static.exceeded_next = t.static.exceeded_next :=
    congrArg TaskInfo.exceeded_next h
  have h3 : t'.static.type = t.static.type := congrArg TaskInfo.type h
  have h4 : t'.static.max_times = t.static.max_times := congrArg TaskInfo.max_times h
  have h5 : t'.static.reduce_other_times = t.static.reduce_other_times :=
    congrArg TaskInfo.reduce_other_times h
  exact ⟨h1, h2, h3, h4, h5⟩

/-! ## Lemmas on the stages of an iteration -/

theorem with_effects_nil (r : Except (Fault × List Effect) (Assistance × List Effect)) :
    with_effects [] r = r := by
  cases r with
  | error f => rfl
  | ok p => rfl

theorem with_effects_append (a b : List Effect) (r : Except (Fault × List Effect) (Assistance × List Effect)) :
    with_effects a (with_effects b r) = with_effects (a ++ b) r := by
  cases r with
  | error f => simp [with_effects]
  | ok p => simp [with_effects]

theorem clicks_append (a b : List Effect) : clicks (a ++ b) = clicks a ++ clicks b := by
  simp [clicks, List.filterMap_append]

theorem clicks_of_no_action (evs : List Effect) (h : ∀ e ∈ evs, e.is_action = false) :
    clicks evs = [] := by
  induction evs with
  | nil => rfl
  | cons e rest ih =>
    have he := h e (List.mem_cons_self _ _)
    have hr := ih (fun x hx => h x (List.mem_cons_of_mem _ hx))
    cases e <;> simp_all [clicks, Effect.is_action]

theorem run_calls_cons (c : ExtCall) (rest : List ExtCall) (s : Assistance) :
    run_calls (c :: rest) s = run_calls rest (c.run s) := rfl

theorem has_stop_cons_false (c : ExtCall) (rest : List ExtCall)
    (h : has_stop (c :: rest) = false) : c ≠ ExtCall.stop ∧ has_stop rest = false := by
  simp only [has_stop, List.any_cons, Bool.or_eq_false_iff, decide_eq_false_iff_not] at h
  exact ⟨h.1, h.2⟩

/-- While the session runs, calls of `start` alone change nothing. -/
theorem run_calls_no_stop (calls : List ExtCall) (s : Assistance)
    (hrun : s.m_thread_running = true) (hns : has_stop calls = false) :
    run_calls calls s = s := by
  induction calls with
  | nil => rfl
  | cons c rest ih =>
    obtain ⟨hc, hrest⟩ := has_stop_cons_false c rest hns
    cases c with
    | stop => exact absurd rfl hc
    | start task =>
      have h1 : ExtCall.run (ExtCall.start task) s = s := by simp [ExtCall.run, start, hrun]
      rw [run_calls_cons, h1]
      exact ih hrest

theorem wait_for_no_stop (calls : List ExtCall) (s : Assistance)
    (hrun : s.m_thread_running = true) (hns : has_stop calls = false) :
    wait_for calls s = (s, false) := by
  simp [wait_for, hrun, run_calls_no_stop calls s hrun hns]

/-- A wait that returns with the session stopped: the state is the one the calls left. -/
theorem wait_for_stopped (calls : List ExtCall) (s : Assistance)
    (hrun : s.m_thread_running = true)
    (hstopped : (run_calls calls s).m_thread_running = false) :
    wait_for calls s = (run_calls calls s, true) := by
  simp [wait_for, hrun, hstopped]

/-- The two outcomes of a wait: the state is the one before the wait or the one the calls
left, and the result is the negated run flag of that state. -/
theorem wait_for_cases (calls : List ExtCall) (s : Assistance) :
    ((wait_for calls s).1 = s ∨ (wait_for calls s).1 = run_calls calls s)
      ∧ (wait_for calls s).2 = !(wait_for calls s).1.m_thread_running := by
  unfold wait_for
  cases hrun : s.m_thread_running with
  | true => simp
  | false => simp [hrun]

/-- A session that was running and is stopped after the calls of a wait has seen a stop. -/
theorem has_stop_of_stopped (calls : List ExtCall) (s : Assistance)
    (hrun : s.m_thread_running = true)
    (hstopped : (run_calls calls s).m_thread_running = false) : has_stop calls = true := by
  cases h : has_stop calls with
  | true => rfl
  | false =>
    rw [run_calls_no_stop calls s hrun h, hrun] at hstopped
    exact absurd hstopped (by simp)

theorem setTasks_m_tasks (s : Assistance) (m : TaskMap) :
    (s.setTasks m).m_configer.m_tasks = m := rfl

theorem setTasks_running (s : Assistance) (m : TaskMap) :
    (s.setTasks m).m_thread_running = s.m_thread_running := rfl

theorem setTasks_options (s : Assistance) (m : TaskMap) :
    (s.setTasks m).m_configer.m_options = s.m_configer.m_options := rfl

theorem print_window_setTasks (b : Bool) (s : Assistance) (m : TaskMap) (img : Mat) (ok : Bool) :
    print_window b (s.setTasks m) img ok = print_window b s img ok := rfl

/-- The closing part of an activation never raises and makes no action call. -/
theorem after_action_total (dflt : TaskInfo) (env : CycleEnv) (s : Assistance) (T : String) :
    ∃ s' evs, after_action dflt env s T = .ok (s', evs) ∧ ∀ e ∈ evs, e.is_action = false := by
  unfold after_action
  simp only
  split
  · split
    · exact ⟨_, _, rfl, by simp [Effect.is_action]⟩
    · exact ⟨_, _, rfl, by simp [Effect.is_action]⟩
  · exact ⟨_, _, rfl, by simp [Effect.is_action]⟩

/-- Without a stop during `rear_delay`, the activation is counted and `next` installed. -/
theorem after_action_normal (dflt : TaskInfo) (env : CycleEnv) (s : Assistance) (T : String)
    (hrun : s.m_thread_running = true) (hrear : env.stop_rear = false) :
    ∃ evs, after_action dflt env s T
        = .ok ({ s.setTasks (count_activation dflt s.m_configer.m_tasks T) with
                 m_next_tasks := (getTask dflt s.m_configer.m_tasks T).next }, evs)
      ∧ ∀ e ∈ evs, e.is_action = false := by
  have hnext : (getTask dflt (count_activation dflt s.m_configer.m_tasks T) T).next
      = (getTask dflt s.m_configer.m_tasks T).next := by
    rw [getTask_count_activation]
  unfold after_action
  simp only
  rw [wait_for_no_stop env.calls_rear _ (by simpa [Assistance.setTasks] using hrun) hrear]
  simp only [Bool.false_eq_true, if_false, setTasks_m_tasks, hnext]
  split
  · exact ⟨_, rfl, by simp [Effect.is_action]⟩
  · exact ⟨_, rfl, by simp [Effect.is_action]⟩

/-- A `rear_delay` wait that returns with the session stopped ends the iteration right
after the wait, in the state the external calls left. -/
theorem after_action_stopped (dflt : TaskInfo) (env : CycleEnv) (s : Assistance) (T : String)
    (hrun : s.m_thread_running = true)
    (hdelay : 0 < (getTask dflt s.m_configer.m_tasks T).rear_delay)
    (hrear : (run_calls env.calls_rear
      (s.setTasks (count_activation dflt s.m_configer.m_tasks T))).m_thread_running = false) :
    after_action dflt env s T
      = .ok (run_calls env.calls_rear (s.setTasks (count_activation dflt s.m_configer.m_tasks T)),
          [Effect.wait_for WaitKind.rear (getTask dflt s.m_configer.m_tasks T).rear_delay]) := by
  have hd : (getTask dflt (count_activation dflt s.m_configer.m_tasks T) T).rear_delay
      = (getTask dflt s.m_configer.m_tasks T).rear_delay := by
    rw [getTask_count_activation]
  unfold after_action
  simp only [wait_for_stopped env.calls_rear _
    (by simpa [Assistance.setTasks] using hrun) hrear, hd, gt_iff_lt, hdelay, if_true]

/-- With no stop during `pre_delay` or the random delay and the limit not reached, the
iteration arrives at the `switch`. -/
theorem execute_task_reaches_action (dflt : TaskInfo) (env : CycleEnv) (s : Assistance)
    (T : String) (rect : Rect) (hrun : s.m_thread_running = true)
    (hpre : env.stop_pre = false) (hrand : env.stop_random = false)
    (hlim : (getTask dflt s.m_configer.m_tasks T).exec_times
      < (getTask dflt s.m_configer.m_tasks T).max_times) :
    ∃ pre, execute_task dflt env s T rect = with_effects pre (task_action dflt env s T rect)
      ∧ ∀ e ∈ pre, e.is_action = false := by
  unfold execute_task limit_check
  simp only [wait_for_no_stop env.calls_pre s hrun hpre,
    wait_for_no_stop env.calls_random s hrun hrand, Bool.false_eq_true, if_false, hlim, if_true]
  split
  · split
    · refine ⟨_, with_effects_append _ _ _, ?_⟩
      simp [Effect.is_action]
    · exact ⟨_, rfl, by simp [Effect.is_action]⟩
  · split
    · exact ⟨_, rfl, by simp [Effect.is_action]⟩
    · exact ⟨[], (with_effects_nil _).symm, by simp⟩

/-- Every action kind but `Stop` ends in the counted activation with `next` installed,
provided no stop arrives and the snapshot export does not raise. -/
theorem task_action_normal (dflt : TaskInfo) (env : CycleEnv) (s : Assistance) (T : String)
    (rect : Rect) (hrun : s.m_thread_running = true)
    (htype : (getTask dflt s.m_configer.m_tasks T).type ≠ TaskType.Stop)
    (hprint : env.stop_print = false) (hrear : env.stop_rear = false)
    (hexport : (getTask dflt s.m_configer.m_tasks T).type = TaskType.PrintWindow →
      s.m_configer.m_options.print_window = true →
      ∃ r, print_window false s env.print_image env.imwrite_ok = .ok r) :
    ∃ evs, task_action dflt env s T rect
      = .ok ({ s.setTasks (count_activation dflt s.m_configer.m_tasks T) with
               m_next_tasks := (getTask dflt s.m_configer.m_tasks T).next }, evs) := by
  obtain ⟨evs, hev, _⟩ := after_action_normal dflt env s T hrun hrear
  unfold task_action
  simp only
  cases htp : (getTask dflt s.m_configer.m_tasks T).type with
  | ClickSelf => simp only [hev]; exact ⟨_, rfl⟩
  | ClickRect => simp only [hev]; exact ⟨_, rfl⟩
  | ClickRand => simp only [hev]; exact ⟨_, rfl⟩
  | DoNothing => simp only [hev]; exact ⟨_, rfl⟩
  | Stop => exact absurd htp htype
  | PrintWindow =>
    by_cases hopt : s.m_configer.m_options.print_window = true
    · obtain ⟨r, hr⟩ := hexport htp hopt
      simp only [hopt, if_true, wait_for_no_stop env.calls_print s hrun hprint, hr, hev]
      exact ⟨_, rfl⟩
    · simp only [hopt, Bool.false_eq_true, if_false, hev]
      exact ⟨_, rfl⟩
  | Other b => simp only [hev]; exact ⟨_, rfl⟩

theorem prefix_effects (P : Effect → Prop) (hget : P Effect.getImage)
    (hfind : ∀ n thr, P (Effect.find_image n thr)) (dflt : TaskInfo)
    (find_image : String → ℚ → AlgorithmType × ℚ × Rect) (m : TaskMap) (cands : List String) :
    ∀ e ∈ Effect.getImage :: (match_loop dflt find_image m cands).effects, P e := by
  intro e he
  simp only [List.mem_cons] at he
  rcases he with he | he
  · subst he; exact hget
  · obtain ⟨n, thr, rfl⟩ := match_loop_effects dflt find_image cands m e he
    exact hfind n thr

theorem mem_clear_exec_times (c : Configer) (p : String × TaskInfo)
    (h : p ∈ c.clear_exec_times.m_tasks) : p.2.exec_times = 0 := by
  simp only [Configer.clear_exec_times, List.mem_map] at h
  obtain ⟨q, _, rfl⟩ := h
  rfl

theorem names_clear_exec_times (c : Configer) :
    c.clear_exec_times.m_tasks.map Prod.fst = c.m_tasks.map Prod.fst := by
  simp [Configer.clear_exec_times, List.map_map, Function.comp_def]

/-! ## Lemmas on external calls -/

theorem static_delays (t t' : TaskInfo) (h : t'.static = t.static) :
    t'.pre_delay = t.pre_delay ∧ t'.rear_delay = t.rear_delay := by
  have h1 : t'.static.pre_delay = t.static.pre_delay := congrArg TaskInfo.pre_delay h
  have h2 : t'.static.rear_delay = t.static.rear_delay := congrArg TaskInfo.rear_delay h
  exact ⟨h1, h2⟩

theorem wait_for_of_running (calls : List ExtCall) (s : Assistance)
    (hrun : s.m_thread_running = true) :
    wait_for calls s = (run_calls calls s, !(run_calls calls s).m_thread_running) := by
  simp [wait_for, hrun]

/-- An external call changes the counters only: the static part of every record stays. -/
theorem ext_run_static (dflt : TaskInfo) (c : ExtCall) (s : Assistance) (k : String) :
    (getTask dflt (c.run s).m_configer.m_tasks k).static
      = (getTask dflt s.m_configer.m_tasks k).static := by
  cases c with
  | stop => exact getTask_static_clear dflt s.m_configer k
  | start task =>
    simp only [ExtCall.run, start]
    split
    · rfl
    · exact getTask_static_clear dflt s.m_configer k

theorem run_calls_static (dflt : TaskInfo) (calls : List ExtCall) (k : String) :
    ∀ (s : Assistance), (getTask dflt (run_calls calls s).m_configer.m_tasks k).static
      = (getTask dflt s.m_configer.m_tasks k).static := by
  induction calls with
  | nil => intro s; rfl
  | cons c rest ih =>
    intro s
    rw [run_calls_cons, ih, ext_run_static]

theorem exec_count_clear (dflt : TaskInfo) (c : Configer) (k : String) :
    (getTask dflt c.clear_exec_times.m_tasks k).exec_times = (getTask dflt c.m_tasks k).exec_times
      ∨ (getTask dflt c.clear_exec_times.m_tasks k).exec_times = 0 := by
  rw [getTask_clear_exec_times]
  cases hf : TaskMap.find k c.m_tasks with
  | none => left; simp [getTask, hf]
  | some t => right; rfl

/-- An external call leaves a counter as it was or at zero. -/
theorem ext_run_exec_count (dflt : TaskInfo) (c : ExtCall) (s : Assistance) (k : String) :
    exec_count dflt (c.run s) k = exec_count dflt s k ∨ exec_count dflt (c.run s) k = 0 := by
  cases c with
  | stop => exact exec_count_clear dflt s.m_configer k
  | start task =>
    simp only [ExtCall.run, start]
    split
    · exact Or.inl rfl
    · exact exec_count_clear dflt s.m_configer k

theorem run_calls_exec_count (dflt : TaskInfo) (calls : List ExtCall) (k : String) :
    ∀ (s : Assistance), exec_count dflt (run_calls calls s) k = exec_count dflt s k
      ∨ exec_count dflt (run_calls calls s) k = 0 := by
  induction calls with
  | nil => intro s; exact Or.inl rfl
  | cons c rest ih =>
    intro s
    rw [run_calls_cons]
    rcases ih (c.run s) with h | h
    · rcases ext_run_exec_count dflt c s k with h2 | h2
      · exact Or.inl (h.trans h2)
      · exact Or.inr (h.trans h2)
    · exact Or.inr h

/-- External calls leave the binding, the view, the options and the window size alone. -/
theorem ext_run_frame (c : ExtCall) (s : Assistance) :
    (c.run s).m_inited = s.m_inited ∧ (c.run s).m_pView = s.m_pView
      ∧ (c.run s).m_configer.m_options = s.m_configer.m_options
      ∧ (c.run s).m_configer.DefaultWindowWidth = s.m_configer.DefaultWindowWidth
      ∧ (c.run s).m_configer.DefaultWindowHeight = s.m_configer.DefaultWindowHeight := by
  cases c with
  | stop => exact ⟨rfl, rfl, rfl, rfl, rfl⟩
  | start task =>
    simp only [ExtCall.run, start]
    split
    · exact ⟨rfl, rfl, rfl, rfl, rfl⟩
    · exact ⟨rfl, rfl, rfl, rfl, rfl⟩

theorem run_calls_frame (calls : List ExtCall) :
    ∀ (s : Assistance), (run_calls calls s).m_inited = s.m_inited
      ∧ (run_calls calls s).m_pView = s.m_pView
      ∧ (run_calls calls s).m_configer.m_options = s.m_configer.m_options
      ∧ (run_calls calls s).m_configer.DefaultWindowWidth = s.m_configer.DefaultWindowWidth
      ∧ (run_calls calls s).m_configer.DefaultWindowHeight
          = s.m_configer.DefaultWindowHeight := by
  induction calls with
  | nil => intro s; exact ⟨rfl, rfl, rfl, rfl, rfl⟩
  | cons c rest ih =>
    intro s
    rw [run_calls_cons]
    obtain ⟨a1, a2, a3, a4, a5⟩ := ih (c.run s)
    obtain ⟨b1, b2, b3, b4, b5⟩ := ext_run_frame c s
    exact ⟨a1.trans b1, a2.trans b2, a3.trans b3, a4.trans b4, a5.trans b5⟩

/-- A session that is running or has no candidates stays so under external calls. -/
theorem ext_run_idle (c : ExtCall) (s : Assistance)
    (h : s.m_thread_running = true ∨ s.m_next_tasks = []) :
    (c.run s).m_thread_running = true ∨ (c.run s).m_next_tasks = [] := by
  cases c with
  | stop => exact Or.inr rfl
  | start task =>
    simp only [ExtCall.run, start]
    split
    · exact h
    · exact Or.inl rfl

theorem run_calls_idle (calls : List ExtCall) :
    ∀ (s : Assistance), (s.m_thread_running = true ∨ s.m_next_tasks = []) →
      (run_calls calls s).m_thread_running = true ∨ (run_calls calls s).m_next_tasks = [] := by
  induction calls with
  | nil => intro s h; exact h
  | cons c rest ih =>
    intro s h
    rw [run_calls_cons]
    exact ih (c.run s) (ext_run_idle c s h)

/-- A wait entered while running that ends with the session stopped leaves no candidates. -/
theorem run_calls_stopped_next (calls : List ExtCall) (s : Assistance)
    (h : s.m_thread_running = true ∨ s.m_next_tasks = [])
    (hstopped : (run_calls calls s).m_thread_running = false) :
    (run_calls calls s).m_next_tasks = [] := by
  rcases run_calls_idle calls s h with h1 | h1
  · rw [hstopped] at h1
    exact absurd h1 (by simp)
  · exact h1

theorem acted_task_some (dflt : TaskInfo) (env : CycleEnv) (s : Assistance) (T : String)
    (h : acted_task dflt env s = some T) :
    s.m_thread_running = true ∧ env.cur_image.empty = false
      ∧ ¬ (env.cur_image.cols < s.m_configer.DefaultWindowWidth
        ∨ env.cur_image.rows < s.m_configer.DefaultWindowHeight)
      ∧ (match_loop dflt env.find_image s.m_configer.m_tasks s.m_next_tasks).matched_task = T
      ∧ T ≠ "" := by
  unfold acted_task at h
  split at h
  · rename_i hc
    obtain ⟨h1, h2, h3⟩ := hc
    simp only at h
    split at h
    · rename_i hne
      simp only [Option.some.injEq] at h
      exact ⟨h1, h2, h3, h, h ▸ hne⟩
    · simp at h
  · simp at h

theorem acted_task_find (dflt : TaskInfo) (env : CycleEnv) (s : Assistance) (T : String)
    (h : acted_task dflt env s = some T) :
    s.m_next_tasks.find? (candidate_accepts dflt env.find_image s.m_configer.m_tasks) = some T := by
  obtain ⟨_, _, _, hm, hne⟩ := acted_task_some dflt env s T h
  rw [match_loop_matched] at hm
  cases hf : s.m_next_tasks.find? (candidate_accepts dflt env.find_image s.m_configer.m_tasks) with
  | none => rw [hf] at hm; simp at hm; exact absurd hm.symm hne
  | some n => rw [hf] at hm; simp at hm; rw [hm]

theorem cycle_of_acted (dflt : TaskInfo) (env : CycleEnv) (s : Assistance) (T : String)
    (h : acted_task dflt env s = some T) :
    working_proc_cycle dflt env s
      = with_effects
          (Effect.getImage ::
            (match_loop dflt env.find_image s.m_configer.m_tasks s.m_next_tasks).effects)
          (execute_task dflt env
            (s.setTasks (match_loop dflt env.find_image s.m_configer.m_tasks s.m_next_tasks).m_tasks)
            T (env.find_image T (getTask dflt s.m_configer.m_tasks T).threshold).2.2) := by
  obtain ⟨h1, h2, h3, hm, hne⟩ := acted_task_some dflt env s T h
  have hr := match_loop_rect dflt env.find_image s.m_next_tasks s.m_configer.m_tasks T
    (acted_task_find dflt env s T h)
  unfold working_proc_cycle
  simp only [h1, h2, if_true, if_neg h3, Bool.false_eq_true, if_false, hm, hr, ne_eq, hne,
    not_false_eq_true]

/-! ## The states along the action phase -/

theorem same_frame_refl (dflt : TaskInfo) (a : Assistance) : same_frame dflt a a :=
  ⟨fun _ => rfl, rfl, rfl, rfl, rfl⟩

theorem same_frame_trans (dflt : TaskInfo) (a b c : Assistance) (h1 : same_frame dflt a b)
    (h2 : same_frame dflt b c) : same_frame dflt a c :=
  ⟨fun k => (h1.1 k).trans (h2.1 k), h1.2.1.trans h2.2.1, h1.2.2.1.trans h2.2.2.1,
    h1.2.2.2.1.trans h2.2.2.2.1, h1.2.2.2.2.trans h2.2.2.2.2⟩

theorem same_frame_run_calls (dflt : TaskInfo) (calls : List ExtCall) (a : Assistance) :
    same_frame dflt (run_calls calls a) a := by
  obtain ⟨_, hv, ho, hw, hh⟩ := run_calls_frame calls a
  exact ⟨fun k => run_calls_static dflt calls k a, ho, hw, hh, hv⟩

theorem same_frame_wait_for (dflt : TaskInfo) (calls : List ExtCall) (a : Assistance) :
    same_frame dflt (wait_for calls a).1 a := by
  rcases (wait_for_cases calls a).1 with h | h
  · rw [h]; exact same_frame_refl dflt a
  · rw [h]; exact same_frame_run_calls dflt calls a

theorem same_frame_match_loop (dflt : TaskInfo) (env : CycleEnv) (s : Assistance) :
    same_frame dflt (s.setTasks
      (match_loop dflt env.find_image s.m_configer.m_tasks s.m_next_tasks).m_tasks) s := by
  have hg := getTask_match_loop dflt env.find_image s.m_next_tasks s.m_configer.m_tasks
  exact ⟨fun k => by rw [setTasks_m_tasks, hg], rfl, rfl, rfl, rfl⟩

theorem same_frame_at_limit_check (dflt : TaskInfo) (env : CycleEnv) (s : Assistance)
    (T : String) : same_frame dflt (at_limit_check dflt env s T) s := by
  unfold at_limit_check
  simp only
  split
  · exact same_frame_trans dflt _ _ _ (same_frame_wait_for dflt _ _)
      (same_frame_match_loop dflt env s)
  · exact same_frame_match_loop dflt env s

theorem same_frame_at_switch (dflt : TaskInfo) (env : CycleEnv) (s : Assistance)
    (T : String) : same_frame dflt (at_switch dflt env s T) s := by
  unfold at_switch
  simp only
  split
  · exact same_frame_trans dflt _ _ _ (same_frame_wait_for dflt _ _)
      (same_frame_at_limit_check dflt env s T)
  · exact same_frame_at_limit_check dflt env s T

theorem same_frame_at_count (dflt : TaskInfo) (env : CycleEnv) (s : Assistance)
    (T : String) : same_frame dflt (at_count dflt env s T) s := by
  unfold at_count
  simp only
  split
  · exact same_frame_trans dflt _ _ _ (same_frame_wait_for dflt _ _)
      (same_frame_at_switch dflt env s T)
  · exact same_frame_at_switch dflt env s T

theorem print_window_same_frame (dflt : TaskInfo) (b : Bool) (a a' : Assistance) (img : Mat)
    (ok : Bool) (h : same_frame dflt a a') :
    print_window b a img ok = print_window b a' img ok := by
  obtain ⟨_, _, hw, hh, hv⟩ := h
  simp only [print_window, crop_rect, hv, hw, hh]

/-- What `m_tasks[T]` reads, apart from the counter, in a state with the same frame. -/
theorem fields_same_frame (dflt : TaskInfo) (a b : Assistance) (T : String)
    (h : same_frame dflt a b) :
    (getTask dflt a.m_configer.m_tasks T).type = (getTask dflt b.m_configer.m_tasks T).type
      ∧ (getTask dflt a.m_configer.m_tasks T).max_times
          = (getTask dflt b.m_configer.m_tasks T).max_times
      ∧ (getTask dflt a.m_configer.m_tasks T).pre_delay
          = (getTask dflt b.m_configer.m_tasks T).pre_delay
      ∧ (getTask dflt a.m_configer.m_tasks T).rear_delay
          = (getTask dflt b.m_configer.m_tasks T).rear_delay := by
  obtain ⟨_, _, f3, f4, _⟩ := static_fields _ _ (h.1 T)
  obtain ⟨g1, g2⟩ := static_delays _ _ (h.1 T)
  exact ⟨f3, f4, g1, g2⟩

/-- The counters in the states along the action phase: as at the start of the iteration,
or reset to zero by an external call. -/
theorem exec_count_wait_for (dflt : TaskInfo) (calls : List ExtCall) (a : Assistance)
    (k : String) :
    exec_count dflt (wait_for calls a).1 k = exec_count dflt a k
      ∨ exec_count dflt (wait_for calls a).1 k = 0 := by
  rcases (wait_for_cases calls a).1 with h | h
  · rw [h]; exact Or.inl rfl
  · rw [h]; exact run_calls_exec_count dflt calls k a

theorem exec_count_at_limit_check (dflt : TaskInfo) (env : CycleEnv) (s : Assistance)
    (T k : String) :
    exec_count dflt (at_limit_check dflt env s T) k = exec_count dflt s k
      ∨ exec_count dflt (at_limit_check dflt env s T) k = 0 := by
  have hg := getTask_match_loop dflt env.find_image s.m_next_tasks s.m_configer.m_tasks
  have h1 : exec_count dflt (s.setTasks (match_loop dflt env.find_image s.m_configer.m_tasks
      s.m_next_tasks).m_tasks) k = exec_count dflt s k := by
    simp [exec_count, setTasks_m_tasks, hg]
  unfold at_limit_check
  simp only
  split
  · rcases exec_count_wait_for dflt env.calls_pre (s.setTasks (match_loop dflt env.find_image
      s.m_configer.m_tasks s.m_next_tasks).m_tasks) k with h | h
    · exact Or.inl (h.trans h1)
    · exact Or.inr h
  · exact Or.inl h1

/-- When the limit check is reached, the action phase is the limit check made in the state
`at_limit_check`, preceded at most by the `pre_delay` wait. -/
theorem execute_task_at_limit_check (dflt : TaskInfo) (env : CycleEnv) (s : Assistance)
    (T : String) (hT : acted_task dflt env s = some T)
    (hrun : (at_limit_check dflt env s T).m_thread_running = true) :
    ∃ pre, working_proc_cycle dflt env s
        = with_effects pre (limit_check dflt env (at_limit_check dflt env s T) T
            (env.find_image T (getTask dflt s.m_configer.m_tasks T).threshold).2.2)
      ∧ ∀ e ∈ pre, e.is_action = false := by
  have hg := getTask_match_loop dflt env.find_image s.m_next_tasks s.m_configer.m_tasks
  have hnc := prefix_effects (fun e => e.is_action = false) rfl (fun _ _ => rfl) dflt
    env.find_image s.m_configer.m_tasks s.m_next_tasks
  rw [cycle_of_acted dflt env s T hT]
  unfold at_limit_check at hrun ⊢
  unfold execute_task
  simp only [setTasks_m_tasks, hg] at hrun ⊢
  by_cases hd : (getTask dflt s.m_configer.m_tasks T).pre_delay > 0
  · simp only [hd, if_true] at hrun ⊢
    have hw2 := (wait_for_cases env.calls_pre (s.setTasks (match_loop dflt env.find_image
      s.m_configer.m_tasks s.m_next_tasks).m_tasks)).2
    rw [hrun] at hw2
    simp only [hw2, Bool.not_true, Bool.false_eq_true, if_false]
    refine ⟨_, with_effects_append _ _ _, ?_⟩
    intro e he
    simp only [List.mem_append, List.mem_singleton] at he
    rcases he with he | he
    · exact hnc e he
    · subst he; rfl
  · simp only [hd, if_false]
    exact ⟨_, rfl, hnc⟩

/-- Within the limit and with the session running after the random delay, the limit check
is the `switch` entered in the state `at_switch`, preceded at most by the random wait. -/
theorem limit_check_at_switch (dflt : TaskInfo) (env : CycleEnv) (s : Assistance)
    (T : String) (rect : Rect)
    (hlim : exec_count dflt (at_limit_check dflt env s T) T
      < (getTask dflt s.m_configer.m_tasks T).max_times)
    (hrun : (at_switch dflt env s T).m_thread_running = true) :
    ∃ pre, limit_check dflt env (at_limit_check dflt env s T) T rect
        = with_effects pre (task_action dflt env (at_switch dflt env s T) T rect)
      ∧ ∀ e ∈ pre, e.is_action = false := by
  obtain ⟨_, fmax, _, _⟩ := fields_same_frame dflt _ _ T (same_frame_at_limit_check dflt env s T)
  have hl : (getTask dflt (at_limit_check dflt env s T).m_configer.m_tasks T).exec_times
      < (getTask dflt (at_limit_check dflt env s T).m_configer.m_tasks T).max_times := by
    rw [fmax]; exact hlim
  unfold at_switch at hrun ⊢
  unfold limit_check
  simp only [hl, if_true] at hrun ⊢
  split
  · rename_i hc
    rw [if_pos hc] at hrun
    have hw2 := (wait_for_cases env.calls_random (at_limit_check dflt env s T)).2
    rw [hrun] at hw2
    simp only [hw2, Bool.not_true, Bool.false_eq_true, if_false]
    exact ⟨_, rfl, by simp [Effect.is_action]⟩
  · exact ⟨[], (with_effects_nil _).symm, by simp⟩

/-- For an action kind other than `Stop` whose export, if any, does not raise, the `switch`
leads to the closing part of the activation entered in the state `at_count`. -/
theorem task_action_at_count (dflt : TaskInfo) (env : CycleEnv) (s : Assistance)
    (T : String) (rect : Rect)
    (htype : (getTask dflt s.m_configer.m_tasks T).type ≠ TaskType.Stop)
    (hexport : (getTask dflt s.m_configer.m_tasks T).type = TaskType.PrintWindow →
      s.m_configer.m_options.print_window = true →
      ∃ r, print_window false s env.print_image env.imwrite_ok = .ok r) :
    ∃ pre, task_action dflt env (at_switch dflt env s T) T rect
        = with_effects pre (after_action dflt env (at_count dflt env s T) T) := by
  have hsf := same_frame_at_switch dflt env s T
  obtain ⟨ftype, _, _, _⟩ := fields_same_frame dflt _ _ T hsf
  have hopt := hsf.2.1
  unfold at_count
  unfold task_action
  simp only [ftype, hopt]
  cases htp : (getTask dflt s.m_configer.m_tasks T).type with
  | ClickSelf => simp only [reduceCtorEq, false_and, if_false]; exact ⟨_, rfl⟩
  | ClickRect => simp only [reduceCtorEq, false_and, if_false]; exact ⟨_, rfl⟩
  | ClickRand => simp only [reduceCtorEq, false_and, if_false]; exact ⟨_, rfl⟩
  | DoNothing =>
    simp only [reduceCtorEq, false_and, if_false]
    exact ⟨[], (with_effects_nil _).symm⟩
  | Stop => exact absurd htp htype
  | PrintWindow =>
    by_cases ho : s.m_configer.m_options.print_window = true
    · obtain ⟨r, hr⟩ := hexport htp ho
      have hpw : print_window false (wait_for env.calls_print (at_switch dflt env s T)).1
          env.print_image env.imwrite_ok = .ok r := by
        rw [print_window_same_frame dflt false _ s _ _
          (same_frame_trans dflt _ _ _ (same_frame_wait_for dflt _ _) hsf)]
        exact hr
      simp only [ho, and_self, if_true, hpw]
      exact ⟨_, rfl⟩
    · simp only [ho, and_false, Bool.false_eq_true, if_false]
      exact ⟨[], (with_effects_nil _).symm⟩
  | Other b =>
    simp only [reduceCtorEq, false_and, if_false]
    exact ⟨[], (with_effects_nil _).symm⟩

/-! ## Matching -/

/-- C1 (as stated, refuted): with candidates `["", "B"]` that the matcher both accepts, the
first accepting candidate is the empty name, yet the iteration acts on no task: it
queries the matcher for the empty name only, clicks nothing and leaves the candidate
list as it was. -/
theorem first_fit_fails_on_empty_name :
    ex_state_noname.m_thread_running = true
      ∧ ex_state_noname.m_next_tasks.find?
          (candidate_accepts ex_default ex_env.find_image ex_state_noname.m_configer.m_tasks)
        = some ""
      ∧ acted_task ex_default ex_env ex_state_noname = none
      ∧ acted_task ex_default ex_env ex_state_noname
        ≠ ex_state_noname.m_next_tasks.find?
          (candidate_accepts ex_default ex_env.find_image ex_state_noname.m_configer.m_tasks)
      ∧ ∃ s' evs, working_proc_cycle ex_default ex_env ex_state_noname = .ok (s', evs)
          ∧ s'.m_next_tasks = ["", "B"] ∧ clicks evs = []
          ∧ evs = [Effect.getImage, Effect.find_image "" 0,
              Effect.wait_for WaitKind.identify 100] :=
  ⟨by decide, by decide, by decide, by decide, _, _, rfl, rfl, rfl, rfl⟩

/-- C1 (amended): in an iteration that reaches the matching loop, the task acted on is the
first candidate, in list order, that passes the acceptance test, provided its name is
not the empty string; the action phase then runs on that task with the region the
matcher reported for it.  If the first accepting candidate has the empty name, or no
candidate accepts, no task is acted on: the iteration makes no action call. -/
theorem first_fit_acted_task (dflt : TaskInfo) (env : CycleEnv) (s : Assistance)
    (hrun : s.m_thread_running = true) (hframe : env.cur_image.empty = false)
    (hsize : ¬ (env.cur_image.cols < s.m_configer.DefaultWindowWidth
      ∨ env.cur_image.rows < s.m_configer.DefaultWindowHeight)) :
    acted_task dflt env s
        = (match s.m_next_tasks.find?
              (candidate_accepts dflt env.find_image s.m_configer.m_tasks) with
          | some n => if n = "" then none else some n
          | none => none)
      ∧ (∀ T, acted_task dflt env s = some T →
          ∃ pre, working_proc_cycle dflt env s
            = with_effects pre
                (execute_task dflt env
                  (s.setTasks
                    (match_loop dflt env.find_image s.m_configer.m_tasks s.m_next_tasks).m_tasks)
                  T (env.find_image T (getTask dflt s.m_configer.m_tasks T).threshold).2.2)
            ∧ ∀ e ∈ pre, e.is_action = false)
      ∧ (acted_task dflt env s = none →
          ∃ evs, working_proc_cycle dflt env s
            = .ok (s.setTasks
                (match_loop dflt env.find_image s.m_configer.m_tasks s.m_next_tasks).m_tasks, evs)
            ∧ ∀ e ∈ evs, e.is_action = false) := by
  have hfx : ∀ e ∈ (match_loop dflt env.find_image s.m_configer.m_tasks s.m_next_tasks).effects,
      e.is_action = false := by
    intro e he
    obtain ⟨n, thr, rfl⟩ := match_loop_effects dflt env.find_image _ _ e he
    rfl
  refine ⟨?_, ?_, ?_⟩
  · unfold acted_task
    simp only [hrun, hframe, hsize, not_false_eq_true, and_self, if_true, match_loop_matched]
    cases hf : s.m_next_tasks.find?
        (candidate_accepts dflt env.find_image s.m_configer.m_tasks) with
    | none => simp
    | some n => by_cases hn : n = "" <;> simp [hn]
  · intro T hT
    refine ⟨_, cycle_of_acted dflt env s T hT, ?_⟩
    intro e he
    simp only [List.mem_cons] at he
    rcases he with he | he
    · subst he; rfl
    · exact hfx e he
  · intro hnone
    have hm : (match_loop dflt env.find_image s.m_configer.m_tasks s.m_next_tasks).matched_task
        = "" := by
      unfold acted_task at hnone
      simp only [hrun, hframe, hsize, not_false_eq_true, and_self, if_true] at hnone
      by_contra hne
      simp [hne] at hnone
    refine ⟨Effect.getImage ::
      (match_loop dflt env.find_image s.m_configer.m_tasks s.m_next_tasks).effects ++
        [Effect.wait_for WaitKind.identify s.m_configer.m_options.identify_delay], ?_, ?_⟩
    · unfold working_proc_cycle
      simp only [hrun, hframe, if_true, if_neg hsize, Bool.false_eq_true, if_false, hm, ne_eq,
        not_true_eq_false]
    · intro e he
      simp only [List.cons_append, List.mem_cons, List.mem_append, List.not_mem_nil,
        or_false] at he
      rcases he with he | he | he
      · subst he; rfl
      · exact hfx e he
      · subst he; rfl

/-- C1, amended theorem applied to the example session: candidates `[A, B]` both accept and
the task acted on is `A`. -/
theorem first_fit_acted_task_witness :
    ex_state.m_thread_running = true ∧ ex_env.cur_image.empty = false
      ∧ ex_state.m_next_tasks.find?
          (candidate_accepts ex_default ex_env.find_image ex_state.m_configer.m_tasks) = some "A"
      ∧ candidate_accepts ex_default ex_env.find_image ex_state.m_configer.m_tasks "B" = true
      ∧ acted_task ex_default ex_env ex_state = some "A" :=
  ⟨by decide, by decide, by decide, by decide,
    (first_fit_acted_task ex_default ex_env ex_state (by decide) (by decide) (by decide)).1.trans
      (by decide)⟩

/-- C2: a candidate is accepted exactly when the matcher reports `JustReturn`, or
`MatchTemplate` with a confidence of at least the task's `threshold`, or `CompareHist`
with a confidence of at least the task's `cache_threshold`; no other kind is ever
accepted, and template similarity 0.75 against threshold 0.8 is not accepted. -/
theorem acceptance_rule (task : TaskInfo) (algorithm : AlgorithmType) (value : ℚ) :
    (accepts algorithm value task.threshold task.cache_threshold = true ↔
        algorithm = AlgorithmType.JustReturn
        ∨ (algorithm = AlgorithmType.MatchTemplate ∧ value ≥ task.threshold)
        ∨ (algorithm = AlgorithmType.CompareHist ∧ value ≥ task.cache_threshold))
      ∧ (∀ code, accepts (AlgorithmType.Other code) value task.threshold task.cache_threshold
          = false)
      ∧ (∀ c, accepts AlgorithmType.MatchTemplate (3 / 4) (4 / 5) c = false)
      ∧ (∀ (dflt : TaskInfo) (find_image : String → ℚ → AlgorithmType × ℚ × Rect) (m : TaskMap)
          (n : String),
          candidate_accepts dflt find_image m n
            = accepts (find_image n (getTask dflt m n).threshold).1
                (find_image n (getTask dflt m n).threshold).2.1
                (getTask dflt m n).threshold (getTask dflt m n).cache_threshold) := by
  refine ⟨?_, ?_, ?_, ?_⟩
  · simp [accepts, or_assoc]
  · intro code
    simp [accepts]
  · intro c
    simp [accepts]
    norm_num
  · intro dflt find_image m n
    rfl

/-! ## Activation -/

/-- C3 (as stated, refuted): `A` is within its limit, clicks, and lists `B` twice in
`reduce_other_times`; no stop arrives.  The iteration completes and `B` ends two lower,
not one: the loop of lines 287-290 debits once per entry. -/
theorem duplicate_debit_counts_twice :
    acted_task ex_default ex_env ex_state_twice = some "A"
      ∧ exec_count ex_default ex_state_twice "A"
          < (getTask ex_default ex_state_twice.m_configer.m_tasks "A").max_times
      ∧ (getTask ex_default ex_state_twice.m_configer.m_tasks "A").type ≠ TaskType.Stop
      ∧ ex_env.stop_pre = false ∧ ex_env.stop_random = false ∧ ex_env.stop_print = false
      ∧ ex_env.stop_rear = false
      ∧ "B" ∈ (getTask ex_default ex_state_twice.m_configer.m_tasks "A").reduce_other_times
      ∧ ∃ s' evs, working_proc_cycle ex_default ex_env ex_state_twice = .ok (s', evs)
        ∧ exec_count ex_default ex_state_twice "B" = 0
        ∧ exec_count ex_default s' "B" = -2
        ∧ exec_count ex_default s' "B" ≠ exec_count ex_default ex_state_twice "B" - 1 :=
  ⟨by decide, by decide, by decide, by decide, by decide, by decide, by decide, by decide,
    _, _, rfl, by decide, by decide, by decide⟩

/-- C3 (amended): when the accepted task `T` is within its limit, its action kind is not
`Stop`, no stop arrives during the waits of the iteration (and the snapshot export, if `T`
asks for one, does not raise), the iteration completes and afterwards every counter is
the one before, plus one for `T`, minus the number of entries of `T`'s
`reduce_other_times` that name the task; `m_next_tasks` is `T`'s `next`.  When no name is
listed twice this reads: `T` one higher (unchanged if it names itself), every other
listed task one lower, every unlisted task unchanged. -/
theorem normal_activation (dflt : TaskInfo) (env : CycleEnv) (s : Assistance) (T : String)
    (hT : acted_task dflt env s = some T)
    (hlim : exec_count dflt s T < (getTask dflt s.m_configer.m_tasks T).max_times)
    (htype : (getTask dflt s.m_configer.m_tasks T).type ≠ TaskType.Stop)
    (hstop : env.stop_pre = false ∧ env.stop_random = false ∧ env.stop_print = false
      ∧ env.stop_rear = false)
    (hexport : (getTask dflt s.m_configer.m_tasks T).type = TaskType.PrintWindow →
      s.m_configer.m_options.print_window = true →
      ∃ r, print_window false s env.print_image env.imwrite_ok = .ok r) :
    ∃ s' evs, working_proc_cycle dflt env s = .ok (s', evs)
      ∧ (∀ k, exec_count dflt s' k = exec_count dflt s k + (if k = T then 1 else 0)
          - ((getTask dflt s.m_configer.m_tasks T).reduce_other_times.count k : Int))
      ∧ ((getTask dflt s.m_configer.m_tasks T).reduce_other_times.Nodup →
          exec_count dflt s' T = exec_count dflt s T
              + (if T ∈ (getTask dflt s.m_configer.m_tasks T).reduce_other_times then 0 else 1)
            ∧ (∀ k ∈ (getTask dflt s.m_configer.m_tasks T).reduce_other_times, k ≠ T →
                exec_count dflt s' k = exec_count dflt s k - 1))
      ∧ (∀ k, k ≠ T → k ∉ (getTask dflt s.m_configer.m_tasks T).reduce_other_times →
          exec_count dflt s' k = exec_count dflt s k)
      ∧ s'.m_next_tasks = (getTask dflt s.m_configer.m_tasks T).next := by
  obtain ⟨hpre, hrand, hprint, hrear⟩ := hstop
  obtain ⟨hrun, _, _, _, _⟩ := acted_task_some dflt env s T hT
  have hg := getTask_match_loop dflt env.find_image s.m_next_tasks s.m_configer.m_tasks
  have hcyc := cycle_of_acted dflt env s T hT
  generalize (match_loop dflt env.find_image s.m_configer.m_tasks s.m_next_tasks) = r at hg hcyc
  obtain ⟨pre, hex, _⟩ := execute_task_reaches_action dflt env (s.setTasks r.m_tasks) T
    (env.find_image T (getTask dflt s.m_configer.m_tasks T).threshold).2.2
    hrun hpre hrand (by simpa [setTasks_m_tasks, hg, exec_count] using hlim)
  obtain ⟨evs, hact⟩ := task_action_normal dflt env (s.setTasks r.m_tasks) T
    (env.find_image T (getTask dflt s.m_configer.m_tasks T).threshold).2.2
    hrun (by simpa [setTasks_m_tasks, hg] using htype) hprint hrear
    (by simpa [setTasks_m_tasks, hg, print_window_setTasks] using hexport)
  rw [hex, hact] at hcyc
  simp only [setTasks_m_tasks, hg] at hcyc
  refine ⟨_, _, hcyc, ?_, ?_, ?_, ?_⟩
  · intro k
    simp only [exec_count, setTasks_m_tasks, getTask_count_activation, hg]
  · intro hset
    refine ⟨?_, ?_⟩
    · simp only [exec_count, setTasks_m_tasks, getTask_count_activation, hg, if_true]
      by_cases hmem : T ∈ (getTask dflt s.m_configer.m_tasks T).reduce_other_times
      · simp [hmem, List.count_eq_one_of_mem hset hmem]
      · simp [hmem, List.count_eq_zero_of_not_mem hmem]
    · intro k hk hne
      simp only [exec_count, setTasks_m_tasks, getTask_count_activation, hg]
      simp [hne, List.count_eq_one_of_mem hset hk]
  · intro k hne hk
    simp only [exec_count, setTasks_m_tasks, getTask_count_activation, hg]
    simp [hne, List.count_eq_zero_of_not_mem hk]
  · rfl

/-- C3 on the example sessions.  `A` (limit 1, count 0, debits `[B]`) is activated:
afterwards its count is 1, `B`'s count is -1 and the candidates are `A`'s `next`, `[B]`.
With debits `[B, B]` the count of `B` is -2.  A snapshot task on a full-size frame with
zero offsets, where the export completes, has its `next = [N]` installed. -/
theorem normal_activation_witness :
    (acted_task ex_default ex_env ex_state = some "A"
      ∧ ∃ s' evs, working_proc_cycle ex_default ex_env ex_state = .ok (s', evs)
        ∧ exec_count ex_default s' "A" = 1
        ∧ exec_count ex_default s' "B" = -1
        ∧ s'.m_next_tasks = ["B"])
      ∧ (acted_task ex_default ex_env ex_state_twice = some "A"
        ∧ ∃ s' evs, working_proc_cycle ex_default ex_env ex_state_twice = .ok (s', evs)
          ∧ exec_count ex_default s' "A" = 1
          ∧ exec_count ex_default s' "B" = -2
          ∧ s'.m_next_tasks = ["B"])
      ∧ ((∃ r, print_window false
            (ex_state_of { ex_default with type := TaskType.PrintWindow, next := ["N"] })
            ex_env.print_image ex_env.imwrite_ok = .ok r)
        ∧ ∃ s' evs, working_proc_cycle ex_default ex_env
            (ex_state_of { ex_default with type := TaskType.PrintWindow, next := ["N"] })
            = .ok (s', evs)
          ∧ s'.m_next_tasks = ["N"]) := by
  refine ⟨⟨by decide, ?_⟩, ⟨by decide, ?_⟩, ⟨_, rfl⟩, ?_⟩
  · obtain ⟨s', evs, h1, h2, _, _, h5⟩ := normal_activation ex_default ex_env ex_state "A"
      (by decide) (by decide) (by decide) (by decide) (by intro h; exact absurd h (by decide))
    refine ⟨s', evs, h1, ?_, ?_, h5⟩
    · rw [h2 "A"]; decide
    · rw [h2 "B"]; decide
  · obtain ⟨s', evs, h1, h2, _, _, h5⟩ := normal_activation ex_default ex_env ex_state_twice
      "A" (by decide) (by decide) (by decide) (by decide)
      (by intro h; exact absurd h (by decide))
    refine ⟨s', evs, h1, ?_, ?_, h5⟩
    · rw [h2 "A"]; decide
    · rw [h2 "B"]; decide
  · obtain ⟨s', evs, h1, _, _, _, h5⟩ := normal_activation ex_default ex_env
      (ex_state_of { ex_default with type := TaskType.PrintWindow, next := ["N"] }) "T"
      (by decide) (by decide) (by decide) (by decide) (fun _ _ => ⟨_, rfl⟩)
    exact ⟨s', evs, h1, h5⟩

/-- C4: when the accepted task `T` has reached its limit and the run is not stopped during
`pre_delay`, the iteration completes without any action call (no click, no stop, no
export) whatever the action kind, leaves every counter as it was, and installs `T`'s
`exceeded_next` as `m_next_tasks`. -/
theorem exceeded_transition (dflt : TaskInfo) (env : CycleEnv) (s : Assistance) (T : String)
    (hT : acted_task dflt env s = some T)
    (hlim : (getTask dflt s.m_configer.m_tasks T).max_times ≤ exec_count dflt s T)
    (hpre : 0 < (getTask dflt s.m_configer.m_tasks T).pre_delay → env.stop_pre = false) :
    ∃ s' evs, working_proc_cycle dflt env s = .ok (s', evs)
      ∧ (∀ e ∈ evs, e.is_action = false)
      ∧ clicks evs = []
      ∧ (∀ k, exec_count dflt s' k = exec_count dflt s k)
      ∧ s'.m_thread_running = true
      ∧ s'.m_next_tasks = (getTask dflt s.m_configer.m_tasks T).exceeded_next := by
  obtain ⟨hrun, _, _, _, _⟩ := acted_task_some dflt env s T hT
  have hg := getTask_match_loop dflt env.find_image s.m_next_tasks s.m_configer.m_tasks
  have hcyc := cycle_of_acted dflt env s T hT
  have hfx := match_loop_effects dflt env.find_image s.m_next_tasks s.m_configer.m_tasks
  generalize (match_loop dflt env.find_image s.m_configer.m_tasks s.m_next_tasks) = r
    at hg hcyc hfx
  have hnl : ¬ (getTask dflt s.m_configer.m_tasks T).exec_times
      < (getTask dflt s.m_configer.m_tasks T).max_times := by
    simpa [exec_count] using hlim
  have hex : ∃ pre, execute_task dflt env (s.setTasks r.m_tasks) T
      (env.find_image T (getTask dflt s.m_configer.m_tasks T).threshold).2.2
        = .ok ({ s.setTasks r.m_tasks with
                 m_next_tasks := (getTask dflt s.m_configer.m_tasks T).exceeded_next }, pre)
      ∧ ∀ e ∈ pre, e.is_action = false := by
    unfold execute_task limit_check
    simp only [setTasks_m_tasks, hg, hnl, if_false]
    by_cases hd : (getTask dflt s.m_configer.m_tasks T).pre_delay > 0
    · simp only [hd, if_true, wait_for_no_stop env.calls_pre (s.setTasks r.m_tasks) hrun (hpre hd),
        Bool.false_eq_true, if_false, setTasks_m_tasks, hg, hnl]
      exact ⟨_, rfl, by simp [Effect.is_action]⟩
    · simp only [hd, if_false]
      exact ⟨_, rfl, by simp [Effect.is_action]⟩
  obtain ⟨pre, hex, hpreact⟩ := hex
  rw [hex] at hcyc
  have hall : ∀ e ∈ Effect.getImage :: r.effects ++ pre, e.is_action = false := by
    intro e he
    simp only [List.cons_append, List.mem_cons, List.mem_append] at he
    rcases he with he | he | he
    · subst he; rfl
    · obtain ⟨n, thr, rfl⟩ := hfx e he
      rfl
    · exact hpreact e he
  refine ⟨_, _, hcyc, hall, clicks_of_no_action _ hall, ?_, hrun, rfl⟩
  intro k
  simp only [exec_count, setTasks_m_tasks, hg]

/-- C4 on the example session with `A` at its limit: no click is issued, the counters stay
and the candidates become `A`'s `exceeded_next`, `[C]`. -/
theorem exceeded_transition_witness :
    acted_task ex_default ex_env ex_state_exceeded = some "A"
      ∧ exec_count ex_default ex_state_exceeded "A" = 1
      ∧ ∃ s' evs, working_proc_cycle ex_default ex_env ex_state_exceeded = .ok (s', evs)
        ∧ (∀ e ∈ evs, e.is_action = false)
        ∧ clicks evs = []
        ∧ (∀ k, exec_count ex_default s' k = exec_count ex_default ex_state_exceeded k)
        ∧ s'.m_thread_running = true
        ∧ s'.m_next_tasks = ["C"] :=
  ⟨by decide, by decide,
    exceeded_transition ex_default ex_env ex_state_exceeded "A" (by decide) (by decide)
      (by decide)⟩

/-! ## Lifecycle -/

/-- C5: on a session that is not running and has a bound target, `start(e)` leaves every
task of the graph with `exec_times = 0`, sets `m_next_tasks` to exactly `[e]` and sets
`m_thread_running`; the task names are the same as before. -/
theorem start_contract (s : Assistance) (e : String)
    (hrun : s.m_thread_running = false) (hinit : s.m_inited = true) :
    (∀ p ∈ (start e s).m_configer.m_tasks, p.2.exec_times = 0)
      ∧ (start e s).m_configer.m_tasks.map Prod.fst = s.m_configer.m_tasks.map Prod.fst
      ∧ (start e s).m_next_tasks = [e]
      ∧ (start e s).m_thread_running = true := by
  have hs : start e s = { s with
      m_configer := s.m_configer.clear_exec_times
      cache_clears := s.cache_clears + 1
      m_next_tasks := [e]
      m_thread_running := true } := by
    simp [start, hrun, hinit]
  rw [hs]
  exact ⟨fun p hp => mem_clear_exec_times s.m_configer p hp,
    names_clear_exec_times s.m_configer, rfl, rfl⟩

/-- C5 on the idle example session (counter of `A` at 1, stale candidates `[B, A]`):
after `start("Home")` the counters are 0, the candidates are `["Home"]` and the session
runs. -/
theorem start_contract_witness :
    ex_state_idle.m_thread_running = false ∧ ex_state_idle.m_inited = true
      ∧ exec_count ex_default ex_state_idle "A" = 1
      ∧ (∀ p ∈ (start "Home" ex_state_idle).m_configer.m_tasks, p.2.exec_times = 0)
      ∧ (start "Home" ex_state_idle).m_configer.m_tasks.map Prod.fst
          = ex_state_idle.m_configer.m_tasks.map Prod.fst
      ∧ (start "Home" ex_state_idle).m_next_tasks = ["Home"]
      ∧ (start "Home" ex_state_idle).m_thread_running = true :=
  ⟨by decide, by decide, by decide,
    start_contract ex_state_idle "Home" (by decide) (by decide)⟩

/-- C6: after `stop(block)`, for either value of `block`, `m_thread_running` is false and
`m_next_tasks` is empty; `stop(true)` leaves every task with `exec_times = 0` (same task
names), `stop(false)` leaves the whole configuration, counters included, as it was. -/
theorem stop_contract (s : Assistance) (block : Bool) :
    (stop block s).m_thread_running = false
      ∧ (stop block s).m_next_tasks = []
      ∧ (∀ p ∈ (stop true s).m_configer.m_tasks, p.2.exec_times = 0)
      ∧ (stop true s).m_configer.m_tasks.map Prod.fst = s.m_configer.m_tasks.map Prod.fst
      ∧ (stop false s).m_configer = s.m_configer := by
  refine ⟨rfl, rfl, ?_, ?_, rfl⟩
  · intro p hp
    exact mem_clear_exec_times s.m_configer p hp
  · exact names_clear_exec_times s.m_configer

/-! ## Stop action and capture loss -/

/-- C8: in a running session, an iteration whose captured frame is empty stops the run
(`m_thread_running` false, `m_next_tasks` empty) after the capture alone: no candidate
is evaluated, no click or export happens, and the configuration with every counter is
unchanged. -/
theorem capture_loss (dflt : TaskInfo) (env : CycleEnv) (s : Assistance)
    (hrun : s.m_thread_running = true) (hempty : env.cur_image.empty = true) :
    ∃ s' evs, working_proc_cycle dflt env s = .ok (s', evs)
      ∧ s'.m_thread_running = false
      ∧ s'.m_next_tasks = []
      ∧ s'.m_configer = s.m_configer
      ∧ evs = [Effect.getImage, Effect.stop_nonblock]
      ∧ clicks evs = []
      ∧ (∀ n thr, Effect.find_image n thr ∉ evs) := by
  refine ⟨stop false s, [Effect.getImage, Effect.stop_nonblock], ?_, rfl, rfl, rfl, rfl, rfl, ?_⟩
  · simp [working_proc_cycle, hrun, hempty]
  · intro n thr
    simp

/-- C8 on the example session with a lost capture. -/
theorem capture_loss_witness :
    ex_state.m_thread_running = true ∧ ex_env_lost.cur_image.empty = true
      ∧ ∃ s' evs, working_proc_cycle ex_default ex_env_lost ex_state = .ok (s', evs)
        ∧ s'.m_thread_running = false
        ∧ s'.m_next_tasks = []
        ∧ s'.m_configer = ex_state.m_configer
        ∧ evs = [Effect.getImage, Effect.stop_nonblock]
        ∧ clicks evs = []
        ∧ (∀ n thr, Effect.find_image n thr ∉ evs) :=
  ⟨by decide, by decide, capture_loss ex_default ex_env_lost ex_state (by decide) (by decide)⟩

/-! ## Interrupted waits -/

/-- C9 (as stated, refuted): during the `pre_delay` of the click task `T` an external
`stop()` arrives and, before the wait ends, an external `start("T")`.  `stop` does not
wake the loop and the wait returns the run flag it finds, so the iteration goes on: it
clicks, counts the activation, applies the debit and installs `T`'s `next`. -/
theorem restart_during_pre_delay_resumes :
    acted_task ex_default { ex_env with calls_pre := [ExtCall.stop, ExtCall.start "T"] }
        (ex_state_of ex_slow) = some "T"
      ∧ 0 < (getTask ex_default (ex_state_of ex_slow).m_configer.m_tasks "T").pre_delay
      ∧ CycleEnv.stop_pre { ex_env with calls_pre := [ExtCall.stop, ExtCall.start "T"] } = true
      ∧ ∃ s' evs, working_proc_cycle ex_default
            { ex_env with calls_pre := [ExtCall.stop, ExtCall.start "T"] }
            (ex_state_of ex_slow) = .ok (s', evs)
          ∧ clicks evs = [⟨1, 2, 3, 4⟩]
          ∧ exec_count ex_default s' "T" = 1
          ∧ exec_count ex_default s' "N" = -1
          ∧ s'.m_thread_running = true
          ∧ s'.m_next_tasks = ["N"] :=
  ⟨by decide, by decide, by decide, _, _, rfl, by decide, by decide, by decide, by decide,
    by decide⟩

/-- C9 (amended): for an accepted task `T`, when the wait of (1) `pre_delay` or (2) the
randomised click delay returns with the session stopped, the iteration ends with that
wait as its last call, with no action call before it, in exactly the state the external
calls of that wait left: no increment, no debit, every counter as at the start of the
iteration or reset to zero, `m_next_tasks` empty.  (3) When the wait of `rear_delay`,
entered with the session running, returns with the session stopped, the iteration ends
with that wait as its last call in the state the external calls made of the counted
activation, `m_next_tasks` empty: `T`'s `next` is not installed.  In each case a stop did
arrive during the wait.  Parts (2) and (3) hold whatever happened in the earlier waits,
as long as the iteration got to the wait in question. -/
theorem interruptible_delays (dflt : TaskInfo) (env : CycleEnv) (s : Assistance) (T : String)
    (hT : acted_task dflt env s = some T) :
    (0 < (getTask dflt s.m_configer.m_tasks T).pre_delay →
        (run_calls env.calls_pre (s.setTasks (match_loop dflt env.find_image
          s.m_configer.m_tasks s.m_next_tasks).m_tasks)).m_thread_running = false →
        ∃ s' pre, working_proc_cycle dflt env s
          = .ok (s', pre ++ [Effect.wait_for WaitKind.pre
                (getTask dflt s.m_configer.m_tasks T).pre_delay])
          ∧ (∀ e ∈ pre, e.is_action = false)
          ∧ s'.m_next_tasks = [] ∧ s'.m_thread_running = false
          ∧ s' = run_calls env.calls_pre (s.setTasks
              (match_loop dflt env.find_image s.m_configer.m_tasks s.m_next_tasks).m_tasks)
          ∧ (∀ k, exec_count dflt s' k = exec_count dflt s k ∨ exec_count dflt s' k = 0)
          ∧ env.stop_pre = true)
      ∧ ((at_limit_check dflt env s T).m_thread_running = true →
          exec_count dflt (at_limit_check dflt env s T) T
            < (getTask dflt s.m_configer.m_tasks T).max_times →
          (getTask dflt s.m_configer.m_tasks T).type.hasBasicClick = true →
          s.m_configer.m_options.control_delay_upper ≠ 0 →
          (run_calls env.calls_random (at_limit_check dflt env s T)).m_thread_running = false →
          ∃ s' pre, working_proc_cycle dflt env s
            = .ok (s', pre ++ [Effect.wait_for WaitKind.random env.rand_delay])
            ∧ (∀ e ∈ pre, e.is_action = false)
            ∧ s'.m_next_tasks = [] ∧ s'.m_thread_running = false
            ∧ s' = run_calls env.calls_random (at_limit_check dflt env s T)
            ∧ (∀ k, exec_count dflt s' k = exec_count dflt s k ∨ exec_count dflt s' k = 0)
            ∧ env.stop_random = true)
      ∧ ((at_limit_check dflt env s T).m_thread_running = true →
          exec_count dflt (at_limit_check dflt env s T) T
            < (getTask dflt s.m_configer.m_tasks T).max_times →
          (at_switch dflt env s T).m_thread_running = true →
          (getTask dflt s.m_configer.m_tasks T).type ≠ TaskType.Stop →
          ((getTask dflt s.m_configer.m_tasks T).type = TaskType.PrintWindow →
            s.m_configer.m_options.print_window = true →
            ∃ r, print_window false s env.print_image env.imwrite_ok = .ok r) →
          (at_count dflt env s T).m_thread_running = true →
          0 < (getTask dflt s.m_configer.m_tasks T).rear_delay →
          (run_calls env.calls_rear ((at_count dflt env s T).setTasks (count_activation dflt
            (at_count dflt env s T).m_configer.m_tasks T))).m_thread_running = false →
          ∃ s' pre, working_proc_cycle dflt env s
            = .ok (s', pre ++ [Effect.wait_for WaitKind.rear
                (getTask dflt s.m_configer.m_tasks T).rear_delay])
            ∧ s'.m_next_tasks = [] ∧ s'.m_thread_running = false
            ∧ s' = run_calls env.calls_rear ((at_count dflt env s T).setTasks
                (count_activation dflt (at_count dflt env s T).m_configer.m_tasks T))
            ∧ env.stop_rear = true) := by
  refine ⟨?_, ?_, ?_⟩
  · obtain ⟨hrun, _, _, _, _⟩ := acted_task_some dflt env s T hT
    have hg := getTask_match_loop dflt env.find_image s.m_next_tasks s.m_configer.m_tasks
    have hcyc := cycle_of_acted dflt env s T hT
    have hnc := prefix_effects (fun e => e.is_action = false) rfl (fun _ _ => rfl) dflt
      env.find_image s.m_configer.m_tasks s.m_next_tasks
    generalize (match_loop dflt env.find_image s.m_configer.m_tasks s.m_next_tasks) = r
      at hg hcyc hnc
    have hrun1 : (s.setTasks r.m_tasks).m_thread_running = true := hrun
    intro hd hs
    have hex : execute_task dflt env (s.setTasks r.m_tasks) T
        (env.find_image T (getTask dflt s.m_configer.m_tasks T).threshold).2.2
        = .ok (run_calls env.calls_pre (s.setTasks r.m_tasks),
            [Effect.wait_for WaitKind.pre (getTask dflt s.m_configer.m_tasks T).pre_delay]) := by
      unfold execute_task
      simp [setTasks_m_tasks, hg, hd, wait_for_stopped env.calls_pre _ hrun1 hs]
    rw [hex] at hcyc
    refine ⟨_, _, hcyc, hnc, run_calls_stopped_next env.calls_pre _ (Or.inl hrun1) hs, hs, rfl,
      ?_, has_stop_of_stopped env.calls_pre _ hrun1 hs⟩
    intro k
    rcases run_calls_exec_count dflt env.calls_pre k (s.setTasks r.m_tasks) with h | h
    · left
      rw [h]
      simp [exec_count, setTasks_m_tasks, hg]
    · exact Or.inr h
  · intro hprun hlim hclick hupper hs
    obtain ⟨pre, hcyc, hpre⟩ := execute_task_at_limit_check dflt env s T hT hprun
    have hsf := same_frame_at_limit_check dflt env s T
    obtain ⟨ftype, fmax, _, _⟩ := fields_same_frame dflt _ _ T hsf
    have hlc : limit_check dflt env (at_limit_check dflt env s T) T
        (env.find_image T (getTask dflt s.m_configer.m_tasks T).threshold).2.2
        = .ok (run_calls env.calls_random (at_limit_check dflt env s T),
            [Effect.wait_for WaitKind.random env.rand_delay]) := by
      have hl : (getTask dflt (at_limit_check dflt env s T).m_configer.m_tasks T).exec_times
          < (getTask dflt (at_limit_check dflt env s T).m_configer.m_tasks T).max_times := by
        rw [fmax]; exact hlim
      unfold limit_check
      simp [hl, ftype, hsf.2.1, hclick, hupper,
        wait_for_stopped env.calls_random _ hprun hs]
    rw [hlc] at hcyc
    refine ⟨_, pre, hcyc, hpre,
      run_calls_stopped_next env.calls_random _ (Or.inl hprun) hs, hs, rfl, ?_,
      has_stop_of_stopped env.calls_random _ hprun hs⟩
    intro k
    rcases run_calls_exec_count dflt env.calls_random k (at_limit_check dflt env s T) with h | h
    · rcases exec_count_at_limit_check dflt env s T k with h2 | h2
      · exact Or.inl (h.trans h2)
      · exact Or.inr (h.trans h2)
    · exact Or.inr h
  · intro hprun hlim hqrun htype hexport hxrun hd hs
    obtain ⟨pre1, hcyc, _⟩ := execute_task_at_limit_check dflt env s T hT hprun
    obtain ⟨pre2, hlc, _⟩ := limit_check_at_switch dflt env s T
      (env.find_image T (getTask dflt s.m_configer.m_tasks T).threshold).2.2 hlim hqrun
    obtain ⟨pre3, hta⟩ := task_action_at_count dflt env s T
      (env.find_image T (getTask dflt s.m_configer.m_tasks T).threshold).2.2 htype hexport
    obtain ⟨_, _, _, frear⟩ := fields_same_frame dflt _ _ T (same_frame_at_count dflt env s T)
    have haft := after_action_stopped dflt env (at_count dflt env s T) T hxrun
      (by rw [frear]; exact hd) hs
    rw [frear] at haft
    rw [hlc, hta, haft, with_effects_append, with_effects_append] at hcyc
    have hrun2 : ((at_count dflt env s T).setTasks (count_activation dflt
        (at_count dflt env s T).m_configer.m_tasks T)).m_thread_running = true := hxrun
    exact ⟨_, pre1 ++ pre2 ++ pre3, hcyc,
      run_calls_stopped_next env.calls_rear _ (Or.inl hrun2) hs, hs, rfl,
      has_stop_of_stopped env.calls_rear _ hrun2 hs⟩

/-- C9 (amended) on the single-task session with `ex_slow` (pre 20 ms, rear 30 ms,
`next = [N]`): a stop in `pre_delay`; a stop in the random delay after the session was
stopped and started again during `pre_delay`; and a stop in `rear_delay`.  Each time the
session is stopped when the wait returns. -/
theorem interruptible_delays_witness :
    (∃ s' pre, working_proc_cycle ex_default { ex_env with calls_pre := [ExtCall.stop] }
          (ex_state_of ex_slow)
        = .ok (s', pre ++ [Effect.wait_for WaitKind.pre 20])
        ∧ (∀ e ∈ pre, e.is_action = false)
        ∧ s'.m_next_tasks = [] ∧ s'.m_thread_running = false)
      ∧ (∃ s' pre, working_proc_cycle ex_default
            { ex_env with
              calls_pre := [ExtCall.stop, ExtCall.start "T"]
              calls_random := [ExtCall.stop]
              rand_delay := 17 } (ex_state_delay ex_slow)
          = .ok (s', pre ++ [Effect.wait_for WaitKind.random 17])
          ∧ (∀ e ∈ pre, e.is_action = false)
          ∧ s'.m_next_tasks = [] ∧ s'.m_thread_running = false)
      ∧ (∃ s' pre, working_proc_cycle ex_default { ex_env with calls_rear := [ExtCall.stop] }
            (ex_state_of ex_slow)
          = .ok (s', pre ++ [Effect.wait_for WaitKind.rear 30])
          ∧ s'.m_next_tasks = [] ∧ s'.m_thread_running = false) := by
  refine ⟨?_, ?_, ?_⟩
  · obtain ⟨s', pre, h1, h2, h3, h4, _⟩ :=
      (interruptible_delays ex_default { ex_env with calls_pre := [ExtCall.stop] }
        (ex_state_of ex_slow) "T" (by decide)).1 (by decide) (by decide)
    exact ⟨s', pre, h1, h2, h3, h4⟩
  · obtain ⟨s', pre, h1, h2, h3, h4, _⟩ :=
      (interruptible_delays ex_default
        { ex_env with
          calls_pre := [ExtCall.stop, ExtCall.start "T"]
          calls_random := [ExtCall.stop]
          rand_delay := 17 }
        (ex_state_delay ex_slow) "T" (by decide)).2.1 (by decide) (by decide) (by decide)
        (by decide) (by decide)
    exact ⟨s', pre, h1, h2, h3, h4⟩
  · obtain ⟨s', pre, h1, h2, h3, _⟩ :=
      (interruptible_delays ex_default { ex_env with calls_rear := [ExtCall.stop] }
        (ex_state_of ex_slow) "T" (by decide)).2.2 (by decide) (by decide) (by decide)
        (by decide) (by intro h; exact absurd h (by decide)) (by decide) (by decide)
        (by decide)
    exact ⟨s', pre, h1, h2, h3⟩

/-! ## Action dispatch -/

/-- C10: when the accepted task `T` is within its limit and no stop arrives during
`pre_delay` or the random delay, the iteration completes and the clicks it issues are:
for `ClickSelf` exactly one, on the region the matcher reported for `T`; for `ClickRect`
exactly one, on `T`'s `specific_area`; for `ClickRand` exactly one, on the bounds of the
target window; for `DoNothing` none. -/
theorem action_dispatch (dflt : TaskInfo) (env : CycleEnv) (s : Assistance) (T : String)
    (hT : acted_task dflt env s = some T)
    (hlim : exec_count dflt s T < (getTask dflt s.m_configer.m_tasks T).max_times)
    (hpre : env.stop_pre = false) (hrand : env.stop_random = false) :
    ((getTask dflt s.m_configer.m_tasks T).type = TaskType.ClickSelf →
        ∃ s' evs, working_proc_cycle dflt env s = .ok (s', evs)
          ∧ clicks evs
            = [(env.find_image T (getTask dflt s.m_configer.m_tasks T).threshold).2.2])
      ∧ ((getTask dflt s.m_configer.m_tasks T).type = TaskType.ClickRect →
          ∃ s' evs, working_proc_cycle dflt env s = .ok (s', evs)
            ∧ clicks evs = [(getTask dflt s.m_configer.m_tasks T).specific_area])
      ∧ ((getTask dflt s.m_configer.m_tasks T).type = TaskType.ClickRand →
          ∃ s' evs, working_proc_cycle dflt env s = .ok (s', evs)
            ∧ clicks evs = [env.window_rect])
      ∧ ((getTask dflt s.m_configer.m_tasks T).type = TaskType.DoNothing →
          ∃ s' evs, working_proc_cycle dflt env s = .ok (s', evs) ∧ clicks evs = []) := by
  obtain ⟨hrun, _, _, _, _⟩ := acted_task_some dflt env s T hT
  have hg := getTask_match_loop dflt env.find_image s.m_next_tasks s.m_configer.m_tasks
  have hcyc := cycle_of_acted dflt env s T hT
  have hnc := prefix_effects (fun e => e.is_action = false) rfl (fun _ _ => rfl) dflt
    env.find_image s.m_configer.m_tasks s.m_next_tasks
  generalize (match_loop dflt env.find_image s.m_configer.m_tasks s.m_next_tasks) = r
    at hg hcyc hnc
  obtain ⟨pre, hex, hpna⟩ := execute_task_reaches_action dflt env (s.setTasks r.m_tasks) T
    (env.find_image T (getTask dflt s.m_configer.m_tasks T).threshold).2.2
    hrun hpre hrand (by simpa [setTasks_m_tasks, hg, exec_count] using hlim)
  obtain ⟨s', evs, haft, hana⟩ := after_action_total dflt env (s.setTasks r.m_tasks) T
  rw [hex, with_effects_append] at hcyc
  have hc0 : clicks ((Effect.getImage :: r.effects) ++ pre) = [] := by
    rw [clicks_append, clicks_of_no_action _ hnc, clicks_of_no_action _ hpna]
    rfl
  have hc1 : clicks evs = [] := clicks_of_no_action _ hana
  refine ⟨?_, ?_, ?_, ?_⟩
  · intro htp
    have hta : task_action dflt env (s.setTasks r.m_tasks) T
        (env.find_image T (getTask dflt s.m_configer.m_tasks T).threshold).2.2
        = .ok (s', [Effect.click
            (env.find_image T (getTask dflt s.m_configer.m_tasks T).threshold).2.2] ++ evs) := by
      unfold task_action
      simp only [setTasks_m_tasks, hg, htp, haft]
      rfl
    rw [hta] at hcyc
    refine ⟨_, _, hcyc, ?_⟩
    rw [clicks_append, hc0, clicks_append, hc1]
    rfl
  · intro htp
    have hta : task_action dflt env (s.setTasks r.m_tasks) T
        (env.find_image T (getTask dflt s.m_configer.m_tasks T).threshold).2.2
        = .ok (s', [Effect.click (getTask dflt s.m_configer.m_tasks T).specific_area] ++ evs) := by
      unfold task_action
      simp only [setTasks_m_tasks, hg, htp, haft]
      rfl
    rw [hta] at hcyc
    refine ⟨_, _, hcyc, ?_⟩
    rw [clicks_append, hc0, clicks_append, hc1]
    rfl
  · intro htp
    have hta : task_action dflt env (s.setTasks r.m_tasks) T
        (env.find_image T (getTask dflt s.m_configer.m_tasks T).threshold).2.2
        = .ok (s', [Effect.click env.window_rect] ++ evs) := by
      unfold task_action
      simp only [setTasks_m_tasks, hg, htp, haft]
      rfl
    rw [hta] at hcyc
    refine ⟨_, _, hcyc, ?_⟩
    rw [clicks_append, hc0, clicks_append, hc1]
    rfl
  · intro htp
    have hta : task_action dflt env (s.setTasks r.m_tasks) T
        (env.find_image T (getTask dflt s.m_configer.m_tasks T).threshold).2.2
        = .ok (s', evs) := by
      unfold task_action
      simp only [setTasks_m_tasks, hg, htp, haft]
    rw [hta] at hcyc
    refine ⟨_, _, hcyc, ?_⟩
    rw [clicks_append, hc0, hc1]
    rfl

/-- C10 on single-task sessions of the four kinds; the matcher reports `(1, 2, 3, 4)`, the
fixed region is `(5, 6, 7, 8)` and the window bounds are `(0, 0, 1280, 720)`. -/
theorem action_dispatch_witness :
    (∃ s' evs, working_proc_cycle ex_default ex_env
        (ex_state_of { ex_default with
          type := TaskType.ClickSelf, specific_area := ⟨5, 6, 7, 8⟩ }) = .ok (s', evs)
        ∧ clicks evs = [⟨1, 2, 3, 4⟩])
      ∧ (∃ s' evs, working_proc_cycle ex_default ex_env
          (ex_state_of { ex_default with
            type := TaskType.ClickRect, specific_area := ⟨5, 6, 7, 8⟩ }) = .ok (s', evs)
          ∧ clicks evs = [⟨5, 6, 7, 8⟩])
      ∧ (∃ s' evs, working_proc_cycle ex_default ex_env
          (ex_state_of { ex_default with
            type := TaskType.ClickRand, specific_area := ⟨5, 6, 7, 8⟩ }) = .ok (s', evs)
          ∧ clicks evs = [⟨0, 0, 1280, 720⟩])
      ∧ (∃ s' evs, working_proc_cycle ex_default ex_env
          (ex_state_of { ex_default with
            type := TaskType.DoNothing, specific_area := ⟨5, 6, 7, 8⟩ }) = .ok (s', evs)
          ∧ clicks evs = []) :=
  ⟨(action_dispatch ex_default ex_env
      (ex_state_of { ex_default with type := TaskType.ClickSelf, specific_area := ⟨5, 6, 7, 8⟩ })
      "T" (by decide) (by decide) rfl rfl).1 rfl,
    (action_dispatch ex_default ex_env
      (ex_state_of { ex_default with type := TaskType.ClickRect, specific_area := ⟨5, 6, 7, 8⟩ })
      "T" (by decide) (by decide) rfl rfl).2.1 rfl,
    (action_dispatch ex_default ex_env
      (ex_state_of { ex_default with type := TaskType.ClickRand, specific_area := ⟨5, 6, 7, 8⟩ })
      "T" (by decide) (by decide) rfl rfl).2.2.1 rfl,
    (action_dispatch ex_default ex_env
      (ex_state_of { ex_default with type := TaskType.DoNothing, specific_area := ⟨5, 6, 7, 8⟩ })
      "T" (by decide) (by decide) rfl rfl).2.2.2 rfl⟩

/-! ## End states of an iteration: shape lemmas -/

theorem with_effects_ok_inv (pre : List Effect)
    (r : Except (Fault × List Effect) (Assistance × List Effect)) (s' : Assistance)
    (evs : List Effect) (h : with_effects pre r = .ok (s', evs)) :
    ∃ evs', r = .ok (s', evs') ∧ evs = pre ++ evs' := by
  cases r with
  | error p => simp [with_effects] at h
  | ok p =>
    obtain ⟨a, b⟩ := p
    simp only [with_effects, Except.ok.injEq, Prod.mk.injEq] at h
    exact ⟨b, by rw [h.1], h.2.symm⟩

theorem next_count_activation (dflt : TaskInfo) (m : TaskMap) (T : String) :
    (getTask dflt (count_activation dflt m T) T).next = (getTask dflt m T).next := by
  rw [getTask_count_activation]

theorem after_action_shapes (dflt : TaskInfo) (env : CycleEnv) (s : Assistance) (T : String)
    (s' : Assistance) (evs : List Effect) (h : after_action dflt env s T = .ok (s', evs)) :
    activation_end dflt env T s s' := by
  unfold activation_end
  unfold after_action at h
  simp only at h
  split at h
  · obtain ⟨hw1, hw2⟩ := wait_for_cases env.calls_rear
      (s.setTasks (count_activation dflt s.m_configer.m_tasks T))
    generalize wait_for env.calls_rear
      (s.setTasks (count_activation dflt s.m_configer.m_tasks T)) = w at h hw1 hw2
    refine ⟨w.1, hw1, ?_⟩
    rcases Bool.eq_false_or_eq_true w.1.m_thread_running with hr | hr
    · rw [hr] at hw2
      simp only [hw2, Bool.not_true, Bool.false_eq_true, if_false, Except.ok.injEq,
        Prod.mk.injEq] at h
      exact Or.inl h.1.symm
    · rw [hr] at hw2
      simp only [hw2, Bool.not_false, if_true, Except.ok.injEq, Prod.mk.injEq] at h
      exact Or.inr ⟨h.1.symm, hr⟩
  · simp only [Except.ok.injEq, Prod.mk.injEq] at h
    exact ⟨_, Or.inl rfl, Or.inl h.1.symm⟩

theorem task_action_shapes (dflt : TaskInfo) (env : CycleEnv) (s : Assistance) (T : String)
    (rect : Rect) (s' : Assistance) (evs : List Effect) (hrun : s.m_thread_running = true)
    (h : task_action dflt env s T rect = .ok (s', evs)) :
    action_end dflt env T s s' := by
  unfold action_end
  unfold task_action at h
  simp only at h
  cases htp : (getTask dflt s.m_configer.m_tasks T).type with
  | ClickSelf =>
    rw [htp] at h
    obtain ⟨e, he, _⟩ := with_effects_ok_inv _ _ _ _ h
    exact Or.inr ⟨by simp, s, Or.inl rfl, after_action_shapes dflt env s T s' e he⟩
  | ClickRect =>
    rw [htp] at h
    obtain ⟨e, he, _⟩ := with_effects_ok_inv _ _ _ _ h
    exact Or.inr ⟨by simp, s, Or.inl rfl, after_action_shapes dflt env s T s' e he⟩
  | ClickRand =>
    rw [htp] at h
    obtain ⟨e, he, _⟩ := with_effects_ok_inv _ _ _ _ h
    exact Or.inr ⟨by simp, s, Or.inl rfl, after_action_shapes dflt env s T s' e he⟩
  | DoNothing =>
    rw [htp] at h
    exact Or.inr ⟨by simp, s, Or.inl rfl, after_action_shapes dflt env s T s' evs h⟩
  | Stop =>
    rw [htp] at h
    simp only [Except.ok.injEq, Prod.mk.injEq] at h
    exact Or.inl ⟨rfl, h.1.symm⟩
  | PrintWindow =>
    rw [htp] at h
    simp only at h
    refine Or.inr ⟨by simp, ?_⟩
    split at h
    · rw [wait_for_of_running env.calls_print s hrun] at h
      simp only at h
      split at h
      · simp at h
      · obtain ⟨e, he, _⟩ := with_effects_ok_inv _ _ _ _ h
        exact ⟨run_calls env.calls_print s, Or.inr ⟨rfl, rfl⟩,
          after_action_shapes dflt env _ T s' e he⟩
    · exact ⟨s, Or.inl rfl, after_action_shapes dflt env s T s' evs h⟩
  | Other b =>
    rw [htp] at h
    exact Or.inr ⟨by simp, s, Or.inl rfl, after_action_shapes dflt env s T s' evs h⟩

theorem limit_check_shapes (dflt : TaskInfo) (env : CycleEnv) (s : Assistance) (T : String)
    (rect : Rect) (s' : Assistance) (evs : List Effect) (hrun : s.m_thread_running = true)
    (h : limit_check dflt env s T rect = .ok (s', evs)) :
    checked_end dflt env T s s' := by
  unfold checked_end
  unfold limit_check at h
  simp only at h
  split at h
  · rename_i hlim
    refine Or.inr ⟨hlim, ?_⟩
    split at h
    · rw [wait_for_of_running env.calls_random s hrun] at h
      simp only at h
      cases hq : (run_calls env.calls_random s).m_thread_running with
      | false =>
        simp only [hq, Bool.not_false, if_true, Except.ok.injEq, Prod.mk.injEq] at h
        exact ⟨_, Or.inr rfl, Or.inl ⟨h.1.symm, hq⟩⟩
      | true =>
        simp only [hq, Bool.not_true, Bool.false_eq_true, if_false] at h
        obtain ⟨e, he, _⟩ := with_effects_ok_inv _ _ _ _ h
        exact ⟨_, Or.inr rfl, Or.inr ⟨hq, task_action_shapes dflt env _ T rect s' e hq he⟩⟩
    · exact ⟨s, Or.inl rfl, Or.inr ⟨hrun, task_action_shapes dflt env s T rect s' evs hrun h⟩⟩
  · rename_i hlim
    simp only [Except.ok.injEq, Prod.mk.injEq] at h
    exact Or.inl ⟨hlim, h.1.symm⟩

theorem execute_task_shapes (dflt : TaskInfo) (env : CycleEnv) (s : Assistance) (T : String)
    (rect : Rect) (s' : Assistance) (evs : List Effect) (hrun : s.m_thread_running = true)
    (h : execute_task dflt env s T rect = .ok (s', evs)) :
    acted_end dflt env T s s' := by
  unfold acted_end
  unfold execute_task at h
  simp only at h
  split at h
  · rw [wait_for_of_running env.calls_pre s hrun] at h
    simp only at h
    cases hp : (run_calls env.calls_pre s).m_thread_running with
    | false =>
      simp only [hp, Bool.not_false, if_true, Except.ok.injEq, Prod.mk.injEq] at h
      exact ⟨_, Or.inr rfl, Or.inl ⟨h.1.symm, hp⟩⟩
    | true =>
      simp only [hp, Bool.not_true, Bool.false_eq_true, if_false] at h
      obtain ⟨e, he, _⟩ := with_effects_ok_inv _ _ _ _ h
      exact ⟨_, Or.inr rfl, Or.inr ⟨hp, limit_check_shapes dflt env _ T rect s' e hp he⟩⟩
  · exact ⟨s, Or.inl rfl, Or.inr ⟨hrun, limit_check_shapes dflt env s T rect s' evs hrun h⟩⟩

/-- When no stop arrives in any wait of the action phase entered while running, its end
states are: the exceeded transition, the `Stop` action, or the counted activation with
`next` installed, each from the entry state. -/
theorem acted_end_no_stop (dflt : TaskInfo) (env : CycleEnv) (T : String) (s s' : Assistance)
    (hrun : s.m_thread_running = true) (hpre : env.stop_pre = false)
    (hrand : env.stop_random = false) (hprint : env.stop_print = false)
    (hrear : env.stop_rear = false) (h : acted_end dflt env T s s') :
    (¬ (getTask dflt s.m_configer.m_tasks T).exec_times
          < (getTask dflt s.m_configer.m_tasks T).max_times
        ∧ s' = { s with m_next_tasks := (getTask dflt s.m_configer.m_tasks T).exceeded_next })
      ∨ ((getTask dflt s.m_configer.m_tasks T).exec_times
            < (getTask dflt s.m_configer.m_tasks T).max_times
          ∧ (getTask dflt s.m_configer.m_tasks T).type = TaskType.Stop ∧ s' = stop false s)
      ∨ ((getTask dflt s.m_configer.m_tasks T).exec_times
            < (getTask dflt s.m_configer.m_tasks T).max_times
          ∧ (getTask dflt s.m_configer.m_tasks T).type ≠ TaskType.Stop
          ∧ s' = { s.setTasks (count_activation dflt s.m_configer.m_tasks T) with
                   m_next_tasks := (getTask dflt s.m_configer.m_tasks T).next }) := by
  obtain ⟨p, hp, h⟩ := h
  have hp' : p = s := by
    rcases hp with hp | hp
    · exact hp
    · rw [hp, run_calls_no_stop env.calls_pre s hrun hpre]
  subst hp'
  rcases h with ⟨_, h⟩ | ⟨_, h⟩
  · rw [hrun] at h; exact absurd h (by simp)
  rcases h with h | ⟨hlim, q, hq, h⟩
  · exact Or.inl h
  have hq' : q = p := by
    rcases hq with hq | hq
    · exact hq
    · rw [hq, run_calls_no_stop env.calls_random p hrun hrand]
  subst hq'
  rcases h with ⟨_, h⟩ | ⟨_, h⟩
  · rw [hrun] at h; exact absurd h (by simp)
  rcases h with h | ⟨htype, x, hx, z, hz, h⟩
  · exact Or.inr (Or.inl ⟨hlim, h⟩)
  have hx' : x = q := by
    rcases hx with hx | ⟨hx, _⟩
    · exact hx
    · rw [hx, run_calls_no_stop env.calls_print q hrun hprint]
  subst hx'
  have hz' : z = x.setTasks (count_activation dflt x.m_configer.m_tasks T) := by
    rcases hz with hz | hz
    · exact hz
    · rw [hz]
      exact run_calls_no_stop env.calls_rear _ hrun hrear
  subst hz'
  rcases h with h | ⟨_, h⟩
  · refine Or.inr (Or.inr ⟨hlim, htype, ?_⟩)
    rw [h, setTasks_m_tasks, next_count_activation]
  · rw [setTasks_running, hrun] at h; exact absurd h (by simp)

/-- The end state of a completed iteration is the entry state, the internally stopped
state, the state after matching, or one of the end states of the action phase. -/
theorem cycle_shapes (dflt : TaskInfo) (env : CycleEnv) (s s' : Assistance)
    (evs : List Effect) (h : working_proc_cycle dflt env s = .ok (s', evs)) :
    s' = s ∨ s' = stop false s
      ∨ (acted_task dflt env s = none ∧ s' = s.setTasks
          (match_loop dflt env.find_image s.m_configer.m_tasks s.m_next_tasks).m_tasks)
      ∨ ∃ T, acted_task dflt env s = some T ∧ s.m_thread_running = true
          ∧ acted_end dflt env T (s.setTasks
            (match_loop dflt env.find_image s.m_configer.m_tasks s.m_next_tasks).m_tasks) s' := by
  cases hT : acted_task dflt env s with
  | some T =>
    obtain ⟨hrun, _, _, _, _⟩ := acted_task_some dflt env s T hT
    rw [cycle_of_acted dflt env s T hT] at h
    obtain ⟨e, he, _⟩ := with_effects_ok_inv _ _ _ _ h
    exact Or.inr (Or.inr (Or.inr ⟨T, rfl, hrun,
      execute_task_shapes dflt env _ T _ s' e hrun he⟩))
  | none =>
    unfold working_proc_cycle at h
    split at h
    · split at h
      · simp only [Except.ok.injEq, Prod.mk.injEq] at h
        exact Or.inr (Or.inl h.1.symm)
      · split at h
        · simp only [Except.ok.injEq, Prod.mk.injEq] at h
          exact Or.inl h.1.symm
        · rename_i hrun hemp hsize
          have hm : (match_loop dflt env.find_image s.m_configer.m_tasks
              s.m_next_tasks).matched_task = "" := by
            unfold acted_task at hT
            simp only [hrun, hemp, hsize, not_false_eq_true, and_self, if_true] at hT
            by_contra hne
            simp [hne] at hT
          simp only [hm, ne_eq, not_true_eq_false, if_false, Except.ok.injEq,
            Prod.mk.injEq] at h
          exact Or.inr (Or.inr (Or.inl ⟨rfl, h.1.symm⟩))
    · simp only [Except.ok.injEq, Prod.mk.injEq] at h
      exact Or.inl h.1.symm

/-! ## The task graph is kept -/

theorem find_mem (k : String) (t : TaskInfo) (m : TaskMap) (h : TaskMap.find k m = some t) :
    (k, t) ∈ m := by
  induction m with
  | nil => simp [TaskMap.find] at h
  | cons p rest ih =>
    obtain ⟨n, u⟩ := p
    by_cases hn : n = k
    · simp only [TaskMap.find, hn, if_true, Option.some.injEq] at h
      simp [hn, h]
    · simp only [TaskMap.find, hn, if_false] at h
      exact List.mem_cons_of_mem _ (ih h)

theorem find_isSome_iff (k : String) (m : TaskMap) :
    (TaskMap.find k m).isSome = true ↔ k ∈ m.map Prod.fst := by
  induction m with
  | nil => simp [TaskMap.find]
  | cons p rest ih =>
    obtain ⟨n, u⟩ := p
    by_cases hn : n = k
    · simp [TaskMap.find, hn]
    · have hk : ¬ k = n := fun e => hn e.symm
      simp [TaskMap.find, hn, hk, ih]

theorem find_clear_exec_times (c : Configer) (k : String) :
    TaskMap.find k c.clear_exec_times.m_tasks
      = (TaskMap.find k c.m_tasks).map (fun t => { t with exec_times := 0 }) := by
  unfold Configer.clear_exec_times
  simp only
  induction c.m_tasks with
  | nil => simp [TaskMap.find]
  | cons p rest ih =>
    obtain ⟨n, t⟩ := p
    by_cases h : n = k
    · simp [TaskMap.find, h]
    · simp [TaskMap.find, h, ih]

theorem keeps_tasks_refl (m : TaskMap) : keeps_tasks m m :=
  fun _ t h => ⟨t, h, rfl⟩

theorem keeps_tasks_trans (m1 m2 m3 : TaskMap) (h12 : keeps_tasks m1 m2)
    (h23 : keeps_tasks m2 m3) : keeps_tasks m1 m3 := by
  intro k t h
  obtain ⟨t2, h2, e2⟩ := h12 k t h
  obtain ⟨t3, h3, e3⟩ := h23 k t2 h2
  exact ⟨t3, h3, e3.trans e2⟩

theorem keeps_tasks_modifyTask (dflt : TaskInfo) (f : TaskInfo → TaskInfo) (k : String)
    (m : TaskMap) (hf : ∀ t, (f t).static = t.static) :
    keeps_tasks m (modifyTask dflt f k m) := by
  intro k' t h
  rw [find_modifyTask]
  by_cases hk : k' = k
  · subst hk
    simp only [if_true]
    refine ⟨_, rfl, ?_⟩
    rw [hf]
    simp [getTask, h]
  · simp only [hk, if_false]
    exact ⟨t, h, rfl⟩

theorem keeps_tasks_clear (c : Configer) : keeps_tasks c.m_tasks c.clear_exec_times.m_tasks := by
  intro k t h
  rw [find_clear_exec_times, h]
  exact ⟨_, rfl, rfl⟩

theorem keeps_tasks_match_loop (dflt : TaskInfo)
    (find_image : String → ℚ → AlgorithmType × ℚ × Rect) (cands : List String) :
    ∀ (m : TaskMap), keeps_tasks m (match_loop dflt find_image m cands).m_tasks := by
  induction cands with
  | nil => intro m; exact keeps_tasks_refl m
  | cons c rest ih =>
    intro m
    have ht : keeps_tasks m (touchTask dflt c m) :=
      keeps_tasks_modifyTask dflt id c m (fun _ => rfl)
    simp only [match_loop]
    split
    · exact ht
    · exact keeps_tasks_trans _ _ _ ht (ih _)

theorem keeps_tasks_foldl_debit (dflt : TaskInfo) (debits : List String) :
    ∀ (m : TaskMap), keeps_tasks m (debits.foldl
      (fun m reduce =>
        modifyTask dflt (fun t => { t with exec_times := t.exec_times - 1 }) reduce m) m) := by
  induction debits with
  | nil => intro m; exact keeps_tasks_refl m
  | cons d rest ih =>
    intro m
    simp only [List.foldl_cons]
    exact keeps_tasks_trans _ _ _ (keeps_tasks_modifyTask dflt (fun t => { t with exec_times := t.exec_times - 1 }) d m
        (fun _ => rfl)) (ih _)

theorem keeps_tasks_count_activation (dflt : TaskInfo) (m : TaskMap) (T : String) :
    keeps_tasks m (count_activation dflt m T) := by
  unfold count_activation
  exact keeps_tasks_trans _ _ _
    (keeps_tasks_modifyTask dflt (fun t => { t with exec_times := t.exec_times + 1 }) T m
      (fun _ => rfl))
    (keeps_tasks_foldl_debit dflt _ _)

theorem keeps_tasks_stop (b : Bool) (s : Assistance) :
    keeps_tasks s.m_configer.m_tasks (stop b s).m_configer.m_tasks := by
  cases b
  · exact keeps_tasks_refl _
  · exact keeps_tasks_clear s.m_configer

theorem keeps_tasks_ext_run (c : ExtCall) (s : Assistance) :
    keeps_tasks s.m_configer.m_tasks (c.run s).m_configer.m_tasks := by
  cases c with
  | stop => exact keeps_tasks_clear s.m_configer
  | start task =>
    simp only [ExtCall.run, start]
    split
    · exact keeps_tasks_refl _
    · exact keeps_tasks_clear s.m_configer

theorem keeps_tasks_run_calls (calls : List ExtCall) :
    ∀ (s : Assistance), keeps_tasks s.m_configer.m_tasks (run_calls calls s).m_configer.m_tasks := by
  induction calls with
  | nil => intro s; exact keeps_tasks_refl _
  | cons c rest ih =>
    intro s
    rw [run_calls_cons]
    exact keeps_tasks_trans _ _ _ (keeps_tasks_ext_run c s) (ih (c.run s))

theorem keeps_tasks_activation_end (dflt : TaskInfo) (env : CycleEnv) (T : String)
    (x s' : Assistance) (h : activation_end dflt env T x s') :
    keeps_tasks x.m_configer.m_tasks s'.m_configer.m_tasks := by
  obtain ⟨z, hz, h⟩ := h
  have hkz : keeps_tasks x.m_configer.m_tasks z.m_configer.m_tasks := by
    rcases hz with hz | hz
    · subst hz; exact keeps_tasks_count_activation dflt _ T
    · subst hz
      exact keeps_tasks_trans _ _ _ (keeps_tasks_count_activation dflt _ T)
        (keeps_tasks_run_calls env.calls_rear
          (x.setTasks (count_activation dflt x.m_configer.m_tasks T)))
  rcases h with h | ⟨h, _⟩
  · subst h; exact hkz
  · subst h; exact hkz

theorem keeps_tasks_action_end (dflt : TaskInfo) (env : CycleEnv) (T : String)
    (q s' : Assistance) (h : action_end dflt env T q s') :
    keeps_tasks q.m_configer.m_tasks s'.m_configer.m_tasks := by
  rcases h with ⟨_, h⟩ | ⟨_, x, hx, h⟩
  · subst h; exact keeps_tasks_stop false q
  · rcases hx with hx | ⟨hx, _⟩
    · subst hx; exact keeps_tasks_activation_end dflt env T _ s' h
    · subst hx
      exact keeps_tasks_trans _ _ _ (keeps_tasks_run_calls env.calls_print q)
        (keeps_tasks_activation_end dflt env T _ s' h)

theorem keeps_tasks_checked_end (dflt : TaskInfo) (env : CycleEnv) (T : String)
    (p s' : Assistance) (h : checked_end dflt env T p s') :
    keeps_tasks p.m_configer.m_tasks s'.m_configer.m_tasks := by
  rcases h with ⟨_, h⟩ | ⟨_, q, hq, h⟩
  · subst h; exact keeps_tasks_refl _
  · have hkq : keeps_tasks p.m_configer.m_tasks q.m_configer.m_tasks := by
      rcases hq with hq | hq
      · subst hq; exact keeps_tasks_refl _
      · subst hq; exact keeps_tasks_run_calls env.calls_random p
    rcases h with ⟨h, _⟩ | ⟨_, h⟩
    · subst h; exact hkq
    · exact keeps_tasks_trans _ _ _ hkq (keeps_tasks_action_end dflt env T q s' h)

theorem keeps_tasks_acted_end (dflt : TaskInfo) (env : CycleEnv) (T : String)
    (s s' : Assistance) (h : acted_end dflt env T s s') :
    keeps_tasks s.m_configer.m_tasks s'.m_configer.m_tasks := by
  obtain ⟨p, hp, h⟩ := h
  have hkp : keeps_tasks s.m_configer.m_tasks p.m_configer.m_tasks := by
    rcases hp with hp | hp
    · subst hp; exact keeps_tasks_refl _
    · subst hp; exact keeps_tasks_run_calls env.calls_pre s
  rcases h with ⟨h, _⟩ | ⟨_, h⟩
  · subst h; exact hkp
  · exact keeps_tasks_trans _ _ _ hkp (keeps_tasks_checked_end dflt env T p s' h)

/-- A completed iteration keeps every task of the graph, with its static part. -/
theorem cycle_keeps_tasks (dflt : TaskInfo) (env : CycleEnv) (s s' : Assistance)
    (evs : List Effect) (h : working_proc_cycle dflt env s = .ok (s', evs)) :
    keeps_tasks s.m_configer.m_tasks s'.m_configer.m_tasks := by
  rcases cycle_shapes dflt env s s' evs h with h | h | ⟨_, h⟩ | ⟨T, _, _, h⟩
  · subst h; exact keeps_tasks_refl _
  · subst h; exact keeps_tasks_stop false s
  · subst h; exact keeps_tasks_match_loop dflt env.find_image _ _
  · exact keeps_tasks_trans _ _ _ (keeps_tasks_match_loop dflt env.find_image _ _)
      (keeps_tasks_acted_end dflt env T _ s' h)

/-! ## Candidate-set invariant -/

theorem getTask_of_find (dflt : TaskInfo) (m : TaskMap) (k : String) (t : TaskInfo)
    (h : TaskMap.find k m = some t) : getTask dflt m k = t := by
  simp [getTask, h]

theorem acted_task_mem (dflt : TaskInfo) (env : CycleEnv) (s : Assistance) (T : String)
    (h : acted_task dflt env s = some T) : T ∈ s.m_next_tasks :=
  List.mem_of_find?_eq_some (acted_task_find dflt env s T h)

/-- What `m_tasks[T]` reads in a state that keeps the tasks of a graph holding `T`. -/
theorem links_of_keeps (dflt : TaskInfo) (m0 : TaskMap) (y : Assistance) (T : String)
    (t0 : TaskInfo) (ht0 : TaskMap.find T m0 = some t0)
    (hk : keeps_tasks m0 y.m_configer.m_tasks) :
    (getTask dflt y.m_configer.m_tasks T).next = t0.next
      ∧ (getTask dflt y.m_configer.m_tasks T).exceeded_next = t0.exceeded_next
      ∧ (getTask dflt y.m_configer.m_tasks T).type = t0.type := by
  obtain ⟨ty, hty, hst⟩ := hk T t0 ht0
  rw [getTask_of_find dflt _ T ty hty]
  obtain ⟨f1, f2, f3, _, _⟩ := static_fields t0 ty hst
  exact ⟨f1, f2, f3⟩

theorem keeps_and_idle_run_calls (m0 : TaskMap) (calls : List ExtCall) (y : Assistance)
    (h : keeps_tasks m0 y.m_configer.m_tasks
      ∧ (y.m_thread_running = true ∨ y.m_next_tasks = [])) :
    keeps_tasks m0 (run_calls calls y).m_configer.m_tasks
      ∧ ((run_calls calls y).m_thread_running = true ∨ (run_calls calls y).m_next_tasks = []) :=
  ⟨keeps_tasks_trans _ _ _ h.1 (keeps_tasks_run_calls calls y), run_calls_idle calls y h.2⟩

/-- C11 (as stated, refuted): after `start("T")` on a graph whose task `T` does nothing and
has an empty `next`, one iteration activates `T` and ends with the session still
running and no candidates. -/
theorem candidates_can_be_empty :
    ∃ s', Reachable ex_default (ex_idle_of ex_dead_end) "T" s'
      ∧ s'.m_thread_running = true ∧ s'.m_next_tasks = [] :=
  ⟨_, Reachable.cycle ex_env _ _ _ (Reachable.started rfl rfl) rfl, rfl, rfl⟩

/-- C11 (amended): if the entry task is in the graph and the graph is well linked (every
task has a non-empty `exceeded_next`, a non-empty `next` unless its kind is `Stop`, and
both lists name only tasks of the graph), then in every state reachable from `start` by
iterations of the loop, a running session has a non-empty candidate list. -/
theorem candidates_nonempty_of_well_linked (dflt : TaskInfo) (s0 : Assistance)
    (entry : String) (s : Assistance) (hwl : well_linked s0.m_configer.m_tasks)
    (hentry : (TaskMap.find entry s0.m_configer.m_tasks).isSome = true)
    (hr : Reachable dflt s0 entry s) (hrun : s.m_thread_running = true) :
    s.m_next_tasks ≠ [] := by
  have key : keeps_tasks s0.m_configer.m_tasks s.m_configer.m_tasks
      ∧ (∀ n ∈ s.m_next_tasks, (TaskMap.find n s0.m_configer.m_tasks).isSome = true)
      ∧ (s.m_thread_running = true → s.m_next_tasks ≠ []) := by
    clear hrun
    induction hr with
    | started h0 hinit =>
      have hs : start entry s0 = { s0 with
          m_configer := s0.m_configer.clear_exec_times
          cache_clears := s0.cache_clears + 1
          m_next_tasks := [entry]
          m_thread_running := true } := by
        simp [start, h0, hinit]
      rw [hs]
      refine ⟨keeps_tasks_clear s0.m_configer, ?_, ?_⟩
      · intro n hn
        simp only [List.mem_singleton] at hn
        subst hn
        exact hentry
      · intro _
        simp
    | cycle env s s' evs _ hc ih =>
      obtain ⟨hk, hin, hne⟩ := ih
      refine ⟨keeps_tasks_trans _ _ _ hk (cycle_keeps_tasks dflt env s s' evs hc), ?_⟩
      rcases cycle_shapes dflt env s s' evs hc with h | h | ⟨_, h⟩ | ⟨T, hT, hrun, h⟩
      · subst h; exact ⟨hin, hne⟩
      · subst h
        exact ⟨by intro n hn; simp [stop] at hn, by intro hr; simp [stop] at hr⟩
      · subst h; exact ⟨hin, hne⟩
      · -- the acted task is a task of the original graph
        have hTin := hin T (acted_task_mem dflt env s T hT)
        obtain ⟨t0, ht0⟩ := Option.isSome_iff_exists.mp hTin
        obtain ⟨hex0, hnx0, hnin0, hexin0⟩ := hwl _ (find_mem T t0 _ ht0)
        simp only at hex0 hnx0 hnin0 hexin0
        have h1 : keeps_tasks s0.m_configer.m_tasks (s.setTasks (match_loop dflt env.find_image
              s.m_configer.m_tasks s.m_next_tasks).m_tasks).m_configer.m_tasks
            ∧ ((s.setTasks (match_loop dflt env.find_image
              s.m_configer.m_tasks s.m_next_tasks).m_tasks).m_thread_running = true
              ∨ (s.setTasks (match_loop dflt env.find_image
              s.m_configer.m_tasks s.m_next_tasks).m_tasks).m_next_tasks = []) :=
          ⟨keeps_tasks_trans _ _ _ hk (keeps_tasks_match_loop dflt env.find_image _ _),
            Or.inl hrun⟩
        generalize (s.setTasks (match_loop dflt env.find_image
            s.m_configer.m_tasks s.m_next_tasks).m_tasks) = s1 at h h1
        -- an iteration that ends with the session stopped leaves no candidates
        have stopped : ∀ y : Assistance,
            (y.m_thread_running = true ∨ y.m_next_tasks = []) → y.m_thread_running = false →
            (∀ n ∈ y.m_next_tasks, (TaskMap.find n s0.m_configer.m_tasks).isSome = true)
              ∧ (y.m_thread_running = true → y.m_next_tasks ≠ []) := by
          intro y hy hyr
          rcases hy with hy | hy
          · rw [hyr] at hy; exact absurd hy (by simp)
          · rw [hy, hyr]
            exact ⟨by intro n hn; simp at hn, by intro hr; simp at hr⟩
        obtain ⟨p, hp, h⟩ := h
        have hp1 : keeps_tasks s0.m_configer.m_tasks p.m_configer.m_tasks
            ∧ (p.m_thread_running = true ∨ p.m_next_tasks = []) := by
          rcases hp with hp | hp
          · subst hp; exact h1
          · subst hp; exact keeps_and_idle_run_calls _ env.calls_pre _ h1
        rcases h with ⟨h, hpr⟩ | ⟨_, h⟩
        · subst h; exact stopped _ hp1.2 hpr
        rcases h with ⟨_, h⟩ | ⟨_, q, hq, h⟩
        · subst h
          obtain ⟨_, fe, _⟩ := links_of_keeps dflt _ p T t0 ht0 hp1.1
          simp only [fe]
          exact ⟨hexin0, fun _ => hex0⟩
        have hq1 : keeps_tasks s0.m_configer.m_tasks q.m_configer.m_tasks
            ∧ (q.m_thread_running = true ∨ q.m_next_tasks = []) := by
          rcases hq with hq | hq
          · subst hq; exact hp1
          · subst hq; exact keeps_and_idle_run_calls _ env.calls_random _ hp1
        rcases h with ⟨h, hqr⟩ | ⟨_, h⟩
        · subst h; exact stopped _ hq1.2 hqr
        rcases h with ⟨_, h⟩ | ⟨htype, x, hx, z, hz, h⟩
        · subst h
          exact ⟨by intro n hn; simp [stop] at hn, by intro hr; simp [stop] at hr⟩
        obtain ⟨_, _, ft⟩ := links_of_keeps dflt _ q T t0 ht0 hq1.1
        rw [ft] at htype
        have hx1 : keeps_tasks s0.m_configer.m_tasks x.m_configer.m_tasks
            ∧ (x.m_thread_running = true ∨ x.m_next_tasks = []) := by
          rcases hx with hx | ⟨hx, _⟩
          · subst hx; exact hq1
          · subst hx; exact keeps_and_idle_run_calls _ env.calls_print _ hq1
        have ha1 : keeps_tasks s0.m_configer.m_tasks
              (x.setTasks (count_activation dflt x.m_configer.m_tasks T)).m_configer.m_tasks
            ∧ ((x.setTasks (count_activation dflt x.m_configer.m_tasks T)).m_thread_running = true
              ∨ (x.setTasks (count_activation dflt x.m_configer.m_tasks T)).m_next_tasks = []) :=
          ⟨keeps_tasks_trans _ _ _ hx1.1 (keeps_tasks_count_activation dflt _ T), hx1.2⟩
        have hz1 : keeps_tasks s0.m_configer.m_tasks z.m_configer.m_tasks
            ∧ (z.m_thread_running = true ∨ z.m_next_tasks = []) := by
          rcases hz with hz | hz
          · subst hz; exact ha1
          · subst hz; exact keeps_and_idle_run_calls _ env.calls_rear _ ha1
        rcases h with h | ⟨h, hzr⟩
        · subst h
          obtain ⟨fn, _, _⟩ := links_of_keeps dflt _ z T t0 ht0 hz1.1
          simp only [fn]
          exact ⟨hnin0, fun _ => hnx0 htype⟩
        · subst h; exact stopped _ hz1.2 hzr
  exact key.2.2 hrun

/-- C11 (amended) on a well-linked single-task graph (`T` clicks and leads back to `T`):
the state after `start("T")` and one iteration is running with candidates `[T]`. -/
theorem candidates_nonempty_of_well_linked_witness :
    well_linked (ex_idle_of ex_loop).m_configer.m_tasks
      ∧ (TaskMap.find "T" (ex_idle_of ex_loop).m_configer.m_tasks).isSome = true
      ∧ ∃ s, Reachable ex_default (ex_idle_of ex_loop) "T" s
          ∧ s.m_thread_running = true ∧ s.m_next_tasks = ["T"] ∧ s.m_next_tasks ≠ [] := by
  have hwl : well_linked (ex_idle_of ex_loop).m_configer.m_tasks := by
    unfold well_linked
    decide
  have hr : Reachable ex_default (ex_idle_of ex_loop) "T"
      { start "T" (ex_idle_of ex_loop) with
        m_configer := { (start "T" (ex_idle_of ex_loop)).m_configer with
          m_tasks := [("T", { ex_loop with exec_times := 1 })] } } :=
    Reachable.cycle ex_env _ _ _ (Reachable.started rfl rfl) rfl
  exact ⟨hwl, by decide, _, hr, rfl, rfl,
    candidates_nonempty_of_well_linked ex_default (ex_idle_of ex_loop) "T" _ hwl (by decide) hr
      rfl⟩

/-! ## Where the counters are reset -/

theorem set_emulator_tasks (dflt_info : EmulatorInfo) (benv : BindEnv) (name : String)
    (s : Assistance) :
    (set_emulator dflt_info benv name s).2.m_configer.m_tasks
      = s.m_configer.clear_exec_times.m_tasks := by
  unfold set_emulator
  simp only
  split_ifs <;> rfl

/-- C12 (as stated, refuted): on a session whose task `A` has `exec_times = 1`, the external
`stop` and `set_emulator` both leave `A` with `exec_times = 0`. -/
theorem stop_resets_counters :
    exec_count ex_default ex_state_exceeded "A" = 1
      ∧ exec_count ex_default (stop true ex_state_exceeded) "A" = 0
      ∧ exec_count ex_default
          (set_emulator ⟨0, 0⟩ ex_bind_all "" ex_state_exceeded).2 "A" = 0 :=
  ⟨by decide, by decide, by decide⟩

/-- C12 (amended): `start`, when it takes effect, resets every counter to zero; so does the
external `stop(true)`, and so does `set_emulator`, which begins with that stop;
`stop(false)` leaves the configuration, counters included, as it was; and an iteration
of the loop during which no external stop arrives never resets a counter: either every
counter is as before, or the iteration activated a task `T` and each counter moved by
the bookkeeping of that activation only (`+1` for `T`, `-1` per entry of `T`'s
`reduce_other_times`). -/
theorem counter_reset_sites (dflt : TaskInfo) (s : Assistance) :
    (∀ (e : String), s.m_thread_running = false → s.m_inited = true →
        ∀ p ∈ (start e s).m_configer.m_tasks, p.2.exec_times = 0)
      ∧ (∀ p ∈ (stop true s).m_configer.m_tasks, p.2.exec_times = 0)
      ∧ (stop false s).m_configer = s.m_configer
      ∧ (∀ (dflt_info : EmulatorInfo) (benv : BindEnv) (name : String),
          ∀ p ∈ (set_emulator dflt_info benv name s).2.m_configer.m_tasks, p.2.exec_times = 0)
      ∧ (∀ (env : CycleEnv) (s' : Assistance) (evs : List Effect),
          env.stop_pre = false → env.stop_random = false → env.stop_print = false →
          env.stop_rear = false →
          working_proc_cycle dflt env s = .ok (s', evs) →
          (∀ k, exec_count dflt s' k = exec_count dflt s k)
            ∨ ∃ T, acted_task dflt env s = some T
                ∧ ∀ k, exec_count dflt s' k = exec_count dflt s k + (if k = T then 1 else 0)
                    - (((getTask dflt s.m_configer.m_tasks T).reduce_other_times.count k : Nat)
                        : Int)) := by
  refine ⟨?_, fun p hp => mem_clear_exec_times s.m_configer p hp, rfl, ?_, ?_⟩
  · intro e hrun hinit p hp
    have hs : (start e s).m_configer = s.m_configer.clear_exec_times := by
      simp [start, hrun, hinit]
    rw [hs] at hp
    exact mem_clear_exec_times s.m_configer p hp
  · intro dflt_info benv name p hp
    rw [set_emulator_tasks] at hp
    exact mem_clear_exec_times s.m_configer p hp
  · intro env s' evs hpre hrand hprint hrear hc
    have hg := getTask_match_loop dflt env.find_image s.m_next_tasks s.m_configer.m_tasks
    rcases cycle_shapes dflt env s s' evs hc with h | h | ⟨_, h⟩ | ⟨T, hT, hrun, h⟩
    · subst h; exact Or.inl (fun _ => rfl)
    · subst h; exact Or.inl (fun _ => rfl)
    · subst h
      exact Or.inl (fun k => by simp [exec_count, setTasks_m_tasks, hg])
    · rcases acted_end_no_stop dflt env T (s.setTasks (match_loop dflt env.find_image
          s.m_configer.m_tasks s.m_next_tasks).m_tasks) s' hrun hpre hrand hprint hrear h with
        ⟨_, h⟩ | ⟨_, _, h⟩ | ⟨_, _, h⟩
      · subst h
        exact Or.inl (fun k => by simp [exec_count, setTasks_m_tasks, hg])
      · subst h
        exact Or.inl (fun k => by simp [exec_count, stop, setTasks_m_tasks, hg])
      · subst h
        refine Or.inr ⟨T, hT, ?_⟩
        intro k
        simp only [exec_count, setTasks_m_tasks, getTask_count_activation, hg]

/-- C12 (amended) on the example session: `start` and the external stop zero the counter of
`A`, the internal stop keeps it, and the stop-free iteration that activates `A` moves
the counters of `A` and `B` by `+1` and `-1`. -/
theorem counter_reset_sites_witness :
    exec_count ex_default ex_state_idle "A" = 1
      ∧ ex_state_idle.m_thread_running = false ∧ ex_state_idle.m_inited = true
      ∧ (∀ p ∈ (start "A" ex_state_idle).m_configer.m_tasks, p.2.exec_times = 0)
      ∧ exec_count ex_default (start "A" ex_state_idle) "A" = 0
      ∧ exec_count ex_default ex_state_exceeded "A" = 1
      ∧ (∀ p ∈ (stop true ex_state_exceeded).m_configer.m_tasks, p.2.exec_times = 0)
      ∧ (stop false ex_state_exceeded).m_configer = ex_state_exceeded.m_configer
      ∧ (∃ s' evs, working_proc_cycle ex_default ex_env ex_state = .ok (s', evs)
          ∧ ((∀ k, exec_count ex_default s' k = exec_count ex_default ex_state k)
            ∨ ∃ T, acted_task ex_default ex_env ex_state = some T
                ∧ ∀ k, exec_count ex_default s' k
                    = exec_count ex_default ex_state k + (if k = T then 1 else 0)
                      - (((getTask ex_default ex_state.m_configer.m_tasks T).reduce_other_times.count
                          k : Nat) : Int))) :=
  ⟨by decide, by decide, by decide,
    (counter_reset_sites ex_default ex_state_idle).1 "A" (by decide) (by decide),
    by decide, by decide,
    (counter_reset_sites ex_default ex_state_exceeded).2.1,
    (counter_reset_sites ex_default ex_state_exceeded).2.2.1,
    _, _, rfl, (counter_reset_sites ex_default ex_state).2.2.2.2 ex_env _ _ rfl rfl rfl rfl rfl⟩

/-! ## Task-graph immutability -/

theorem graph_of_names (m : TaskMap) : (graph_of m).map Prod.fst = m.map Prod.fst := by
  simp [graph_of, List.map_map, Function.comp_def]

theorem present_of_graph_eq (m m' : TaskMap) (h : graph_of m' = graph_of m) (k : String) :
    (TaskMap.find k m').isSome = true ↔ (TaskMap.find k m).isSome = true := by
  rw [find_isSome_iff, find_isSome_iff, ← graph_of_names m', ← graph_of_names m, h]

theorem graph_of_clear (c : Configer) : graph_of c.clear_exec_times.m_tasks = graph_of c.m_tasks := by
  simp [graph_of, Configer.clear_exec_times, List.map_map, Function.comp_def, TaskInfo.static]

theorem graph_of_modify_present (dflt : TaskInfo) (f : TaskInfo → TaskInfo) (k : String)
    (hf : ∀ t, (f t).static = t.static) :
    ∀ (m : TaskMap), (TaskMap.find k m).isSome = true →
      graph_of (modifyTask dflt f k m) = graph_of m := by
  intro m
  induction m with
  | nil => intro h; simp [TaskMap.find] at h
  | cons p rest ih =>
    obtain ⟨n, t⟩ := p
    intro h
    by_cases hn : n = k
    · simp [modifyTask, hn, graph_of, hf]
    · simp only [TaskMap.find, hn, if_false] at h
      have := ih h
      simp only [graph_of] at this
      simp [modifyTask, hn, graph_of, this]

theorem graph_of_match_loop (dflt : TaskInfo)
    (find_image : String → ℚ → AlgorithmType × ℚ × Rect) (cands : List String) :
    ∀ (m : TaskMap), (∀ c ∈ cands, (TaskMap.find c m).isSome = true) →
      graph_of (match_loop dflt find_image m cands).m_tasks = graph_of m := by
  induction cands with
  | nil => intro m _; rfl
  | cons c rest ih =>
    intro m h
    have ht : graph_of (touchTask dflt c m) = graph_of m :=
      graph_of_modify_present dflt id c (fun _ => rfl) m (h c (List.mem_cons_self _ _))
    simp only [match_loop]
    split
    · exact ht
    · have := ih (touchTask dflt c m) (fun x hx =>
        (present_of_graph_eq m _ ht x).mpr (h x (List.mem_cons_of_mem _ hx)))
      simp only
      rw [this, ht]

theorem graph_of_foldl_debit (dflt : TaskInfo) (debits : List String) :
    ∀ (m : TaskMap), (∀ d ∈ debits, (TaskMap.find d m).isSome = true) →
      graph_of (debits.foldl
        (fun m reduce =>
          modifyTask dflt (fun t => { t with exec_times := t.exec_times - 1 }) reduce m) m)
        = graph_of m := by
  induction debits with
  | nil => intro m _; rfl
  | cons d rest ih =>
    intro m h
    have ht : graph_of (modifyTask dflt (fun t => { t with exec_times := t.exec_times - 1 }) d m)
        = graph_of m :=
      graph_of_modify_present dflt (fun t => { t with exec_times := t.exec_times - 1 }) d
        (fun _ => rfl) m (h d (List.mem_cons_self _ _))
    simp only [List.foldl_cons]
    rw [ih _ (fun x hx =>
      (present_of_graph_eq m _ ht x).mpr (h x (List.mem_cons_of_mem _ hx))), ht]

theorem graph_of_count_activation (dflt : TaskInfo) (m : TaskMap) (T : String)
    (hT : (TaskMap.find T m).isSome = true)
    (hd : ∀ d ∈ (getTask dflt m T).reduce_other_times, (TaskMap.find d m).isSome = true) :
    graph_of (count_activation dflt m T) = graph_of m := by
  have ht : graph_of (modifyTask dflt (fun t => { t with exec_times := t.exec_times + 1 }) T m)
      = graph_of m :=
    graph_of_modify_present dflt (fun t => { t with exec_times := t.exec_times + 1 }) T
      (fun _ => rfl) m hT
  unfold count_activation
  simp only
  rw [graph_of_foldl_debit, ht]
  intro d hd'
  rw [getTask_modifyTask] at hd'
  simp only [if_true] at hd'
  exact (present_of_graph_eq m _ ht d).mpr (hd d hd')

theorem graph_of_stop (b : Bool) (s : Assistance) :
    graph_of (stop b s).m_configer.m_tasks = graph_of s.m_configer.m_tasks := by
  cases b
  · rfl
  · exact graph_of_clear s.m_configer

theorem graph_of_start (e : String) (s : Assistance) :
    graph_of (start e s).m_configer.m_tasks = graph_of s.m_configer.m_tasks := by
  unfold start
  split
  · rfl
  · exact graph_of_clear s.m_configer

theorem graph_of_ext_run (c : ExtCall) (s : Assistance) :
    graph_of (c.run s).m_configer.m_tasks = graph_of s.m_configer.m_tasks := by
  cases c with
  | stop => exact graph_of_stop true s
  | start task => exact graph_of_start task s

theorem graph_of_run_calls (calls : List ExtCall) :
    ∀ (s : Assistance),
      graph_of (run_calls calls s).m_configer.m_tasks = graph_of s.m_configer.m_tasks := by
  induction calls with
  | nil => intro s; rfl
  | cons c rest ih =>
    intro s
    rw [run_calls_cons, ih, graph_of_ext_run]

/-- External calls keep the graph and the debit list of every task. -/
theorem graph_and_debits_run_calls (dflt : TaskInfo) (m0 : TaskMap) (T : String)
    (debits : List String) (calls : List ExtCall) (y : Assistance)
    (h : graph_of y.m_configer.m_tasks = graph_of m0
      ∧ (getTask dflt y.m_configer.m_tasks T).reduce_other_times = debits) :
    graph_of (run_calls calls y).m_configer.m_tasks = graph_of m0
      ∧ (getTask dflt (run_calls calls y).m_configer.m_tasks T).reduce_other_times = debits := by
  refine ⟨(graph_of_run_calls calls y).trans h.1, ?_⟩
  have hf := (static_fields _ _ (run_calls_static dflt calls T y)).2.2.2.2
  rw [hf]
  exact h.2

theorem graph_of_activation_end (dflt : TaskInfo) (env : CycleEnv) (T : String)
    (x s' : Assistance) (h : activation_end dflt env T x s')
    (hT : (TaskMap.find T x.m_configer.m_tasks).isSome = true)
    (hd : ∀ d ∈ (getTask dflt x.m_configer.m_tasks T).reduce_other_times,
      (TaskMap.find d x.m_configer.m_tasks).isSome = true) :
    graph_of s'.m_configer.m_tasks = graph_of x.m_configer.m_tasks := by
  have hA := graph_of_count_activation dflt x.m_configer.m_tasks T hT hd
  obtain ⟨z, hz, h⟩ := h
  have hgz : graph_of z.m_configer.m_tasks = graph_of x.m_configer.m_tasks := by
    rcases hz with hz | hz
    · subst hz; exact hA
    · subst hz
      rw [graph_of_run_calls]
      exact hA
  rcases h with h | ⟨h, _⟩
  · subst h; exact hgz
  · subst h; exact hgz

/-- C13 (as stated, refuted): an iteration whose candidate `X` is not a task of the graph
adds the name `X` to the task map, and so does an activation whose task debits the
unknown name `Z`. -/
theorem task_names_can_grow :
    (∃ s' evs, working_proc_cycle ex_default ex_env ex_state_unknown = .ok (s', evs)
        ∧ ex_state_unknown.m_configer.m_tasks.map Prod.fst = ["A", "B"]
        ∧ s'.m_configer.m_tasks.map Prod.fst = ["A", "B", "X"]
        ∧ graph_of s'.m_configer.m_tasks ≠ graph_of ex_state_unknown.m_configer.m_tasks)
      ∧ (∃ s' evs, working_proc_cycle ex_default ex_env (ex_state_of ex_debit_unknown)
            = .ok (s', evs)
          ∧ (ex_state_of ex_debit_unknown).m_configer.m_tasks.map Prod.fst = ["T"]
          ∧ s'.m_configer.m_tasks.map Prod.fst = ["T", "Z"]) :=
  ⟨⟨_, _, rfl, rfl, rfl, by decide⟩, ⟨_, _, rfl, rfl, rfl⟩⟩

/-- C13 (amended): `start` and `stop` leave the task graph apart from `exec_times` (names
and every other field of every record) exactly as it was.  A completed iteration of the
loop keeps every task of the graph with all its fields other than `exec_times`, so no
name is removed; and when the candidate list and the `reduce_other_times` lists name
only tasks of the graph, the graph apart from `exec_times` is exactly as it was. -/
theorem task_graph_kept (dflt : TaskInfo) (s : Assistance) :
    (∀ e, graph_of (start e s).m_configer.m_tasks = graph_of s.m_configer.m_tasks)
      ∧ (∀ b, graph_of (stop b s).m_configer.m_tasks = graph_of s.m_configer.m_tasks)
      ∧ (∀ (env : CycleEnv) (s' : Assistance) (evs : List Effect),
          working_proc_cycle dflt env s = .ok (s', evs) →
          keeps_tasks s.m_configer.m_tasks s'.m_configer.m_tasks
            ∧ ((∀ c ∈ s.m_next_tasks, (TaskMap.find c s.m_configer.m_tasks).isSome = true) →
                (∀ p ∈ s.m_configer.m_tasks, ∀ d ∈ p.2.reduce_other_times,
                  (TaskMap.find d s.m_configer.m_tasks).isSome = true) →
                graph_of s'.m_configer.m_tasks = graph_of s.m_configer.m_tasks)) := by
  refine ⟨fun e => graph_of_start e s, fun b => graph_of_stop b s, ?_⟩
  intro env s' evs hc
  refine ⟨cycle_keeps_tasks dflt env s s' evs hc, ?_⟩
  intro hcand hdeb
  have hg := getTask_match_loop dflt env.find_image s.m_next_tasks s.m_configer.m_tasks
  have hm1 := graph_of_match_loop dflt env.find_image s.m_next_tasks s.m_configer.m_tasks hcand
  rcases cycle_shapes dflt env s s' evs hc with h | h | ⟨_, h⟩ | ⟨T, hT, hrun, h⟩
  · subst h; rfl
  · subst h; rfl
  · subst h; exact hm1
  · have hTin := hcand T (acted_task_mem dflt env s T hT)
    obtain ⟨t0, ht0⟩ := Option.isSome_iff_exists.mp hTin
    have hd0 : ∀ d ∈ (getTask dflt s.m_configer.m_tasks T).reduce_other_times,
        (TaskMap.find d s.m_configer.m_tasks).isSome = true := by
      rw [getTask_of_find dflt _ T t0 ht0]
      exact hdeb _ (find_mem T t0 _ ht0)
    have h1 : graph_of (s.setTasks (match_loop dflt env.find_image s.m_configer.m_tasks
          s.m_next_tasks).m_tasks).m_configer.m_tasks = graph_of s.m_configer.m_tasks
        ∧ (getTask dflt (s.setTasks (match_loop dflt env.find_image s.m_configer.m_tasks
          s.m_next_tasks).m_tasks).m_configer.m_tasks T).reduce_other_times
          = (getTask dflt s.m_configer.m_tasks T).reduce_other_times :=
      ⟨hm1, by rw [setTasks_m_tasks, hg]⟩
    generalize (s.setTasks (match_loop dflt env.find_image s.m_configer.m_tasks
      s.m_next_tasks).m_tasks) = s1 at h h1
    obtain ⟨p, hp, h⟩ := h
    have hp1 : graph_of p.m_configer.m_tasks = graph_of s.m_configer.m_tasks
        ∧ (getTask dflt p.m_configer.m_tasks T).reduce_other_times
          = (getTask dflt s.m_configer.m_tasks T).reduce_other_times := by
      rcases hp with hp | hp
      · subst hp; exact h1
      · subst hp; exact graph_and_debits_run_calls dflt _ T _ env.calls_pre _ h1
    rcases h with ⟨h, _⟩ | ⟨_, h⟩
    · subst h; exact hp1.1
    rcases h with ⟨_, h⟩ | ⟨_, q, hq, h⟩
    · subst h; exact hp1.1
    have hq1 : graph_of q.m_configer.m_tasks = graph_of s.m_configer.m_tasks
        ∧ (getTask dflt q.m_configer.m_tasks T).reduce_other_times
          = (getTask dflt s.m_configer.m_tasks T).reduce_other_times := by
      rcases hq with hq | hq
      · subst hq; exact hp1
      · subst hq; exact graph_and_debits_run_calls dflt _ T _ env.calls_random _ hp1
    rcases h with ⟨h, _⟩ | ⟨_, h⟩
    · subst h; exact hq1.1
    rcases h with ⟨_, h⟩ | ⟨_, x, hx, hae⟩
    · subst h
      rw [graph_of_stop]
      exact hq1.1
    have hx1 : graph_of x.m_configer.m_tasks = graph_of s.m_configer.m_tasks
        ∧ (getTask dflt x.m_configer.m_tasks T).reduce_other_times
          = (getTask dflt s.m_configer.m_tasks T).reduce_other_times := by
      rcases hx with hx | ⟨hx, _⟩
      · subst hx; exact hq1
      · subst hx; exact graph_and_debits_run_calls dflt _ T _ env.calls_print _ hq1
    have hpx := present_of_graph_eq s.m_configer.m_tasks _ hx1.1
    rw [graph_of_activation_end dflt env T x s' hae ((hpx T).mpr hTin)
      (by
        intro d hd
        rw [hx1.2] at hd
        exact (hpx d).mpr (hd0 d hd))]
    exact hx1.1

/-- C13 (amended) on the example session, whose candidates `[A, B]` and debit `B` are tasks
of the graph: the iteration that activates `A` leaves the graph apart from the counters
as it was. -/
theorem task_graph_kept_witness :
    (∀ c ∈ ex_state.m_next_tasks, (TaskMap.find c ex_state.m_configer.m_tasks).isSome = true)
      ∧ (∀ p ∈ ex_state.m_configer.m_tasks, ∀ d ∈ p.2.reduce_other_times,
          (TaskMap.find d ex_state.m_configer.m_tasks).isSome = true)
      ∧ ∃ s' evs, working_proc_cycle ex_default ex_env ex_state = .ok (s', evs)
          ∧ exec_count ex_default s' "A" = 1
          ∧ graph_of s'.m_configer.m_tasks = graph_of ex_state.m_configer.m_tasks :=
  ⟨by decide, by decide, _, _, rfl, by decide,
    ((task_graph_kept ex_default ex_state).2.2 ex_env _ _ rfl).2 (by decide) (by decide)⟩

/-! ## Binding a target -/

theorem probe_handles_spec (benv : BindEnv) (handles : List (String × EmulatorInfo)) :
    ∀ (cor_name : String) (last : Option (String × EmulatorInfo)),
      (probe_handles benv cor_name last handles).1
          = (handles.find? (fun p => create_handles benv p.1)).isSome
        ∧ (∀ p, handles.find? (fun p => create_handles benv p.1) = some p →
            (probe_handles benv cor_name last handles).2.1 = p.1
              ∧ (probe_handles benv cor_name last handles).2.2.1 = some p)
        ∧ (handles.find? (fun p => create_handles benv p.1) = none →
            (probe_handles benv cor_name last handles).2.2.1
              = (match handles.getLast? with
                | some q => some q
                | none => last))
        ∧ (probe_handles benv cor_name last handles).2.2.2
            = (handles.takeWhile (fun p => !create_handles benv p.1)).map Prod.fst
              ++ (match handles.find? (fun p => create_handles benv p.1) with
                | some p => [p.1]
                | none => []) := by
  induction handles with
  | nil => intro cor_name last; simp [probe_handles]
  | cons q rest ih =>
    obtain ⟨name, info⟩ := q
    intro cor_name last
    by_cases hc : create_handles benv name = true
    · simp [probe_handles, hc, List.find?_cons, List.takeWhile_cons]
    · obtain ⟨h1, h2, h3, h4⟩ := ih cor_name (some (name, info))
      simp only [probe_handles, hc, Bool.false_eq_true, if_false, List.find?_cons,
        List.takeWhile_cons, Bool.not_false, if_true, List.map_cons, List.cons_append]
      refine ⟨h1, h2, ?_, by rw [h4]⟩
      intro hn
      rw [h3 hn]
      cases rest with
      | nil => rfl
      | cons r rest2 =>
        have hl : (r :: rest2).getLast? = some ((r :: rest2).getLast (by simp)) :=
          List.getLast?_eq_getLast _ _
        simp [List.getLast?_cons_cons, hl]

/-- C14 (as stated, refuted): with profiles `A`, `B` that both bind, where `A` cannot be
shown and `B` can be shown and resized, probing returns the not-bound outcome although
`B` satisfies every condition. -/
theorem probing_stops_at_first_bound :
    ex_state_profiles.m_configer.m_handles.find?
        (fun p => create_handles ex_bind_first_hidden p.1
          && ex_bind_first_hidden.showWindow p.1 && ex_bind_first_hidden.resizeWindow p.1)
      = some ("B", ⟨0, 0⟩)
    ∧ (set_emulator ⟨0, 0⟩ ex_bind_first_hidden "" ex_state_profiles).1 = none
    ∧ (set_emulator ⟨0, 0⟩ ex_bind_first_hidden "" ex_state_profiles).2.m_inited = false :=
  ⟨by decide, by decide, by decide⟩

/-- C14 (amended): called with the empty name, `set_emulator` takes the first profile, in
the order in which its loop visits `m_handles`, whose three handles are all captured, and
tries no later one: `create_handles` runs on the profiles before that one and on it, and
its view stays installed.  The call returns that profile's name if its window can be
shown and resized, and the not-bound outcome if it cannot, or if no profile binds (then
every profile was tried and the handles of the last one stay installed).  `m_inited` is
set accordingly. -/
theorem probing_result (dflt_info : EmulatorInfo) (benv : BindEnv) (s : Assistance) :
    (set_emulator dflt_info benv "" s).1
        = (match s.m_configer.m_handles.find? (fun p => create_handles benv p.1) with
          | some p => if benv.showWindow p.1 && benv.resizeWindow p.1 then some p.1 else none
          | none => none)
      ∧ (set_emulator dflt_info benv "" s).2.m_inited
        = (set_emulator dflt_info benv "" s).1.isSome
      ∧ created_handles benv "" s
        = (s.m_configer.m_handles.takeWhile (fun p => !create_handles benv p.1)).map Prod.fst
          ++ (match s.m_configer.m_handles.find? (fun p => create_handles benv p.1) with
            | some p => [p.1]
            | none => [])
      ∧ (set_emulator dflt_info benv "" s).2.m_pView
        = (match s.m_configer.m_handles.find? (fun p => create_handles benv p.1) with
          | some p => p.2
          | none =>
            match s.m_configer.m_handles.getLast? with
            | some q => q.2
            | none => s.m_pView) := by
  have hh : (stop true s).m_configer.m_handles = s.m_configer.m_handles := rfl
  have hv : (stop true s).m_pView = s.m_pView := rfl
  obtain ⟨h1, h2, h3, h4⟩ := probe_handles_spec benv s.m_configer.m_handles "" none
  refine ⟨?_, ?_, ?_, ?_⟩
  · unfold set_emulator
    simp only [if_true, hh, true_or]
    cases hf : s.m_configer.m_handles.find? (fun p => create_handles benv p.1) with
    | none =>
      rw [hf] at h1
      simp [h1]
    | some p =>
      rw [hf] at h1
      have h5 := (h2 p hf).1
      simp only [Option.isSome_some] at h1
      simp only [h1, h5, Bool.true_and]
      split <;> rfl
  · unfold set_emulator
    simp only
    split_ifs <;> rfl
  · unfold created_handles
    simp only [if_true, hh]
    exact h4
  · have hview : (set_emulator dflt_info benv "" s).2.m_pView
        = (match (probe_handles benv "" none s.m_configer.m_handles).2.2.1 with
          | some (_, info) => info
          | none => s.m_pView) := by
      unfold set_emulator
      simp only [if_true, hh, hv, true_or]
      split_ifs <;> rfl
    rw [hview]
    cases hf : s.m_configer.m_handles.find? (fun p => create_handles benv p.1) with
    | some p => rw [(h2 p hf).2]
    | none =>
      rw [h3 hf]
      cases s.m_configer.m_handles.getLast? with
      | none => rfl
      | some q => rfl

/-- C14 (amended) on three profiles visited in the order `A`, `B`, `C`, of which `A` does
not bind and `B` and `C` do: the call returns `B`, handles were created for `A` and `B`
only, and the view installed is that of `B`. -/
theorem probing_result_witness :
    (set_emulator ⟨0, 0⟩ ex_bind_not_A "" ex_state_three).1 = some "B"
      ∧ created_handles ex_bind_not_A "" ex_state_three = ["A", "B"]
      ∧ (set_emulator ⟨0, 0⟩ ex_bind_not_A "" ex_state_three).2.m_pView = ⟨2, 2⟩
      ∧ (set_emulator ⟨0, 0⟩ ex_bind_not_A "" ex_state_three).2.m_inited = true :=
  ⟨(probing_result ⟨0, 0⟩ ex_bind_not_A ex_state_three).1.trans (by decide),
    (probing_result ⟨0, 0⟩ ex_bind_not_A ex_state_three).2.2.1.trans (by decide),
    (probing_result ⟨0, 0⟩ ex_bind_not_A ex_state_three).2.2.2.trans (by decide),
    (probing_result ⟨0, 0⟩ ex_bind_not_A ex_state_three).2.1.trans (by decide)⟩

/-! ## Snapshot export -/

theorem print_window_invalid_crop (b : Bool) (s : Assistance) (img : Mat) (ok : Bool)
    (hfit : ¬ (img.empty = true ∨ img.cols < s.m_configer.DefaultWindowWidth
      ∨ img.rows < s.m_configer.DefaultWindowHeight))
    (hroi : roi_inside img (crop_rect s) = false) :
    print_window b s img ok = .error Fault.cv_exception := by
  unfold print_window
  simp [hfit, hroi]

/-- C15 (code at the failing input): with an `x_offset` of -10 and a frame of exactly the
expected size 1280x720, the frame passes the size check, the crop rectangle
`(15, 0, 1275, 715)` leaves the frame, and `print_window` raises instead of returning
false, for both values of `block`; inside the loop the exception ends the iteration. -/
theorem export_raises_on_invalid_crop :
    crop_rect ex_state_shifted = ⟨15, 0, 1275, 715⟩
      ∧ roi_inside ⟨false, 1280, 720⟩ (crop_rect ex_state_shifted) = false
      ∧ print_window true ex_state_shifted ⟨false, 1280, 720⟩ true = .error Fault.cv_exception
      ∧ print_window false ex_state_shifted ⟨false, 1280, 720⟩ true = .error Fault.cv_exception
      ∧ ∃ evs, working_proc_cycle ex_default ex_env ex_state_shifted
          = .error (Fault.cv_exception, evs) :=
  ⟨by decide, by decide, rfl, rfl, _, rfl⟩

/-- C16: a captured frame that is empty, narrower than `DefaultWindowWidth` or shorter than
`DefaultWindowHeight` makes `print_window` return false after the capture alone: no
crop and no file write, for both values of `block`. -/
theorem export_rejects_small_frame (block : Bool) (s : Assistance) (img : Mat) (ok : Bool)
    (h : img.empty = true ∨ img.cols < s.m_configer.DefaultWindowWidth
      ∨ img.rows < s.m_configer.DefaultWindowHeight) :
    print_window block s img ok = .ok (false, [Effect.getImage])
      ∧ (∀ r, Effect.crop r ∉ [Effect.getImage]) ∧ Effect.imwrite ∉ [Effect.getImage] := by
  unfold print_window
  simp [h]

/-- C16 on a frame 100 pixels narrower than the expected 1280. -/
theorem export_rejects_small_frame_witness :
    ((⟨false, 1180, 720⟩ : Mat).cols < ex_state.m_configer.DefaultWindowWidth)
      ∧ print_window true ex_state ⟨false, 1180, 720⟩ true = .ok (false, [Effect.getImage])
      ∧ print_window false ex_state ⟨false, 1180, 720⟩ true = .ok (false, [Effect.getImage]) :=
  ⟨by decide,
    (export_rejects_small_frame true ex_state ⟨false, 1180, 720⟩ true
      (Or.inr (Or.inl (by decide)))).1,
    (export_rejects_small_frame false ex_state ⟨false, 1180, 720⟩ true
      (Or.inr (Or.inl (by decide)))).1⟩

/-! ## `start` when it cannot run -/

/-- C17: when the session is already running or no target is bound, `start` returns with
the state exactly as it was: `m_thread_running`, `m_next_tasks`, every counter and
everything else. -/
theorem start_noop (s : Assistance) (task : String)
    (h : s.m_thread_running = true ∨ s.m_inited = false) :
    start task s = s
      ∧ (start task s).m_thread_running = s.m_thread_running
      ∧ (start task s).m_next_tasks = s.m_next_tasks
      ∧ (start task s).m_configer.m_tasks = s.m_configer.m_tasks := by
  have hs : start task s = s := by
    unfold start
    rcases h with h | h <;> simp [h]
  rw [hs]
  exact ⟨rfl, rfl, rfl, rfl⟩

/-- C17 on the running example session with the counter of `A` at 1 and candidates
`[A, B]`, and on an unbound idle session. -/
theorem start_noop_witness :
    ex_state_exceeded.m_thread_running = true
      ∧ exec_count ex_default (start "Home" ex_state_exceeded) "A" = 1
      ∧ (start "Home" ex_state_exceeded).m_next_tasks = ["A", "B"]
      ∧ start "Home" ex_state_exceeded = ex_state_exceeded
      ∧ start "Home" { ex_state_idle with m_inited := false }
          = { ex_state_idle with m_inited := false } := by
  have h1 := start_noop ex_state_exceeded "Home" (Or.inl (by decide))
  have h2 := start_noop { ex_state_idle with m_inited := false } "Home" (Or.inr (by decide))
  refine ⟨by decide, ?_, ?_, h1.1, h2.1⟩
  · rw [h1.1]; decide
  · rw [h1.1]; decide

/-! ## The randomised click delay -/

theorem effects_of_with_effects (pre : List Effect)
    (r : Except (Fault × List Effect) (Assistance × List Effect)) :
    effects_of (with_effects pre r) = pre ++ effects_of r := by
  cases r with
  | error p => rfl
  | ok p => rfl

theorem print_window_no_random (b : Bool) (s : Assistance) (img : Mat) (ok : Bool) (r : Bool)
    (evs : List Effect) (h : print_window b s img ok = .ok (r, evs)) :
    ∀ e ∈ evs, e.is_random_wait = false := by
  unfold print_window at h
  split at h
  · simp only [Except.ok.injEq, Prod.mk.injEq] at h
    intro e he
    rw [← h.2] at he
    simp only [List.mem_singleton] at he
    subst he; rfl
  · split at h
    · simp only [Except.ok.injEq, Prod.mk.injEq] at h
      intro e he
      rw [← h.2] at he
      simp only [List.mem_cons, List.not_mem_nil, or_false] at he
      rcases he with he | he | he <;> subst he <;> rfl
    · simp at h

theorem after_action_no_random (dflt : TaskInfo) (env : CycleEnv) (s : Assistance) (T : String) :
    ∀ e ∈ effects_of (after_action dflt env s T), e.is_random_wait = false := by
  unfold after_action
  simp only
  intro e he
  split at he
  · split at he
    · simp only [effects_of, List.mem_singleton] at he
      subst he; rfl
    · simp only [effects_of, List.mem_cons, List.not_mem_nil, or_false] at he
      rcases he with he | he <;> subst he <;> rfl
  · simp only [effects_of, List.mem_singleton] at he
    subst he; rfl

theorem task_action_no_random (dflt : TaskInfo) (env : CycleEnv) (s : Assistance) (T : String)
    (rect : Rect) :
    ∀ e ∈ effects_of (task_action dflt env s T rect), e.is_random_wait = false := by
  have ha := after_action_no_random dflt env
  have hcons : ∀ (x : Effect) (r : Except (Fault × List Effect) (Assistance × List Effect)),
      x.is_random_wait = false → (∀ e ∈ effects_of r, e.is_random_wait = false) →
      ∀ e ∈ effects_of (with_effects [x] r), e.is_random_wait = false := by
    intro x r hx hr e he
    rw [effects_of_with_effects] at he
    simp only [List.singleton_append, List.mem_cons] at he
    rcases he with he | he
    · subst he; exact hx
    · exact hr e he
  unfold task_action
  simp only
  cases (getTask dflt s.m_configer.m_tasks T).type with
  | ClickSelf => exact hcons _ _ rfl (ha s T)
  | ClickRect => exact hcons _ _ rfl (ha s T)
  | ClickRand => exact hcons _ _ rfl (ha s T)
  | DoNothing => exact ha s T
  | Stop =>
    intro e he
    simp only [effects_of, List.mem_singleton] at he
    subst he; rfl
  | PrintWindow =>
    simp only
    split
    · cases hp : print_window false (wait_for env.calls_print s).1 env.print_image env.imwrite_ok with
      | error f =>
        intro e he
        simp only [effects_of, List.mem_cons, List.not_mem_nil, or_false] at he
        rcases he with he | he | he <;> subst he <;> rfl
      | ok p =>
        obtain ⟨r, evs⟩ := p
        have hpw := print_window_no_random _ _ _ _ r evs hp
        intro e he
        simp only [effects_of_with_effects, List.cons_append, List.mem_cons,
          List.mem_append] at he
        rcases he with he | he | he | he
        · subst he; rfl
        · subst he; rfl
        · exact hpw e he
        · exact ha _ T e he
    · exact ha s T
  | Other b => exact ha s T

theorem limit_check_random (dflt : TaskInfo) (env : CycleEnv) (s : Assistance) (T : String)
    (rect : Rect) (e : Effect) (he : e ∈ effects_of (limit_check dflt env s T rect))
    (hr : e.is_random_wait = true) :
    (getTask dflt s.m_configer.m_tasks T).type.hasBasicClick = true
      ∧ s.m_configer.m_options.control_delay_upper ≠ 0
      ∧ (getTask dflt s.m_configer.m_tasks T).exec_times
          < (getTask dflt s.m_configer.m_tasks T).max_times := by
  unfold limit_check at he
  simp only at he
  split at he
  · rename_i hlim
    split at he
    · rename_i hc
      exact ⟨hc.1, hc.2, hlim⟩
    · have := task_action_no_random dflt env s T rect e he
      rw [this] at hr
      exact absurd hr (by simp)
  · simp only [effects_of, List.mem_singleton] at he
    subst he
    exact absurd hr (by simp [Effect.is_random_wait])

theorem wait_for_static (dflt : TaskInfo) (calls : List ExtCall) (s : Assistance) (k : String) :
    (getTask dflt (wait_for calls s).1.m_configer.m_tasks k).static
      = (getTask dflt s.m_configer.m_tasks k).static := by
  rcases (wait_for_cases calls s).1 with h | h
  · rw [h]
  · rw [h, run_calls_static]

theorem wait_for_options (calls : List ExtCall) (s : Assistance) :
    (wait_for calls s).1.m_configer.m_options = s.m_configer.m_options := by
  rcases (wait_for_cases calls s).1 with h | h
  · rw [h]
  · rw [h, (run_calls_frame calls s).2.2.1]

theorem execute_task_random (dflt : TaskInfo) (env : CycleEnv) (s : Assistance) (T : String)
    (rect : Rect) (e : Effect) (he : e ∈ effects_of (execute_task dflt env s T rect))
    (hr : e.is_random_wait = true) :
    (getTask dflt s.m_configer.m_tasks T).type.hasBasicClick = true
      ∧ s.m_configer.m_options.control_delay_upper ≠ 0
      ∧ (getTask dflt (if (getTask dflt s.m_configer.m_tasks T).pre_delay > 0
            then (wait_for env.calls_pre s).1 else s).m_configer.m_tasks T).exec_times
          < (getTask dflt s.m_configer.m_tasks T).max_times := by
  unfold execute_task at he
  simp only at he
  split at he
  · rename_i hd
    simp only [hd, if_true]
    have hst := wait_for_static dflt env.calls_pre s T
    have hop := wait_for_options env.calls_pre s
    generalize wait_for env.calls_pre s = w at he hst hop
    obtain ⟨_, _, ftype, fmax, _⟩ := static_fields _ _ hst
    split at he
    · simp only [effects_of, List.mem_singleton] at he
      subst he
      exact absurd hr (by simp [Effect.is_random_wait])
    · simp only [effects_of_with_effects, List.singleton_append, List.mem_cons] at he
      rcases he with he | he
      · subst he
        exact absurd hr (by simp [Effect.is_random_wait])
      · have h := limit_check_random dflt env w.1 T rect e he hr
        rw [ftype, fmax, hop] at h
        exact h
  · rename_i hd
    simp only [hd, if_false]
    exact limit_check_random dflt env s T rect e he hr

theorem cycle_random (dflt : TaskInfo) (env : CycleEnv) (s : Assistance) (e : Effect)
    (he : e ∈ effects_of (working_proc_cycle dflt env s)) (hr : e.is_random_wait = true) :
    ∃ T, acted_task dflt env s = some T
      ∧ (getTask dflt s.m_configer.m_tasks T).type.hasBasicClick = true
      ∧ s.m_configer.m_options.control_delay_upper ≠ 0
      ∧ exec_count dflt (at_limit_check dflt env s T) T
          < (getTask dflt s.m_configer.m_tasks T).max_times
      ∧ ((0 < (getTask dflt s.m_configer.m_tasks T).pre_delay → env.stop_pre = false) →
          exec_count dflt s T < (getTask dflt s.m_configer.m_tasks T).max_times) := by
  have hnr : ∀ x ∈ Effect.getImage ::
      (match_loop dflt env.find_image s.m_configer.m_tasks s.m_next_tasks).effects,
      x.is_random_wait = false :=
    prefix_effects (fun x => x.is_random_wait = false) rfl (fun _ _ => rfl) dflt
      env.find_image s.m_configer.m_tasks s.m_next_tasks
  have hg := getTask_match_loop dflt env.find_image s.m_next_tasks s.m_configer.m_tasks
  cases hT : acted_task dflt env s with
  | some T =>
    obtain ⟨hrun, _, _, _, _⟩ := acted_task_some dflt env s T hT
    rw [cycle_of_acted dflt env s T hT, effects_of_with_effects, List.mem_append] at he
    rcases he with he | he
    · rw [hnr e he] at hr
      exact absurd hr (by simp)
    · have := execute_task_random dflt env _ T _ e he hr
      simp only [setTasks_m_tasks, setTasks_options, hg] at this
      have hlim : exec_count dflt (at_limit_check dflt env s T) T
          < (getTask dflt s.m_configer.m_tasks T).max_times := by
        unfold at_limit_check exec_count
        simp only [setTasks_m_tasks, hg]
        exact this.2.2
      refine ⟨T, rfl, this.1, this.2.1, hlim, ?_⟩
      intro hno
      have hat : at_limit_check dflt env s T = s.setTasks (match_loop dflt env.find_image
          s.m_configer.m_tasks s.m_next_tasks).m_tasks := by
        unfold at_limit_check
        simp only [setTasks_m_tasks, hg]
        by_cases hd : (getTask dflt s.m_configer.m_tasks T).pre_delay > 0
        · simp only [hd, if_true]
          rw [wait_for_no_stop env.calls_pre (s.setTasks (match_loop dflt env.find_image
            s.m_configer.m_tasks s.m_next_tasks).m_tasks) hrun (hno hd)]
        · simp only [hd, if_false]
      rw [hat] at hlim
      simpa [exec_count, setTasks_m_tasks, hg] using hlim
  | none =>
    exfalso
    unfold working_proc_cycle at he
    split at he
    · split at he
      · simp only [effects_of, List.mem_cons, List.not_mem_nil, or_false] at he
        rcases he with he | he <;> subst he <;> simp [Effect.is_random_wait] at hr
      · split at he
        · simp only [effects_of, List.mem_cons, List.not_mem_nil, or_false] at he
          rcases he with he | he | he <;> subst he <;> simp [Effect.is_random_wait] at hr
        · rename_i hrun hemp hsize
          have hm : (match_loop dflt env.find_image s.m_configer.m_tasks
              s.m_next_tasks).matched_task = "" := by
            unfold acted_task at hT
            simp only [hrun, hemp, hsize, not_false_eq_true, and_self, if_true] at hT
            by_contra hne
            simp [hne] at hT
          simp only [hm, ne_eq, not_true_eq_false, if_false, effects_of, List.cons_append,
            List.mem_cons, List.mem_append, List.not_mem_nil, or_false] at he
          rcases he with he | he | he
          · subst he; simp [Effect.is_random_wait] at hr
          · rw [hnr e (List.mem_cons_of_mem _ he)] at hr
            exact absurd hr (by simp)
          · subst he; simp [Effect.is_random_wait] at hr
    · simp only [effects_of, List.mem_singleton] at he
      subst he
      simp [Effect.is_random_wait] at hr

/-- C18: among the calls of an iteration (completed or cut short by an exception), the
randomised click wait occurs only if the iteration acted on a task whose kind carries
the `BasicClick` bit, `control_delay_upper` is non-zero and the task was within its
limit where line 232 tests it (with no stop during `pre_delay`, that is the counter the
iteration started with); in particular it never occurs when the accepted task is
`DoNothing`, `Stop` or `PrintWindow`, whatever the configured bounds. -/
theorem random_delay_only_for_clicks (dflt : TaskInfo) (env : CycleEnv) (s : Assistance) :
    (∀ ms, Effect.wait_for WaitKind.random ms ∈ effects_of (working_proc_cycle dflt env s) →
        ∃ T, acted_task dflt env s = some T
          ∧ (getTask dflt s.m_configer.m_tasks T).type.hasBasicClick = true
          ∧ s.m_configer.m_options.control_delay_upper ≠ 0
          ∧ exec_count dflt (at_limit_check dflt env s T) T
              < (getTask dflt s.m_configer.m_tasks T).max_times
          ∧ ((0 < (getTask dflt s.m_configer.m_tasks T).pre_delay → env.stop_pre = false) →
              exec_count dflt s T < (getTask dflt s.m_configer.m_tasks T).max_times))
      ∧ (∀ T, acted_task dflt env s = some T →
          ((getTask dflt s.m_configer.m_tasks T).type.hasBasicClick = false
            ∨ (getTask dflt s.m_configer.m_tasks T).type = TaskType.DoNothing
            ∨ (getTask dflt s.m_configer.m_tasks T).type = TaskType.Stop
            ∨ (getTask dflt s.m_configer.m_tasks T).type = TaskType.PrintWindow) →
          ∀ ms, Effect.wait_for WaitKind.random ms
            ∉ effects_of (working_proc_cycle dflt env s)) := by
  refine ⟨fun ms hm => cycle_random dflt env s _ hm rfl, ?_⟩
  intro T hT hkind ms hm
  obtain ⟨T', hT', hclick, _, _⟩ := cycle_random dflt env s _ hm rfl
  rw [hT] at hT'
  simp only [Option.some.injEq] at hT'
  subst hT'
  rcases hkind with h | h | h | h
  · rw [h] at hclick; exact absurd hclick (by simp)
  · rw [h] at hclick; exact absurd hclick (by simp [TaskType.hasBasicClick])
  · rw [h] at hclick; exact absurd hclick (by simp [TaskType.hasBasicClick])
  · rw [h] at hclick; exact absurd hclick (by simp [TaskType.hasBasicClick])

/-- C18 on single-task sessions with the random delay configured as 10..50 ms: a click task
within its limit performs the wait, and the theorem returns the three conditions; a
`DoNothing` task with the same options performs no such wait. -/
theorem random_delay_only_for_clicks_witness :
    (Effect.wait_for WaitKind.random 17
        ∈ effects_of (working_proc_cycle ex_default { ex_env with rand_delay := 17 }
            (ex_state_delay ex_click))
      ∧ ∃ T, acted_task ex_default { ex_env with rand_delay := 17 } (ex_state_delay ex_click)
            = some T
          ∧ (getTask ex_default (ex_state_delay ex_click).m_configer.m_tasks T).type.hasBasicClick
              = true
          ∧ (ex_state_delay ex_click).m_configer.m_options.control_delay_upper ≠ 0
          ∧ exec_count ex_default (ex_state_delay ex_click) T
              < (getTask ex_default (ex_state_delay ex_click).m_configer.m_tasks T).max_times)
      ∧ (∀ ms, Effect.wait_for WaitKind.random ms
          ∉ effects_of (working_proc_cycle ex_default ex_env (ex_state_delay ex_dead_end))) := by
  have hmem : Effect.wait_for WaitKind.random 17
      ∈ effects_of (working_proc_cycle ex_default { ex_env with rand_delay := 17 }
          (ex_state_delay ex_click)) := by decide
  obtain ⟨T, h1, h2, h3, _, h5⟩ := (random_delay_only_for_clicks ex_default
    { ex_env with rand_delay := 17 } (ex_state_delay ex_click)).1 17 hmem
  exact ⟨⟨hmem, T, h1, h2, h3, h5 (fun _ => rfl)⟩,
    (random_delay_only_for_clicks ex_default ex_env (ex_state_delay ex_dead_end)).2 "T"
      (by decide) (Or.inr (Or.inl (by decide)))⟩

/-! ## The execution limit -/

theorem within_limits_clear (dflt : TaskInfo) (c : Configer) (h : within_limits dflt c.m_tasks) :
    within_limits dflt c.clear_exec_times.m_tasks := by
  intro k
  have hk := h k
  rw [getTask_clear_exec_times]
  cases hf : TaskMap.find k c.m_tasks with
  | none =>
    simp only [getTask, hf, Option.getD_none] at hk
    exact hk
  | some t =>
    simp only [getTask, hf, Option.getD_some] at hk
    exact ⟨hk.2, hk.2⟩

theorem within_limits_count_activation (dflt : TaskInfo) (m : TaskMap) (T : String)
    (h : within_limits dflt m)
    (hlim : (getTask dflt m T).exec_times < (getTask dflt m T).max_times) :
    within_limits dflt (count_activation dflt m T) := by
  intro k
  have hk := h k
  rw [getTask_count_activation]
  simp only
  refine ⟨?_, hk.2⟩
  have hc : (0 : Int) ≤ (((getTask dflt m T).reduce_other_times.count k : Nat) : Int) :=
    Int.ofNat_nonneg _
  by_cases hkT : k = T
  · subst hkT
    simp only [if_true]
    omega
  · simp only [hkT, if_false]
    omega

theorem within_limits_congr (dflt : TaskInfo) (m m' : TaskMap)
    (hg : ∀ k, getTask dflt m' k = getTask dflt m k) (h : within_limits dflt m) :
    within_limits dflt m' := by
  intro k
  rw [hg k]
  exact h k

theorem within_limits_stop (dflt : TaskInfo) (b : Bool) (s : Assistance)
    (h : within_limits dflt s.m_configer.m_tasks) :
    within_limits dflt (stop b s).m_configer.m_tasks := by
  cases b
  · exact h
  · exact within_limits_clear dflt s.m_configer h

theorem within_limits_ext_run (dflt : TaskInfo) (c : ExtCall) (s : Assistance)
    (h : within_limits dflt s.m_configer.m_tasks) :
    within_limits dflt (c.run s).m_configer.m_tasks := by
  cases c with
  | stop => exact within_limits_clear dflt s.m_configer h
  | start task =>
    simp only [ExtCall.run, start]
    split
    · exact h
    · exact within_limits_clear dflt s.m_configer h

theorem within_limits_run_calls (dflt : TaskInfo) (calls : List ExtCall) :
    ∀ (s : Assistance), within_limits dflt s.m_configer.m_tasks →
      within_limits dflt (run_calls calls s).m_configer.m_tasks := by
  induction calls with
  | nil => intro s h; exact h
  | cons c rest ih =>
    intro s h
    rw [run_calls_cons]
    exact ih (c.run s) (within_limits_ext_run dflt c s h)

/-- Apart from a stop between the limit check and the increment, the limit is respected:
`start`, `stop` and every completed iteration during which no external stop arrives in
the random delay or the export delay keep `exec_times ≤ max_times` for every task. -/
theorem exec_limit_kept (dflt : TaskInfo) (s : Assistance)
    (h : within_limits dflt s.m_configer.m_tasks) :
    (∀ e, within_limits dflt (start e s).m_configer.m_tasks)
      ∧ (∀ b, within_limits dflt (stop b s).m_configer.m_tasks)
      ∧ (∀ (env : CycleEnv) (s' : Assistance) (evs : List Effect),
          env.stop_random = false → env.stop_print = false →
          working_proc_cycle dflt env s = .ok (s', evs) →
          within_limits dflt s'.m_configer.m_tasks) := by
  refine ⟨?_, fun b => within_limits_stop dflt b s h, ?_⟩
  · intro e
    unfold start
    split
    · exact h
    · exact within_limits_clear dflt s.m_configer h
  · intro env s' evs hrand hprint hc
    have hg := getTask_match_loop dflt env.find_image s.m_next_tasks s.m_configer.m_tasks
    have h1 : within_limits dflt (s.setTasks (match_loop dflt env.find_image
        s.m_configer.m_tasks s.m_next_tasks).m_tasks).m_configer.m_tasks :=
      within_limits_congr dflt _ _ hg h
    rcases cycle_shapes dflt env s s' evs hc with hs | hs | ⟨_, hs⟩ | ⟨T, _, _, hs⟩
    · subst hs; exact h
    · subst hs; exact h
    · subst hs; exact h1
    · generalize (s.setTasks (match_loop dflt env.find_image
        s.m_configer.m_tasks s.m_next_tasks).m_tasks) = s1 at hs h1
      obtain ⟨p, hp, hs⟩ := hs
      have hp1 : within_limits dflt p.m_configer.m_tasks := by
        rcases hp with hp | hp
        · subst hp; exact h1
        · subst hp; exact within_limits_run_calls dflt env.calls_pre _ h1
      rcases hs with ⟨hs, _⟩ | ⟨hpr, hs⟩
      · subst hs; exact hp1
      rcases hs with ⟨_, hs⟩ | ⟨hlim, q, hq, hs⟩
      · subst hs; exact hp1
      have hq' : q = p := by
        rcases hq with hq | hq
        · exact hq
        · rw [hq]
          exact run_calls_no_stop env.calls_random p hpr hrand
      subst hq'
      rcases hs with ⟨hs, _⟩ | ⟨hqr, hs⟩
      · subst hs; exact hp1
      rcases hs with ⟨_, hs⟩ | ⟨_, x, hx, z, hz, hs⟩
      · subst hs; exact hp1
      have hx' : x = q := by
        rcases hx with hx | ⟨hx, _⟩
        · exact hx
        · rw [hx]
          exact run_calls_no_stop env.calls_print q hqr hprint
      subst hx'
      have hA := within_limits_count_activation dflt _ T hp1 hlim
      have hz1 : within_limits dflt z.m_configer.m_tasks := by
        rcases hz with hz | hz
        · subst hz; exact hA
        · subst hz
          exact within_limits_run_calls dflt env.calls_rear
            (x.setTasks (count_activation dflt x.m_configer.m_tasks T)) hA
      rcases hs with hs | ⟨hs, _⟩
      · subst hs; exact hz1
      · subst hs; exact hz1

theorem nexts_str_foldl_length (names : List String) :
    ∀ (acc : String), acc.length + names.length
      ≤ (names.foldl (fun acc name => acc ++ (name ++ ",")) acc).length := by
  induction names with
  | nil => intro acc; simp
  | cons n rest ih =>
    intro acc
    have h := ih (acc ++ (n ++ ","))
    simp only [String.length_append] at h
    have hc : (",".length) = 1 := by decide
    simp only [List.foldl_cons, List.length_cons]
    omega

/-- The string built for the log line is empty exactly when the installed candidate list is
empty. -/
theorem nexts_str_eq_empty_iff (names : List String) : nexts_str names = "" ↔ names = [] := by
  constructor
  · intro h
    have hl := nexts_str_foldl_length names ""
    unfold nexts_str at h
    rw [h] at hl
    have h0 : ("".length) = 0 := by decide
    rw [h0] at hl
    cases names with
    | nil => rfl
    | cons n rest => simp at hl
  · intro h
    subst h
    rfl

/-- C20 (code at the failing input): a task that does nothing and has an empty `next` is
activated; the iteration installs the empty list, the string built from it is empty,
and the read `nexts_str.back()` of line 311 has no character to return. -/
theorem nexts_str_empty_at_back :
    ∃ s' evs, working_proc_cycle ex_default ex_env (ex_state_of ex_dead_end) = .ok (s', evs)
      ∧ s'.m_next_tasks = []
      ∧ nexts_str s'.m_next_tasks = ""
      ∧ std_back (nexts_str s'.m_next_tasks) = none :=
  ⟨_, _, rfl, rfl, by decide, by decide⟩

end asst
